import Mathlib

/-!
# MeshSkin and the transform animation decomposer

A shallow embedding of `gameplay/src/MeshSkin.cpp` (joint slots, skin counts,
root tracking, matrix palette) and of the transform animation pass of
`gameplay-encoder/src/GPBFile.cpp`.

* Nodes and joints live in a `Heap` addressed by `Ptr`; a C++ pointer is an
  `Option Ptr`, the null pointer being `none`.
* A `MeshSkin` value holds the fields of the C++ object; every member function
  becomes a function on a `World` (heap plus the skin it is called on).
* `assert` is a checked fault: a member function yields an `Outcome`, which is
  either `done` with the new state or `failed` with the fault and the state at
  the point where the fault was raised.
* `Joint::_skinCount` is declared in Joint.h, which is not part of the sources;
  it is modelled from the spec as a non-negative counter of type
  `unsigned int` (32 bits): increments and decrements are taken modulo `2 ^ 32`.
* Arithmetic that the source performs in `unsigned int` is taken modulo
  `2 ^ 32` where its result can leave the range: the palette size
  `jointCount * PALETTE_ROWS` of `setJointCount` and of `getMatrixPaletteSize`,
  the index arithmetic of the palette loop, and the conversion `(int)i` of
  `getJointIndex`.  The size of a vector is a natural number.
* `float` values are represented by the rationals they denote.  MeshSkin only
  stores literals and copies values; the decomposer copies values and compares
  `|value - 1|` with `EPSILON`, a difference that is exact for floats near 1.
* Undefined behaviour (null dereference, access outside a buffer or vector) is
  a fault, like a failed `assert`.
-/

namespace GamePlay

/-! ## Data model -/

/-- Address of a `Node`; a `Joint` is a `Node`.  The null pointer is `none`. -/
abbrev Ptr := Nat

/-- Value of a C `float`. -/
abbrev Scalar := Rat

/-- The class `Vector4`: four floats. -/
structure Vector4 where
  x : Scalar
  y : Scalar
  z : Scalar
  w : Scalar
deriving DecidableEq

/-- The class `Matrix`: sixteen floats, only ever copied by this code. -/
structure Matrix where
  m : List Scalar
deriving DecidableEq

/-- The macro `PALETTE_ROWS`: the number of rows in each palette matrix. -/
def PALETTE_ROWS : Nat := 3

/-- Number of values of `unsigned int`. -/
def UINT_RANGE : Nat := 4294967296

/-- Number of non-negative values of `int`. -/
def INT_RANGE : Nat := 2147483648

/-- Scene graph part of the heap: what `getId()` and `getParent()` return. -/
structure Hierarchy where
  id : Ptr → Option String
  parent : Ptr → Option Ptr

/-- Every node of the program: the scene graph, `Joint::_skinCount` (modelled
from the spec as an `unsigned int`, Joint.h is not part of the sources), the
reference count of `Ref` and the transform listener list of `Transform`. -/
structure Heap where
  nodes : Hierarchy
  skinCount : Ptr → Nat
  refCount : Ptr → Int
  listeners : Ptr → List (Ptr × Int)

/-- The fields of a `MeshSkin` object; `self` is its own address (`this`). -/
structure MeshSkin where
  self : Ptr
  bindShape : Matrix
  joints : List (Option Ptr)
  rootJoint : Option Ptr
  rootNode : Option Ptr
  matrixPalette : Option (List Vector4)
  model : Option Ptr

/-- The heap together with the skin a member function is called on. -/
structure World where
  heap : Heap
  skin : MeshSkin

/-- Ways in which a member function stops without completing. -/
inductive Fault where
  | assertion
  | nullDereference
  | outOfBounds
  | fuelExhausted
deriving DecidableEq

/-- Result of a member function: completed, or stopped by a fault in the
state reached when the fault was raised. -/
inductive Outcome (α : Type) where
  | done (a : α)
  | failed (f : Fault) (a : α)

/-! ## Collaborators of MeshSkin -/

/-- Modelled from the spec: `Ref::addRef` (Ref.cpp is not part of the sources),
taking one more shared reference on a node. -/
def addRef (h : Heap) (p : Ptr) : Heap :=
  { h with refCount := Function.update h.refCount p (h.refCount p + 1) }

/-- Modelled from the spec: `Ref::release` (Ref.cpp is not part of the sources),
dropping one shared reference on a node.  Nodes are owned by their node graph,
so the node itself stays in the heap. -/
def release (h : Heap) (p : Ptr) : Heap :=
  { h with refCount := Function.update h.refCount p (h.refCount p - 1) }

/-- Modelled from the spec: `Transform::addListener` (Transform.cpp is not part
of the sources), registering the pair (subscriber, tag) on the node. -/
def addListener (h : Heap) (node listener : Ptr) (cookie : Int) : Heap :=
  let added := h.listeners node ++ [(listener, cookie)]
  { h with listeners := Function.update h.listeners node added }

/-- Modelled from the spec: `Transform::removeListener` (Transform.cpp is not
part of the sources), unsubscribing the listener from the node. -/
def removeListener (h : Heap) (node listener : Ptr) : Heap :=
  let kept := (h.listeners node).filter (fun e => decide (e.1 ≠ listener))
  { h with listeners := Function.update h.listeners node kept }

/-- The statement `joint->_skinCount--` on an unsigned counter. -/
def decSkinCount (h : Heap) (p : Ptr) : Heap :=
  let c := (h.skinCount p + UINT_RANGE - 1) % UINT_RANGE
  { h with skinCount := Function.update h.skinCount p c }

/-- The statement `joint->_skinCount++` on an unsigned counter. -/
def incSkinCount (h : Heap) (p : Ptr) : Heap :=
  let c := (h.skinCount p + 1) % UINT_RANGE
  { h with skinCount := Function.update h.skinCount p c }

/-- The macro `SAFE_RELEASE(x)`: release when non-null. -/
def safeRelease (h : Heap) (x : Option Ptr) : Heap :=
  match x with
  | some p => release h p
  | none => h

/-! ## MeshSkin member functions -/

/-- The constructor `MeshSkin::MeshSkin()`; `Matrix()` is the identity. -/
def MeshSkin.new (self : Ptr) : MeshSkin :=
  { self := self
    bindShape := ⟨[1, 0, 0, 0, 0, 1, 0, 0, 0, 0, 1, 0, 0, 0, 0, 1]⟩
    joints := []
    rootJoint := none
    rootNode := none
    matrixPalette := none
    model := none }

/-- `MeshSkin::getBindShape`. -/
def getBindShape (w : World) : Matrix := w.skin.bindShape

/-- `MeshSkin::getJointCount`. -/
def getJointCount (w : World) : Nat := w.skin.joints.length

/-- `MeshSkin::getJoint(unsigned int)`. -/
def getJoint (w : World) (index : Nat) : Except Fault (Option Ptr) :=
  if index < w.skin.joints.length then
    .ok (w.skin.joints.getD index none)
  else
    .error Fault.assertion

/-- The loop of `MeshSkin::getJoint(const char*)` over the remaining slots. -/
def getJointByIdLoop (g : Hierarchy) (id : String) : List (Option Ptr) → Option Ptr
  | [] => none
  | j :: rest =>
    match j with
    | some p =>
      match g.id p with
      | some s => if s = id then some p else getJointByIdLoop g id rest
      | none => getJointByIdLoop g id rest
    | none => getJointByIdLoop g id rest

/-- `MeshSkin::getJoint(const char*)`; the identifier may be the null pointer. -/
def getJointById (w : World) (id : Option String) : Except Fault (Option Ptr) :=
  match id with
  | none => .error Fault.assertion
  | some s => .ok (getJointByIdLoop w.heap.nodes s w.skin.joints)

/-- `MeshSkin::getMatrixPaletteSize`: the product `_joints.size() * PALETTE_ROWS`
returned as `unsigned int`. -/
def getMatrixPaletteSize (w : World) : Nat :=
  (w.skin.joints.length * PALETTE_ROWS) % UINT_RANGE

/-- `MeshSkin::getModel`. -/
def getModel (w : World) : Option Ptr := w.skin.model

/-- `MeshSkin::getRootJoint`. -/
def getRootJoint (w : World) : Option Ptr := w.skin.rootJoint

/-- `MeshSkin::setRootNode`. -/
def setRootNode (w : World) (node : Option Ptr) : World :=
  if w.skin.rootNode ≠ node then
    let h1 := safeRelease w.heap w.skin.rootNode
    let h2 := match node with
      | some n => addRef h1 n
      | none => h1
    { heap := h2, skin := { w.skin with rootNode := node } }
  else
    w

/-- The upward walk of `MeshSkin::setRootJoint`: from `node`, follow parent
links until a node without parent is reached.  `none` when the fuel runs out. -/
def topLevelParent (g : Hierarchy) : Nat → Ptr → Option Ptr
  | 0, _ => none
  | fuel + 1, node =>
    match g.parent node with
    | none => some node
    | some p => topLevelParent g fuel p

/-- First statement of `MeshSkin::setRootJoint`: when a root joint is set and
has a parent, remove this skin from the listeners of that parent. -/
def detachRootListener (w : World) : Heap :=
  match w.skin.rootJoint with
  | some r =>
    match w.heap.nodes.parent r with
    | some p => removeListener w.heap p w.skin.self
    | none => w.heap
  | none => w.heap

/-- Third statement of `MeshSkin::setRootJoint`: when the new root joint is
non-null and has a parent, add this skin with cookie 1 to the listeners of
that parent. -/
def attachRootListener (h : Heap) (self : Ptr) (joint : Option Ptr) : Heap :=
  match joint with
  | some r =>
    match h.nodes.parent r with
    | some p => addListener h p self 1
    | none => h
  | none => h

/-- `MeshSkin::setRootJoint`; the fuel bounds the upward walk. -/
def setRootJoint (fuel : Nat) (w : World) (joint : Option Ptr) : Outcome World :=
  let h1 := detachRootListener w
  let h2 := attachRootListener h1 w.skin.self joint
  let w2 : World := { heap := h2, skin := { w.skin with rootJoint := joint } }
  match joint with
  | none => .done (setRootNode w2 none)
  | some r =>
    match h2.nodes.parent r with
    | none => .done (setRootNode w2 (some r))
    | some p =>
      match topLevelParent h2.nodes fuel p with
      | some top => .done (setRootNode w2 (some top))
      | none => .failed Fault.fuelExhausted w2

/-- The loop of `MeshSkin::clearJoints`: `SAFE_RELEASE` on every slot. -/
def releaseAll (h : Heap) : List (Option Ptr) → Heap
  | [] => h
  | j :: rest => releaseAll (safeRelease h j) rest

/-- `MeshSkin::clearJoints`. -/
def clearJoints (w : World) : Outcome World :=
  match setRootJoint 0 w none with
  | .failed f w1 => .failed f w1
  | .done w1 =>
    .done { heap := releaseAll w1.heap w1.skin.joints
            skin := { w1.skin with joints := [] } }

/-- One write `buffer[index] = value`; `none` when the index lies outside the
buffer. -/
def writeAt (buffer : List Vector4) (index : Nat) (value : Vector4) : Option (List Vector4) :=
  if index < buffer.length then some (buffer.set index value) else none

/-- The palette loop of `MeshSkin::setJointCount`: while `i < bound`, write the
three identity rows at `i + 0`, `i + 1`, `i + 2` and advance `i` by
`PALETTE_ROWS`, all in `unsigned int` arithmetic.  A write outside the buffer
stops the loop with the buffer as written so far. -/
def paletteInitLoop (bound : Nat) : Nat → Nat → List Vector4 → Outcome (List Vector4)
  | 0, i, pal => if i < bound then .failed Fault.fuelExhausted pal else .done pal
  | fuel + 1, i, pal =>
    if i < bound then
      match writeAt pal ((i + 0) % UINT_RANGE) ⟨1, 0, 0, 0⟩ with
      | none => .failed Fault.outOfBounds pal
      | some p0 =>
        match writeAt p0 ((i + 1) % UINT_RANGE) ⟨0, 1, 0, 0⟩ with
        | none => .failed Fault.outOfBounds p0
        | some p1 =>
          match writeAt p1 ((i + 2) % UINT_RANGE) ⟨0, 0, 1, 0⟩ with
          | none => .failed Fault.outOfBounds p1
          | some p2 => paletteInitLoop bound fuel ((i + PALETTE_ROWS) % UINT_RANGE) p2
    else
      .done pal

/-- The skin after the first half of `MeshSkin::setJointCount`: the joints
vector resized to `jointCount` null slots and `_matrixPalette` assigned. -/
def resized (w : World) (jointCount : Nat) (palette : Option (List Vector4)) : World :=
  { heap := w.heap
    skin := { w.skin with joints := List.replicate jointCount none, matrixPalette := palette } }

/-- `MeshSkin::setJointCount`; `jointCount` is an `unsigned int`.  The product
`jointCount * PALETTE_ROWS` is computed in `unsigned int`, both for the size of
the allocation and for the bound of the loop; `new Vector4[k]` yields `k` zero
vectors. -/
def setJointCount (w : World) (jointCount : Nat) : Outcome World :=
  match clearJoints w with
  | .failed f w1 => .failed f w1
  | .done w1 =>
    if jointCount > 0 then
      let rows := (jointCount * PALETTE_ROWS) % UINT_RANGE
      match paletteInitLoop rows rows 0 (List.replicate rows ⟨0, 0, 0, 0⟩) with
      | .done pal => .done (resized w1 jointCount (some pal))
      | .failed f pal => .failed f (resized w1 jointCount (some pal))
    else
      .done (resized w1 jointCount none)

/-- First block of `MeshSkin::setJoint`: when the slot holds a joint, decrement
its skin count and release it. -/
def unbindJoint (h : Heap) (slot : Option Ptr) : Heap :=
  match slot with
  | some old => release (decSkinCount h old) old
  | none => h

/-- Last block of `MeshSkin::setJoint`: when the new joint is non-null, take a
reference on it and increment its skin count. -/
def bindJoint (h : Heap) (joint : Option Ptr) : Heap :=
  match joint with
  | some j => incSkinCount (addRef h j) j
  | none => h

/-- `MeshSkin::setJoint`. -/
def setJoint (w : World) (joint : Option Ptr) (index : Nat) : Outcome World :=
  if index < w.skin.joints.length then
    let h1 := unbindJoint w.heap (w.skin.joints.getD index none)
    let h2 := bindJoint h1 joint
    .done { heap := h2, skin := { w.skin with joints := w.skin.joints.set index joint } }
  else
    .failed Fault.assertion w

/-- The conversion `(int)i` of an `unsigned int`: the values from `2 ^ 31` on
become negative. -/
def castInt (i : Nat) : Int :=
  if i < INT_RANGE then (i : Int) else (i : Int) - (UINT_RANGE : Int)

/-- The loop of `MeshSkin::getJointIndex` from slot `i` on, over the slots below
`count` that are still to visit; `++i` is taken in `unsigned int`. -/
def getJointIndexLoop (joint : Option Ptr) : Nat → List (Option Ptr) → Int
  | _, [] => -1
  | i, x :: rest =>
    if x = joint then castInt i else getJointIndexLoop joint ((i + 1) % UINT_RANGE) rest

/-- `MeshSkin::getJointIndex`; `count` is `_joints.size()` as `unsigned int`. -/
def getJointIndex (w : World) (joint : Option Ptr) : Int :=
  let count := w.skin.joints.length % UINT_RANGE
  getJointIndexLoop joint 0 (w.skin.joints.take count)

/-- Three palette rows, as written by `Joint::updateJointMatrix`. -/
abbrev Rows := Vector4 × Vector4 × Vector4

/-- Writing three rows through the pointer `&_matrixPalette[offset]`; `none`
when the buffer is null or the three rows do not lie inside it. -/
def writeRows (palette : Option (List Vector4)) (offset : Nat) (rows : Rows) :
    Option (List Vector4) :=
  match palette with
  | none => none
  | some buf =>
    if offset + PALETTE_ROWS ≤ buf.length then
      some (((buf.set (offset + 0) rows.1).set (offset + 1) rows.2.1).set (offset + 2) rows.2.2)
    else
      none

/-- The world after the buffer behind `_matrixPalette` received new contents. -/
def withPalette (w : World) (palette : Option (List Vector4)) : World :=
  { w with skin := { w.skin with matrixPalette := palette } }

/-- The loop of `MeshSkin::getMatrixPalette` from slot `i` on.  The collaborator
`Joint::updateJointMatrix` (Joint.cpp is not part of the sources) is the
argument `updateJointMatrix`: the three rows the joint writes for a bind shape. -/
def getMatrixPaletteLoop (updateJointMatrix : Heap → Ptr → Matrix → Rows) :
    Nat → List (Option Ptr) → World → Outcome World
  | _, [], w => .done w
  | i, j :: rest, w =>
    match j with
    | none => .failed Fault.nullDereference w
    | some p =>
      match writeRows w.skin.matrixPalette (i * PALETTE_ROWS)
          (updateJointMatrix w.heap p (getBindShape w)) with
      | none => .failed Fault.outOfBounds w
      | some pal =>
        getMatrixPaletteLoop updateJointMatrix (i + 1) rest (withPalette w (some pal))

/-- `MeshSkin::getMatrixPalette`; the returned pointer is the `matrixPalette`
field of the resulting skin. -/
def getMatrixPalette (updateJointMatrix : Heap → Ptr → Matrix → Rows) (w : World) :
    Outcome World :=
  getMatrixPaletteLoop updateJointMatrix 0 w.skin.joints w

/-- The rows of a palette buffer; the null buffer has none. -/
def paletteRows (w : World) : List Vector4 := w.skin.matrixPalette.getD []

/-- Body of the joint loop of `MeshSkin::clone` up to its assertion: the node
found under the cloned root joint for the identifier of the original joint,
else the cloned root joint itself when `strcmp` finds its identifier equal.
`strcmp` on a null identifier is a null dereference. -/
def cloneLookup (findNode : Hierarchy → Ptr → Option String → Option Ptr) (g : Hierarchy)
    (rootJoint oldJoint : Ptr) : Except Fault (Option Ptr) :=
  match findNode g rootJoint (g.id oldJoint) with
  | some n => .ok (some n)
  | none =>
    match g.id rootJoint, g.id oldJoint with
    | some a, some b => if a = b then .ok (some rootJoint) else .ok none
    | _, _ => .error Fault.nullDereference

/-- The joint loop of `MeshSkin::clone` from slot `i` on: `src` are the
remaining slots of the original skin, the world holds the skin being built. -/
def cloneLoop (findNode : Hierarchy → Ptr → Option String → Option Ptr) (rootJoint : Ptr) :
    Nat → List (Option Ptr) → World → Outcome World
  | _, [], c => .done c
  | i, old :: rest, c =>
    match old with
    | none => .failed Fault.nullDereference c
    | some o =>
      match cloneLookup findNode c.heap.nodes rootJoint o with
      | .error f => .failed f c
      | .ok none => .failed Fault.assertion c
      | .ok (some n) =>
        match setJoint c (some n) i with
        | .failed f c1 => .failed f c1
        | .done c1 => cloneLoop findNode rootJoint (i + 1) rest c1

/-- `MeshSkin::clone`.  The collaborators `Node::clone` and `Node::findNode`
(Node.cpp is not part of the sources) are the arguments `nodeClone` and
`findNode`; `newSelf` is the address returned by `new MeshSkin()`.  The world
returned holds the new skin. -/
def clone (nodeClone : Heap → Ptr → Heap × Ptr)
    (findNode : Hierarchy → Ptr → Option String → Option Ptr)
    (w : World) (newSelf : Ptr) : Outcome World :=
  let skin : MeshSkin := { MeshSkin.new newSelf with bindShape := w.skin.bindShape }
  match w.skin.rootNode, w.skin.rootJoint with
  | some rootNode, some rootJoint =>
    match setJointCount { heap := w.heap, skin := skin } (getJointCount w) with
    | .failed f c1 => .failed f c1
    | .done c1 =>
      if c1.skin.rootNode ≠ none then
        .failed Fault.assertion c1
      else
        let cloned := nodeClone c1.heap rootNode
        let c2 : World :=
          { heap := cloned.1, skin := { c1.skin with rootNode := some cloned.2 } }
        match findNode c2.heap.nodes cloned.2 (c2.heap.nodes.id rootJoint) with
        | none => .failed Fault.assertion c2
        | some node =>
          cloneLoop findNode node 0 w.skin.joints
            { c2 with skin := { c2.skin with rootJoint := some node } }
  | _, _ => .done { heap := w.heap, skin := skin }

/-- The destructor `MeshSkin::~MeshSkin`: `clearJoints()` and then
`SAFE_DELETE_ARRAY(_matrixPalette)`. -/
def destroyMeshSkin (w : World) : Outcome World :=
  match clearJoints w with
  | .failed f w1 => .failed f w1
  | .done w1 => .done (withPalette w1 none)

/-! ## MeshSkin::transformChanged -/

/-- The models of the scene: `Model::getNode` for every model, and for every
node how many times `Node::setBoundsDirty` was called on it. -/
structure Models where
  node : Ptr → Option Ptr
  boundsDirtyCalls : Ptr → Nat

/-- Modelled from the spec: `Node::setBoundsDirty` (Node.cpp is not part of the
sources), one more mark of the bounds of the node as dirty. -/
def setBoundsDirty (m : Models) (node : Ptr) : Models :=
  { m with boundsDirtyCalls := Function.update m.boundsDirtyCalls node (m.boundsDirtyCalls node + 1) }

/-- `MeshSkin::transformChanged`: the switch on the cookie, with its single
case 1. -/
def transformChanged (w : World) (m : Models) (_transform : Option Ptr) (cookie : Int) :
    World × Models :=
  if cookie = 1 then
    match w.skin.model with
    | some model =>
      match m.node model with
      | some node => (w, setBoundsDirty m node)
      | none => (w, m)
    | none => (w, m)
  else
    (w, m)

/-! ## GPBFile: decomposition of transform animation channels -/

/-- Modelled from the spec: the target attribute of an animation channel
(Transform.h of the encoder is not part of the sources). -/
inductive TargetAttribute where
  | single
  | scale
  | rotate
  | translate
  | scaleRotateTranslate
deriving DecidableEq

/-- Modelled from the spec: the fields of an `AnimationChannel`
(AnimationChannel.h is not part of the sources). -/
structure AnimationChannel where
  targetId : String
  targetAttribute : TargetAttribute
  keyTimes : List Scalar
  keyValues : List Scalar
  tangentsIn : List Scalar
  tangentsOut : List Scalar
  interpolations : List Nat
deriving DecidableEq

/-- Modelled from the spec: an `Animation` is the ordered collection of its
channels (Animation.h is not part of the sources). -/
abbrev Animation := List AnimationChannel

/-- Modelled from the spec: `Animation::add`, appending at the end. -/
def Animation.add (a : Animation) (c : AnimationChannel) : Animation := a ++ [c]

/-- Modelled from the spec: `Animation::remove`, removal by identity.  The
channels of an animation are distinct objects, so the identity of a channel
is its position. -/
def Animation.remove (a : Animation) (index : Nat) : Animation := a.eraseIdx index

/-- Modelled from the spec: the number of floats per key of a target attribute
(`getTargetAttributeSize` is not part of the sources). -/
def componentsPerKey : TargetAttribute → Nat
  | .single => 1
  | .scale => 3
  | .rotate => 4
  | .translate => 3
  | .scaleRotateTranslate => 10

/-- What `_refTable.get(id)` yields: an object that is a node (`getTypeId()` is
`Object::NODE_ID`), with its `isJoint()`, or an object of another type. -/
inductive ObjectRef where
  | node (isJoint : Bool)
  | other
deriving DecidableEq

/-- The macro `EPSILON`: the float denoted by the literal `1.2e-7f`. -/
def EPSILON : Scalar := 8444249 / 70368744177664

/-- The function `isAlmostOne`. -/
def isAlmostOne (value : Scalar) : Bool := decide (|value - 1| < EPSILON)

/-- The three vectors `scaleKeyValues`, `rotateKeyValues`, `translateKeyValues`
of `decomposeTransformAnimationChannel`. -/
structure KeyBuffers where
  scale : List Scalar
  rotate : List Scalar
  translate : List Scalar
deriving DecidableEq

/-- The read `keyValues[i]`; outside the vector it is a fault. -/
def readKeyValue (keyValues : List Scalar) (i : Nat) : Except Fault Scalar :=
  match keyValues[i]? with
  | some v => .ok v
  | none => .error Fault.outOfBounds

/-- The loop `for (kv = 0; kv < keyValuesSize; kv += 10)` of
`decomposeTransformAnimationChannel`, from `kv` on; the fuel bounds the number
of iterations. -/
def deinterleaveLoop (keyValues : List Scalar) : Nat → Nat → KeyBuffers → Except Fault KeyBuffers
  | 0, _, _ => .error Fault.fuelExhausted
  | fuel + 1, kv, b =>
    if kv < keyValues.length then do
      let s0 ← readKeyValue keyValues kv
      let s1 ← readKeyValue keyValues (kv + 1)
      let s2 ← readKeyValue keyValues (kv + 2)
      let r0 ← readKeyValue keyValues (kv + 3)
      let r1 ← readKeyValue keyValues (kv + 4)
      let r2 ← readKeyValue keyValues (kv + 5)
      let r3 ← readKeyValue keyValues (kv + 6)
      let t0 ← readKeyValue keyValues (kv + 7)
      let t1 ← readKeyValue keyValues (kv + 8)
      let t2 ← readKeyValue keyValues (kv + 9)
      deinterleaveLoop keyValues fuel (kv + 10)
        { scale := b.scale ++ [s0, s1, s2]
          rotate := b.rotate ++ [r0, r1, r2, r3]
          translate := b.translate ++ [t0, t1, t2] }
    else
      .ok b

/-- First part of `decomposeTransformAnimationChannel`: the three buffers built
from the key values of the channel, before any channel is created.  One more
unit of fuel than there are key values lets the loop reach its exit test. -/
def deinterleave (keyValues : List Scalar) : Except Fault KeyBuffers :=
  deinterleaveLoop keyValues (keyValues.length + 1) 0 { scale := [], rotate := [], translate := [] }

/-- The channel built for one component in `decomposeTransformAnimationChannel`,
before `removeDuplicates`: target, key times, tangents and interpolation types
of the original channel, the given target attribute and key values. -/
def componentChannel (channel : AnimationChannel) (target : TargetAttribute)
    (keyValues : List Scalar) : AnimationChannel :=
  { targetId := channel.targetId
    keyTimes := channel.keyTimes
    tangentsIn := channel.tangentsIn
    tangentsOut := channel.tangentsOut
    interpolations := channel.interpolations
    targetAttribute := target
    keyValues := keyValues }

/-- `GPBFile::decomposeTransformAnimationChannel`.  The collaborator
`AnimationChannel::removeDuplicates` (AnimationChannel.cpp is not part of the
sources) is the argument `removeDuplicates`. -/
def decomposeTransformAnimationChannel (removeDuplicates : AnimationChannel → AnimationChannel)
    (animation : Animation) (channel : AnimationChannel) : Outcome Animation :=
  match deinterleave channel.keyValues with
  | .error f => .failed f animation
  | .ok b =>
    let oneCount := b.scale.countP isAlmostOne
    let a1 :=
      if b.scale.length ≠ oneCount then
        animation.add (removeDuplicates (componentChannel channel .scale b.scale))
      else
        animation
    let a2 := a1.add (removeDuplicates (componentChannel channel .rotate b.rotate))
    let a3 := a2.add (removeDuplicates (componentChannel channel .translate b.translate))
    .done a3

/-- What the specification says of a channel built for one component: it
shares target identifier, key times, tangents and interpolation types with
the original channel, and has the target attribute of the component. -/
def SharesWith (channel : AnimationChannel) (target : TargetAttribute)
    (built : AnimationChannel) : Prop :=
  built.targetId = channel.targetId ∧ built.keyTimes = channel.keyTimes ∧
    built.tangentsIn = channel.tangentsIn ∧ built.tangentsOut = channel.tangentsOut ∧
    built.interpolations = channel.interpolations ∧ built.targetAttribute = target

/-- The test of `optimizeTransformAnimations` on a channel: its target is a node
of the reference table that is a joint, and its attribute is the combined one. -/
def qualifies (refTable : String → Option ObjectRef) (channel : AnimationChannel) : Bool :=
  match refTable channel.targetId with
  | some (.node isJoint) =>
    isJoint && decide (channel.targetAttribute = .scaleRotateTranslate)
  | _ => false

/-- The channel loop of `optimizeTransformAnimations`: `count` is one more than
the next `channelIndex`, which runs downwards to 0. -/
def optimizeChannelsLoop (removeDuplicates : AnimationChannel → AnimationChannel)
    (refTable : String → Option ObjectRef) : Nat → Animation → Outcome Animation
  | 0, animation => .done animation
  | channelIndex + 1, animation =>
    match animation[channelIndex]? with
    | none => .failed Fault.assertion animation
    | some channel =>
      if qualifies refTable channel then
        match decomposeTransformAnimationChannel removeDuplicates animation channel with
        | .failed f a1 => .failed f a1
        | .done a1 =>
          optimizeChannelsLoop removeDuplicates refTable channelIndex (a1.remove channelIndex)
      else
        optimizeChannelsLoop removeDuplicates refTable channelIndex animation

/-- Body of the animation loop of `optimizeTransformAnimations` for one
animation. -/
def optimizeAnimation (removeDuplicates : AnimationChannel → AnimationChannel)
    (refTable : String → Option ObjectRef) (animation : Animation) : Outcome Animation :=
  optimizeChannelsLoop removeDuplicates refTable animation.length animation

/-- The animation loop of `optimizeTransformAnimations`: `processed` are the
animations already visited, `rest` those still to visit. -/
def optimizeAnimationsLoop (removeDuplicates : AnimationChannel → AnimationChannel)
    (refTable : String → Option ObjectRef) :
    List Animation → List Animation → Outcome (List Animation)
  | processed, [] => .done processed
  | processed, animation :: rest =>
    match optimizeAnimation removeDuplicates refTable animation with
    | .failed f a1 => .failed f (processed ++ a1 :: rest)
    | .done a1 => optimizeAnimationsLoop removeDuplicates refTable (processed ++ [a1]) rest

/-- `GPBFile::optimizeTransformAnimations` on the animations of the file. -/
def optimizeTransformAnimations (removeDuplicates : AnimationChannel → AnimationChannel)
    (refTable : String → Option ObjectRef) (animations : List Animation) :
    Outcome (List Animation) :=
  optimizeAnimationsLoop removeDuplicates refTable [] animations

/-! ## FlowLayout::update -/

/-- The class `Rectangle`: position and size. -/
structure Rectangle where
  x : Scalar
  y : Scalar
  width : Scalar
  height : Scalar
deriving DecidableEq

/-- The four sides of `Theme::Margin`, `Theme::Border` and `Theme::Padding`
(Theme.h is not part of the sources). -/
structure Sides where
  top : Scalar
  bottom : Scalar
  left : Scalar
  right : Scalar
deriving DecidableEq

/-- What `FlowLayout::update` uses of a `Control` (Control.h is not part of the
sources): its bounds, its margin, `isDirty()` and `isContainer()`. -/
structure Control where
  bounds : Rectangle
  margin : Sides
  dirty : Bool
  container : Bool
deriving DecidableEq

/-- What `FlowLayout::update` uses of a `Container` (Container.h is not part of
the sources): clip bounds, border of the current state, padding, the clip
handed to the controls, and the controls. -/
structure Container where
  clipBounds : Rectangle
  border : Sides
  padding : Sides
  clip : Rectangle
  controls : List Control

/-- Modelled from the spec: `Control::setPosition` (Control.cpp is not part of
the sources), storing the position in the bounds of the control. -/
def setPosition (c : Control) (x y : Scalar) : Control :=
  { c with bounds := { c.bounds with x := x, y := y } }

/-- The local variables of `FlowLayout::update` that live across iterations
(`yPosition` is assigned afresh in every iteration). -/
structure FlowState where
  xPosition : Scalar
  rowY : Scalar
  tallestHeight : Scalar
deriving DecidableEq

/-- One control as left by an iteration of the loop, with the record of whether
the iteration took the wrap branch. -/
structure Placed where
  control : Control
  wrapped : Bool
deriving DecidableEq

/-- The test of the wrap branch for a control, with `xPosition` already advanced
by the left margin. -/
def wraps (clipWidth : Scalar) (st : FlowState) (c : Control) : Bool :=
  decide (st.xPosition + c.margin.left + c.bounds.width ≥ clipWidth)

/-- The body of the loop of `FlowLayout::update` for one control.  The
collaborator `Control::update` (Control.cpp is not part of the sources) is the
argument `controlUpdate`; the bounds read after it are those of the control
it returns. -/
def flowStep (clipWidth : Scalar) (controlUpdate : Rectangle → Control → Control)
    (clip : Rectangle) (st : FlowState) (c : Control) : FlowState × Placed :=
  let x0 := st.xPosition + c.margin.left
  let wrap := wraps clipWidth st c
  let x1 := if wrap then c.margin.left else x0
  let rowY := if wrap then st.rowY + st.tallestHeight else st.rowY
  let yPosition := rowY + c.margin.top
  let c1 := setPosition c x1 yPosition
  let c2 := if c1.dirty || c1.container then controlUpdate clip c1 else c1
  let x2 := x1 + (c2.bounds.width + c2.margin.right)
  let height := c2.bounds.height + c2.margin.top + c2.margin.bottom
  let tallest := if height > st.tallestHeight then height else st.tallestHeight
  ({ xPosition := x2, rowY := rowY, tallestHeight := tallest },
   { control := c2, wrapped := wrap })

/-- The loop of `FlowLayout::update` over the remaining controls. -/
def flowLoop (clipWidth : Scalar) (controlUpdate : Rectangle → Control → Control)
    (clip : Rectangle) : List Control → FlowState → List Placed
  | [], _ => []
  | c :: rest, st =>
    (flowStep clipWidth controlUpdate clip st c).2 ::
      flowLoop clipWidth controlUpdate clip rest (flowStep clipWidth controlUpdate clip st c).1

/-- The local `clipWidth` of `FlowLayout::update`. -/
def clipWidth (container : Container) : Scalar :=
  container.clipBounds.width - container.border.left - container.border.right -
    container.padding.left - container.padding.right

/-- `FlowLayout::update`: the controls of the container as the loop leaves them,
in order. -/
def flowLayoutUpdate (controlUpdate : Rectangle → Control → Control) (container : Container) :
    List Placed :=
  flowLoop (clipWidth container) controlUpdate container.clip container.controls
    { xPosition := 0, rowY := 0, tallestHeight := 0 }

/-- A control with non-negative width, height and margins. -/
def nonNegative (c : Control) : Prop :=
  0 ≤ c.bounds.width ∧ 0 ≤ c.bounds.height ∧ 0 ≤ c.margin.left ∧ 0 ≤ c.margin.right ∧
    0 ≤ c.margin.top ∧ 0 ≤ c.margin.bottom

/-- Two bounds rectangles share a point of their interiors. -/
def overlap (a b : Rectangle) : Prop :=
  a.x < b.x + b.width ∧ b.x < a.x + a.width ∧ a.y < b.y + b.height ∧ b.y < a.y + a.height

/-! ## Reachable states -/

/-- The number of slots of a skin that hold the node `p`. -/
def slotsHolding (s : MeshSkin) (p : Ptr) : Nat := s.joints.count (some p)

/-- The states reached from a new skin, created when the reference counts were
`base`, by completed calls of `setJointCount`, `setJoint` and `setRootJoint`. -/
inductive RefReachable (base : Ptr → Int) : World → Prop where
  | init (h : Heap) (self : Ptr) :
      h.refCount = base → RefReachable base { heap := h, skin := MeshSkin.new self }
  | jointCount (w w' : World) (n : Nat) :
      RefReachable base w → setJointCount w n = .done w' → RefReachable base w'
  | joint (w w' : World) (j : Option Ptr) (index : Nat) :
      RefReachable base w → setJoint w j index = .done w' → RefReachable base w'
  | rootJoint (w w' : World) (fuel : Nat) (j : Option Ptr) :
      RefReachable base w → setRootJoint fuel w j = .done w' → RefReachable base w'

/-- The number of (skin, slot) pairs that hold the joint `p`. -/
def holders (skins : List MeshSkin) (p : Ptr) : Nat :=
  (skins.map (fun s => slotsHolding s p)).sum

/-- The states of a heap shared by several skins that are reached, with `n`
completed calls of `setJoint` and any number of completed calls of
`setJointCount` on any of the skins in any order, from skin counts that are
all 0 and skins without slots. -/
inductive SkinsReachable : Nat → Heap → List MeshSkin → Prop where
  | init (h : Heap) (skins : List MeshSkin) :
      (∀ p, h.skinCount p = 0) → (∀ s ∈ skins, s.joints = []) → SkinsReachable 0 h skins
  | jointCount (n : Nat) (h : Heap) (skins : List MeshSkin) (i : Nat) (s : MeshSkin)
      (w' : World) (count : Nat) :
      SkinsReachable n h skins → skins[i]? = some s →
      setJointCount { heap := h, skin := s } count = .done w' →
      SkinsReachable n w'.heap (skins.set i w'.skin)
  | joint (n : Nat) (h : Heap) (skins : List MeshSkin) (i : Nat) (s : MeshSkin)
      (w' : World) (j : Option Ptr) (index : Nat) :
      SkinsReachable n h skins → skins[i]? = some s →
      setJoint { heap := h, skin := s } j index = .done w' →
      SkinsReachable (n + 1) w'.heap (skins.set i w'.skin)

/-! ## Reference values and sample states -/

/-- The three rows of one slot as a list; a null slot contributes nothing. -/
def slotRows (updateJointMatrix : Heap → Ptr → Matrix → Rows) (h : Heap) (bindShape : Matrix)
    (slot : Option Ptr) : List Vector4 :=
  match slot with
  | some p =>
    [(updateJointMatrix h p bindShape).1, (updateJointMatrix h p bindShape).2.1,
      (updateJointMatrix h p bindShape).2.2]
  | none => []

/-- The palette described by the specification: slot by slot, the three rows
the joint produces for the bind shape.  It does not mention any buffer. -/
def skinningPalette (updateJointMatrix : Heap → Ptr → Matrix → Rows) (h : Heap)
    (bindShape : Matrix) (joints : List (Option Ptr)) : List Vector4 :=
  (joints.map (slotRows updateJointMatrix h bindShape)).flatten

/-- The palette in which every joint has the three identity rows. -/
def identityPalette (n : Nat) : List Vector4 :=
  (List.replicate n [(⟨1, 0, 0, 0⟩ : Vector4), ⟨0, 1, 0, 0⟩, ⟨0, 0, 1, 0⟩]).flatten

/-- The state of `MeshSkin::clone` right after `_rootNode->clone()`: the heap
holds the copied subtree and the new skin has `jointCount` null slots, the
identity palette, the copied bind shape and the copied root node. -/
def cloneBase (nodeClone : Heap → Ptr → Heap × Ptr) (w : World) (newSelf rootNode : Ptr) :
    World :=
  { heap := (nodeClone w.heap rootNode).1
    skin :=
      { self := newSelf
        bindShape := w.skin.bindShape
        joints := List.replicate (getJointCount w) none
        rootJoint := none
        rootNode := some (nodeClone w.heap rootNode).2
        matrixPalette :=
          if getJointCount w > 0 then some (identityPalette (getJointCount w)) else none
        model := none } }

/-- The assignment `skin->_rootJoint = node` of `MeshSkin::clone`. -/
def withRootJoint (c : World) (node : Ptr) : World :=
  { c with skin := { c.skin with rootJoint := some node } }

/-- The de-interleaving described by the specification, on the list of key
values itself: each key of 10 floats gives 3 floats of scale, 4 of rotation and
3 of translation; `none` when the last key is incomplete. -/
def splitKeys : List Scalar → Option KeyBuffers
  | [] => some { scale := [], rotate := [], translate := [] }
  | s0 :: s1 :: s2 :: r0 :: r1 :: r2 :: r3 :: t0 :: t1 :: t2 :: rest =>
    match splitKeys rest with
    | some b =>
      some { scale := s0 :: s1 :: s2 :: b.scale
             rotate := r0 :: r1 :: r2 :: r3 :: b.rotate
             translate := t0 :: t1 :: t2 :: b.translate }
    | none => none
  | _ => none

/-- Re-interleaving of three buffers key by key: 3 floats of scale, 4 of
rotation, 3 of translation per key. -/
def interleave : List Scalar → List Scalar → List Scalar → List Scalar
  | s0 :: s1 :: s2 :: s, r0 :: r1 :: r2 :: r3 :: r, t0 :: t1 :: t2 :: t =>
    s0 :: s1 :: s2 :: r0 :: r1 :: r2 :: r3 :: t0 :: t1 :: t2 :: interleave s r t
  | _, _, _ => []

/-- The channels that `decomposeTransformAnimationChannel` appends for a
channel: what it leaves in an animation that was empty. -/
def decompositionOutputs (removeDuplicates : AnimationChannel → AnimationChannel)
    (channel : AnimationChannel) : List AnimationChannel :=
  match decomposeTransformAnimationChannel removeDuplicates [] channel with
  | .done added => added
  | .failed _ _ => []

/-- The channel list the specification describes for an optimized animation:
the channels that do not qualify, in their order, followed by the outputs of
the qualifying channels taken from the last to the first. -/
def optimizedChannels (removeDuplicates : AnimationChannel → AnimationChannel)
    (refTable : String → Option ObjectRef) (animation : Animation) : Animation :=
  animation.filter (fun c => !qualifies refTable c) ++
    (((animation.filter (qualifies refTable)).reverse).map
      (decompositionOutputs removeDuplicates)).flatten

/-- A combined channel on the joint "hip" with a single key of non-unit scale. -/
def scaledChannel : AnimationChannel :=
  { targetId := "hip"
    targetAttribute := .scaleRotateTranslate
    keyTimes := [0]
    keyValues := [2, 1, 1, 0, 0, 0, 1, 0, 0, 0]
    tangentsIn := []
    tangentsOut := []
    interpolations := [1] }

/-- A combined channel on the joint "hip" whose only key lacks its last five
floats. -/
def shortChannel : AnimationChannel :=
  { scaledChannel with keyValues := [1, 1, 1, 0, 0] }

/-- A translation channel on the node "camera". -/
def cameraChannel : AnimationChannel :=
  { targetId := "camera"
    targetAttribute := .translate
    keyTimes := [0]
    keyValues := [1, 2, 3]
    tangentsIn := []
    tangentsOut := []
    interpolations := [1] }

/-- A reference table in which "hip" is a joint and "camera" a node that is
not a joint. -/
def sampleRefTable (id : String) : Option ObjectRef :=
  if id = "hip" then some (.node true)
  else if id = "camera" then some (.node false)
  else none

/-- The node reached from `p` by following `k` parent links, if there is one. -/
def ancestorAt (g : Hierarchy) : Nat → Ptr → Option Ptr
  | 0, p => some p
  | k + 1, p =>
    match g.parent p with
    | none => none
    | some q => ancestorAt g k q

/-- The root invariant of the specification: without root joint there is no
root node, and otherwise the root node is reached from the root joint by
parent links and has no parent. -/
def RootInvariant (w : World) : Prop :=
  match w.skin.rootJoint with
  | none => w.skin.rootNode = none
  | some j =>
    ∃ top k, w.skin.rootNode = some top ∧ ancestorAt w.heap.nodes k j = some top ∧
      w.heap.nodes.parent top = none

/-- The states reached from a new skin by completed calls of `setRootJoint` and
`setJointCount`. -/
inductive RootReachable : World → Prop where
  | init (h : Heap) (self : Ptr) : RootReachable { heap := h, skin := MeshSkin.new self }
  | rootJoint (w w' : World) (fuel : Nat) (joint : Option Ptr) :
      RootReachable w → setRootJoint fuel w joint = .done w' → RootReachable w'
  | jointCount (w w' : World) (n : Nat) :
      RootReachable w → setJointCount w n = .done w' → RootReachable w'

/-- The registrations of the skin at address `self` in the listener list of a
node. -/
def registrations (h : Heap) (self node : Ptr) : List (Ptr × Int) :=
  (h.listeners node).filter (fun e => decide (e.1 = self))

/-- The registrations the specification describes: one, with tag 1, on the
parent of the root joint when there is a root joint and it has a parent, and
none on any other node. -/
def expectedRegistrations (w : World) (node : Ptr) : List (Ptr × Int) :=
  match w.skin.rootJoint with
  | some r => if w.heap.nodes.parent r = some node then [(w.skin.self, 1)] else []
  | none => []

/-- The states reached by completed calls of `setRootJoint` from a skin without
root joint that is registered on no node. -/
inductive ListenerReachable : World → Prop where
  | init (h : Heap) (s : MeshSkin) :
      s.rootJoint = none → (∀ node, registrations h s.self node = []) →
      ListenerReachable { heap := h, skin := s }
  | rootJoint (w w' : World) (fuel : Nat) (joint : Option Ptr) :
      ListenerReachable w → setRootJoint fuel w joint = .done w' → ListenerReachable w'

/-- The state of `MeshSkin::setRootJoint` after its listener bookkeeping and the
assignment of `_rootJoint`, before the root node is looked for. -/
def rootJointAssigned (w : World) (joint : Option Ptr) : World :=
  { heap := attachRootListener (detachRootListener w) w.skin.self joint
    skin := { w.skin with rootJoint := joint } }

/-- A scene of three nodes: node 0 "root" is the parent of joint 1 "hip",
which is the parent of joint 2 "knee".  Joint 1 is bound once. -/
def sampleHeap : Heap :=
  { nodes :=
      { id := fun p =>
          if p = 0 then some "root" else if p = 1 then some "hip"
          else if p = 2 then some "knee" else none
        parent := fun p => if p = 1 then some 0 else if p = 2 then some 1 else none }
    skinCount := fun p => if p = 1 then 1 else 0
    refCount := fun p => if p = 1 then 2 else 1
    listeners := fun _ => [] }

/-- Whether `r` is reached from `p` by at least one parent link, looking at
most `fuel` links up. -/
def isAncestor (g : Hierarchy) (r : Ptr) : Nat → Ptr → Bool
  | 0, _ => false
  | fuel + 1, p =>
    match g.parent p with
    | none => false
    | some q => q == r || isAncestor g r fuel q

/-- A `Node::findNode` for scenes of at most 16 nodes and depth at most 4: the
lowest-addressed node strictly below `r` that carries the identifier; a null
identifier finds nothing. -/
def sampleFindNode (g : Hierarchy) (r : Ptr) (id : Option String) : Option Ptr :=
  match id with
  | none => none
  | some s => (List.range 16).find? (fun p => isAncestor g r 4 p && decide (g.id p = some s))

/-- A `Node::clone` for the sample scene, whose nodes 0, 1, 2 form one tree
under node 0: the copy of node `p` is node `p + 10`, with the same identifier,
the copied parent, no parent for the copy of node 0, skin count 0 and one
reference. -/
def sampleNodeClone (h : Heap) (r : Ptr) : Heap × Ptr :=
  ({ nodes :=
       { id := fun p => if 10 ≤ p ∧ p < 13 then h.nodes.id (p - 10) else h.nodes.id p
         parent := fun p =>
           if 10 < p ∧ p < 13 then (h.nodes.parent (p - 10)).map (fun q => q + 10)
           else if p = 10 then none else h.nodes.parent p }
     skinCount := fun p => if 10 ≤ p ∧ p < 13 then 0 else h.skinCount p
     refCount := fun p => if 10 ≤ p ∧ p < 13 then 1 else h.refCount p
     listeners := fun p => if 10 ≤ p ∧ p < 13 then [] else h.listeners p },
   r + 10)

/-- A skin at address 61 bound to joints 1 and 2 with root joint 1, whose top
level parent is node 0. -/
def rootedWorld : World :=
  { heap := sampleHeap
    skin :=
      { MeshSkin.new 61 with
        joints := [some 1, some 2]
        rootJoint := some 1
        rootNode := some 0
        matrixPalette := some (identityPalette 2) } }

/-- A skin at address 62 without slots whose root joint is node 0, which has no
parent and therefore is the root node as well. -/
def topRootWorld : World :=
  { heap := sampleHeap
    skin := { MeshSkin.new 62 with rootJoint := some 0, rootNode := some 0 } }

/-- Rows a sample joint writes: its address on the diagonal. -/
def sampleRows (_h : Heap) (p : Ptr) (_bindShape : Matrix) : Rows :=
  (⟨p, 0, 0, 0⟩, ⟨0, p, 0, 0⟩, ⟨0, 0, p, 0⟩)

/-- A skin at address 60 with two slots bound to joints 1 and 2, as left by
`setJointCount(2)` followed by the two `setJoint` calls. -/
def boundWorld : World :=
  { heap := sampleHeap
    skin :=
      { MeshSkin.new 60 with
        joints := [some 1, some 2]
        matrixPalette := some (identityPalette 2) } }

/-- A skin at address 50 with two slots, slot 0 bound to joint 1, and no root. -/
def sampleWorld : World :=
  { heap := sampleHeap
    skin :=
      { MeshSkin.new 50 with
        joints := [some 1, none]
        matrixPalette := some (identityPalette 2) } }

/-- A skin at address 63 owned by model 7, with the sample scene. -/
def modelWorld : World :=
  { heap := sampleHeap, skin := { MeshSkin.new 63 with model := some 7 } }

/-- Models of the sample scene: model 7 sits on node 0, no bounds marked. -/
def sampleModels : Models :=
  { node := fun m => if m = 7 then some 0 else none
    boundsDirtyCalls := fun _ => 0 }

/-- The sample scene before any joint is bound: every skin count is 0. -/
def freshHeap : Heap := { sampleHeap with skinCount := fun _ => 0 }

/-- A container of width 100 with three controls of width 40 and margins 1:
the third does not fit the first row. -/
def sampleContainer : Container :=
  let zero : Sides := { top := 0, bottom := 0, left := 0, right := 0 }
  let one : Sides := { top := 1, bottom := 1, left := 1, right := 1 }
  { clipBounds := { x := 0, y := 0, width := 100, height := 100 }
    border := zero
    padding := zero
    clip := { x := 0, y := 0, width := 100, height := 100 }
    controls :=
      [{ bounds := { x := 0, y := 0, width := 40, height := 10 }, margin := one,
         dirty := true, container := false },
       { bounds := { x := 0, y := 0, width := 40, height := 20 }, margin := one,
         dirty := false, container := false },
       { bounds := { x := 0, y := 0, width := 40, height := 10 }, margin := one,
         dirty := false, container := true }] }

/-! ## Auxiliary facts -/

theorem identityPalette_succ (n : Nat) :
    identityPalette (n + 1) =
      (⟨1, 0, 0, 0⟩ : Vector4) :: ⟨0, 1, 0, 0⟩ :: ⟨0, 0, 1, 0⟩ :: identityPalette n := by
  simp [identityPalette, List.replicate_succ]

theorem identityPalette_length (n : Nat) : (identityPalette n).length = 3 * n := by
  induction n with
  | zero => simp [identityPalette]
  | succ n ih => rw [identityPalette_succ]; simp [ih]; omega

theorem identityPalette_snoc (k : Nat) (rest : List Vector4) :
    identityPalette (k + 1) ++ rest =
      identityPalette k ++
        ((⟨1, 0, 0, 0⟩ : Vector4) :: ⟨0, 1, 0, 0⟩ :: ⟨0, 0, 1, 0⟩ :: rest) := by
  induction k with
  | zero => simp [identityPalette]
  | succ k ih =>
    rw [identityPalette_succ (k + 1)]
    simp only [List.cons_append]
    rw [ih, identityPalette_succ k]
    simp

theorem identityPalette_rows (n i : Nat) (hi : i < n) :
    (identityPalette n)[3 * i]? = some ⟨1, 0, 0, 0⟩ ∧
    (identityPalette n)[3 * i + 1]? = some ⟨0, 1, 0, 0⟩ ∧
    (identityPalette n)[3 * i + 2]? = some ⟨0, 0, 1, 0⟩ := by
  induction n generalizing i with
  | zero => omega
  | succ n ih =>
    rw [identityPalette_succ]
    cases i with
    | zero => simp
    | succ j =>
      have hj : j < n := by omega
      obtain ⟨h0, h1, h2⟩ := ih j hj
      have e0 : 3 * (j + 1) = (3 * j) + 1 + 1 + 1 := by omega
      have e1 : 3 * (j + 1) + 1 = (3 * j + 1) + 1 + 1 + 1 := by omega
      have e2 : 3 * (j + 1) + 2 = (3 * j + 2) + 1 + 1 + 1 := by omega
      rw [e1, e2, e0]
      simp only [List.getElem?_cons_succ]
      exact ⟨h0, h1, h2⟩

theorem writeAt_lt (buffer : List Vector4) (index : Nat) (value : Vector4)
    (h : index < buffer.length) : writeAt buffer index value = some (buffer.set index value) := by
  simp [writeAt, h]

theorem writeAt_some (buffer out : List Vector4) (index : Nat) (value : Vector4)
    (h : writeAt buffer index value = some out) :
    index < buffer.length ∧ out.length = buffer.length := by
  unfold writeAt at h
  by_cases hi : index < buffer.length
  · rw [if_pos hi] at h
    have := Option.some.inj h
    subst this
    exact ⟨hi, List.length_set _ _ _⟩
  · rw [if_neg hi] at h
    cases h

/-- The palette loop, started after `k` joints on a buffer whose first `k`
joints are already written, ends with the identity palette for all `n`, when
the size `3 * n` of the palette is an `unsigned int`. -/
theorem paletteInitLoop_spec (n : Nat) (hn : n * PALETTE_ROWS < UINT_RANGE) :
    ∀ (d k fuel : Nat), k + d = n → d ≤ fuel →
      paletteInitLoop (n * PALETTE_ROWS) fuel (k * PALETTE_ROWS)
        (identityPalette k ++ List.replicate (d * PALETTE_ROWS) ⟨0, 0, 0, 0⟩)
        = .done (identityPalette n) := by
  intro d
  induction d with
  | zero =>
    intro k fuel hk _
    have hkn : k = n := by omega
    subst hkn
    cases fuel with
    | zero => simp [paletteInitLoop]
    | succ f => simp [paletteInitLoop]
  | succ d ih =>
    intro k fuel hk hf
    obtain ⟨f, rfl⟩ : ∃ f, fuel = f + 1 := ⟨fuel - 1, by omega⟩
    have hlt : k * PALETTE_ROWS < n * PALETTE_ROWS := by
      simp only [PALETTE_ROWS]; omega
    have hlen : (identityPalette k).length = k * PALETTE_ROWS := by
      rw [identityPalette_length]; simp only [PALETTE_ROWS]; omega
    have hrep : List.replicate ((d + 1) * PALETTE_ROWS) (⟨0, 0, 0, 0⟩ : Vector4) =
        ⟨0, 0, 0, 0⟩ :: ⟨0, 0, 0, 0⟩ :: ⟨0, 0, 0, 0⟩ ::
          List.replicate (d * PALETTE_ROWS) ⟨0, 0, 0, 0⟩ := by
      have : (d + 1) * PALETTE_ROWS = d * PALETTE_ROWS + 1 + 1 + 1 := by
        simp only [PALETTE_ROWS]; omega
      rw [this]
      simp [List.replicate_succ]
    have hstep := ih (k + 1) f (by omega) (by omega)
    have hm0 : (k * PALETTE_ROWS + 0) % UINT_RANGE = k * PALETTE_ROWS + 0 :=
      Nat.mod_eq_of_lt (by simp only [PALETTE_ROWS] at *; omega)
    have hm1 : (k * PALETTE_ROWS + 1) % UINT_RANGE = k * PALETTE_ROWS + 1 :=
      Nat.mod_eq_of_lt (by simp only [PALETTE_ROWS] at *; omega)
    have hm2 : (k * PALETTE_ROWS + 2) % UINT_RANGE = k * PALETTE_ROWS + 2 :=
      Nat.mod_eq_of_lt (by simp only [PALETTE_ROWS] at *; omega)
    have hm3 : (k * PALETTE_ROWS + PALETTE_ROWS) % UINT_RANGE = k * PALETTE_ROWS + PALETTE_ROWS :=
      Nat.mod_eq_of_lt (by simp only [PALETTE_ROWS] at *; omega)
    rw [paletteInitLoop, if_pos hlt, hrep, hm0, hm1, hm2, hm3]
    rw [writeAt_lt _ _ _ (by simp [hlen])]
    simp only
    rw [writeAt_lt _ _ _ (by simp [hlen])]
    simp only
    rw [writeAt_lt _ _ _ (by simp [hlen])]
    simp only
    have hidx : (k + 1) * PALETTE_ROWS = k * PALETTE_ROWS + PALETTE_ROWS := by
      simp only [PALETTE_ROWS]; omega
    rw [hidx, identityPalette_snoc] at hstep
    rw [← hstep]
    congr 1
    rw [← hlen]
    simp [List.set_append_right]

theorem paletteInit_eq (n : Nat) (hn : n * PALETTE_ROWS < UINT_RANGE) :
    paletteInitLoop (n * PALETTE_ROWS) (n * PALETTE_ROWS) 0
      (List.replicate (n * PALETTE_ROWS) ⟨0, 0, 0, 0⟩) = .done (identityPalette n) := by
  have h := paletteInitLoop_spec n hn n 0 (n * PALETTE_ROWS) (by omega)
    (by simp only [PALETTE_ROWS]; omega)
  simpa [identityPalette] using h

/-- A buffer whose size is not a multiple of three is overrun by the palette
loop: the loop stops on a write outside the buffer. -/
theorem paletteInitLoop_misfit (bound : Nat) (hb : bound % 3 ≠ 0) (hr : bound < UINT_RANGE) :
    ∀ (fuel i : Nat) (pal : List Vector4), i % 3 = 0 → i ≤ bound → pal.length = bound →
      bound ≤ i + fuel →
      ∃ out, paletteInitLoop bound fuel i pal = .failed Fault.outOfBounds out ∧
        out.length = bound := by
  intro fuel
  induction fuel with
  | zero =>
    intro i pal hi hle _ hf
    have : i = bound := by omega
    subst this
    exact absurd hi hb
  | succ f ih =>
    intro i pal hi hle hlen hf
    have hlt : i < bound := by
      rcases Nat.lt_or_ge i bound with h | h
      · exact h
      · have : i = bound := by omega
        subst this
        exact absurd hi hb
    rw [paletteInitLoop, if_pos hlt]
    cases h0 : writeAt pal ((i + 0) % UINT_RANGE) ⟨1, 0, 0, 0⟩ with
    | none => exact ⟨pal, rfl, hlen⟩
    | some p0 =>
      obtain ⟨_, hl0⟩ := writeAt_some _ _ _ _ h0
      simp only
      cases h1 : writeAt p0 ((i + 1) % UINT_RANGE) ⟨0, 1, 0, 0⟩ with
      | none => exact ⟨p0, rfl, by omega⟩
      | some p1 =>
        obtain ⟨_, hl1⟩ := writeAt_some _ _ _ _ h1
        simp only
        cases h2 : writeAt p1 ((i + 2) % UINT_RANGE) ⟨0, 0, 1, 0⟩ with
        | none => exact ⟨p1, rfl, by omega⟩
        | some p2 =>
          obtain ⟨hi2, hl2⟩ := writeAt_some _ _ _ _ h2
          simp only
          have hmod2 : (i + 2) % UINT_RANGE = i + 2 :=
            Nat.mod_eq_of_lt (by simp only [UINT_RANGE] at *; omega)
          rw [hmod2] at hi2
          have hmod3 : (i + PALETTE_ROWS) % UINT_RANGE = i + 3 :=
            Nat.mod_eq_of_lt (by simp only [UINT_RANGE, PALETTE_ROWS] at *; omega)
          rw [hmod3]
          exact ih (i + 3) p2 (by omega) (by omega) (by omega) (by omega)

@[simp] theorem addRef_skinCount (h : Heap) (p : Ptr) :
    (addRef h p).skinCount = h.skinCount := rfl

@[simp] theorem release_skinCount (h : Heap) (p : Ptr) :
    (release h p).skinCount = h.skinCount := rfl

@[simp] theorem addRef_nodes (h : Heap) (p : Ptr) : (addRef h p).nodes = h.nodes := rfl

@[simp] theorem release_nodes (h : Heap) (p : Ptr) : (release h p).nodes = h.nodes := rfl

@[simp] theorem incSkinCount_nodes (h : Heap) (p : Ptr) :
    (incSkinCount h p).nodes = h.nodes := rfl

@[simp] theorem decSkinCount_nodes (h : Heap) (p : Ptr) :
    (decSkinCount h p).nodes = h.nodes := rfl

@[simp] theorem removeListener_skinCount (h : Heap) (n l : Ptr) :
    (removeListener h n l).skinCount = h.skinCount := rfl

@[simp] theorem removeListener_nodes (h : Heap) (n l : Ptr) :
    (removeListener h n l).nodes = h.nodes := rfl

@[simp] theorem safeRelease_skinCount (h : Heap) (x : Option Ptr) :
    (safeRelease h x).skinCount = h.skinCount := by
  cases x <;> rfl

@[simp] theorem safeRelease_nodes (h : Heap) (x : Option Ptr) :
    (safeRelease h x).nodes = h.nodes := by
  cases x <;> rfl

@[simp] theorem releaseAll_skinCount (js : List (Option Ptr)) (h : Heap) :
    (releaseAll h js).skinCount = h.skinCount := by
  induction js generalizing h with
  | nil => rfl
  | cons j rest ih => simp [releaseAll, ih]

@[simp] theorem releaseAll_nodes (js : List (Option Ptr)) (h : Heap) :
    (releaseAll h js).nodes = h.nodes := by
  induction js generalizing h with
  | nil => rfl
  | cons j rest ih => simp [releaseAll, ih]

@[simp] theorem detachRootListener_skinCount (w : World) :
    (detachRootListener w).skinCount = w.heap.skinCount := by
  unfold detachRootListener
  cases w.skin.rootJoint with
  | none => rfl
  | some r =>
    cases hp : w.heap.nodes.parent r with
    | none => simp [hp]
    | some q => simp [hp]

@[simp] theorem detachRootListener_nodes (w : World) :
    (detachRootListener w).nodes = w.heap.nodes := by
  unfold detachRootListener
  cases w.skin.rootJoint with
  | none => rfl
  | some r =>
    cases hp : w.heap.nodes.parent r with
    | none => simp [hp]
    | some q => simp [hp]

theorem setRootNode_null (h : Heap) (s : MeshSkin) :
    ∃ h1, h1.skinCount = h.skinCount ∧ h1.nodes = h.nodes ∧
      setRootNode { heap := h, skin := s } none =
        { heap := h1, skin := { s with rootNode := none } } := by
  unfold setRootNode
  cases hr : s.rootNode with
  | none =>
    refine ⟨h, rfl, rfl, ?_⟩
    cases s
    simp_all
  | some n =>
    refine ⟨safeRelease h (some n), by simp, by simp, ?_⟩
    simp [hr]

theorem setRootJoint_null (fuel : Nat) (w : World) :
    ∃ h1, h1.skinCount = w.heap.skinCount ∧ h1.nodes = w.heap.nodes ∧
      setRootJoint fuel w none =
        .done { heap := h1, skin := { w.skin with rootJoint := none, rootNode := none } } := by
  obtain ⟨h1, hs, hn, e⟩ :=
    setRootNode_null (attachRootListener (detachRootListener w) w.skin.self none)
      { w.skin with rootJoint := none }
  refine ⟨h1, ?_, ?_, ?_⟩
  · rw [hs]; simp [attachRootListener]
  · rw [hn]; simp [attachRootListener]
  · simp only [setRootJoint]
    rw [e]

theorem clearJoints_done (w : World) :
    ∃ h1, h1.skinCount = w.heap.skinCount ∧ h1.nodes = w.heap.nodes ∧
      clearJoints w =
        .done { heap := h1
                skin := { w.skin with rootJoint := none, rootNode := none, joints := [] } } := by
  obtain ⟨h1, hs, hn, e⟩ := setRootJoint_null 0 w
  unfold clearJoints
  rw [e]
  exact ⟨_, by simp [hs], by simp [hn], rfl⟩

theorem setJointCount_done (w : World) (n : Nat) (hfit : n * PALETTE_ROWS < UINT_RANGE) :
    ∃ h1, h1.skinCount = w.heap.skinCount ∧ h1.nodes = w.heap.nodes ∧
      setJointCount w n =
        .done { heap := h1
                skin := { w.skin with
                  rootJoint := none, rootNode := none
                  joints := List.replicate n none
                  matrixPalette := if n > 0 then some (identityPalette n) else none } } := by
  obtain ⟨h1, hs, hn, e⟩ := clearJoints_done w
  unfold setJointCount
  rw [e]
  refine ⟨h1, hs, hn, ?_⟩
  by_cases hpos : n > 0
  · simp only [if_pos hpos, Nat.mod_eq_of_lt hfit, paletteInit_eq n hfit]
    rfl
  · simp only [if_neg hpos]
    rfl

/-- Whatever `n`, `setJointCount` ends after `clearJoints` in the resized skin,
either completed or stopped inside the palette loop. -/
theorem setJointCount_ends (w : World) (n : Nat) :
    ∃ w1 pal, clearJoints w = .done w1 ∧
      (setJointCount w n = .done (resized w1 n pal) ∨
        ∃ f, setJointCount w n = .failed f (resized w1 n pal)) := by
  obtain ⟨h1, _, _, e⟩ := clearJoints_done w
  unfold setJointCount
  rw [e]
  by_cases hpos : n > 0
  · simp only [if_pos hpos]
    cases hloop : paletteInitLoop (n * PALETTE_ROWS % UINT_RANGE)
        (n * PALETTE_ROWS % UINT_RANGE) 0
        (List.replicate (n * PALETTE_ROWS % UINT_RANGE) ⟨0, 0, 0, 0⟩) with
    | done pal => exact ⟨_, some pal, rfl, Or.inl rfl⟩
    | failed f pal => exact ⟨_, some pal, rfl, Or.inr ⟨f, rfl⟩⟩
  · simp only [if_neg hpos]
    exact ⟨_, none, rfl, Or.inl rfl⟩

/-- A product `3 * n` of an `unsigned int` that exceeds the range wraps to a
value that is no multiple of three. -/
theorem wrapped_rows_mod (n : Nat) (hn : n < 4294967296) (hbig : 4294967296 ≤ n * 3) :
    (n * 3 % 4294967296) % 3 ≠ 0 := by
  have h := Nat.div_add_mod (n * 3) 4294967296
  have hr := Nat.mod_lt (n * 3) (show 4294967296 > 0 by norm_num)
  generalize n * 3 % 4294967296 = r at h hr ⊢
  generalize n * 3 / 4294967296 = q at h
  have hq : q = 1 ∨ q = 2 := by
    have h3 : q < 3 := by
      by_contra hc
      have : 3 ≤ q := by omega
      nlinarith
    have h0 : 0 < q := by
      by_contra hc
      have : q = 0 := by omega
      subst this
      omega
    omega
  rcases hq with rfl | rfl <;> omega

/-- A joint count whose palette size `3 * n` is no `unsigned int` makes
`setJointCount` overrun the buffer of `3 * n mod 2 ^ 32` rows it allocated. -/
theorem setJointCount_overrun (w : World) (n : Nat) (hn : n < UINT_RANGE)
    (hbig : UINT_RANGE ≤ n * PALETTE_ROWS) :
    ∃ w', setJointCount w n = .failed Fault.outOfBounds w' ∧
      getJointCount w' = n ∧
      (paletteRows w').length = (n * PALETTE_ROWS) % UINT_RANGE ∧
      getMatrixPaletteSize w' = (n * PALETTE_ROWS) % UINT_RANGE := by
  obtain ⟨h1, _, _, e⟩ := clearJoints_done w
  have hpos : n > 0 := by
    simp only [UINT_RANGE, PALETTE_ROWS] at hbig
    omega
  have hmod : (n * PALETTE_ROWS % UINT_RANGE) % 3 ≠ 0 := wrapped_rows_mod n hn hbig
  have hr : n * PALETTE_ROWS % UINT_RANGE < UINT_RANGE := Nat.mod_lt _ (by simp [UINT_RANGE])
  obtain ⟨out, hout, hlen⟩ := paletteInitLoop_misfit (n * PALETTE_ROWS % UINT_RANGE) hmod
    hr (n * PALETTE_ROWS % UINT_RANGE) 0
    (List.replicate (n * PALETTE_ROWS % UINT_RANGE) ⟨0, 0, 0, 0⟩) (Nat.zero_mod 3) (Nat.zero_le _)
    (List.length_replicate _ _) (Nat.le_of_eq (Nat.zero_add _).symm)
  unfold setJointCount
  rw [e]
  simp only [if_pos hpos, hout]
  refine ⟨_, rfl, ?_, ?_, ?_⟩
  · simp [getJointCount, resized]
  · simpa [paletteRows, resized] using hlen
  · simp [getMatrixPaletteSize, resized]

/-- A completed `setJointCount(n)` with `n` an `unsigned int` had a palette
size `3 * n` that is an `unsigned int`. -/
theorem setJointCount_fits (w w' : World) (n : Nat) (hn : n < UINT_RANGE)
    (h : setJointCount w n = .done w') : n * PALETTE_ROWS < UINT_RANGE := by
  rcases Nat.lt_or_ge (n * PALETTE_ROWS) UINT_RANGE with hlt | hge
  · exact hlt
  · obtain ⟨_, hfail, _⟩ := setJointCount_overrun w n hn hge
    rw [hfail] at h
    cases h

theorem three_rows_split (tail : List Vector4) (k : Nat)
    (h : tail.length = (k + 1) * PALETTE_ROWS) :
    ∃ t0 t1 t2 rest, tail = t0 :: t1 :: t2 :: rest ∧ rest.length = k * PALETTE_ROWS := by
  simp only [PALETTE_ROWS] at *
  match tail, h with
  | t0 :: t1 :: t2 :: rest, h =>
    refine ⟨t0, t1, t2, rest, rfl, ?_⟩
    simp only [List.length_cons] at h
    omega
  | [], h => simp at h
  | [_], h => simp at h; omega
  | [_, _], h => simp at h; omega

theorem writeRows_append (pre rest : List Vector4) (t0 t1 t2 : Vector4) (rows : Rows) :
    writeRows (some (pre ++ t0 :: t1 :: t2 :: rest)) pre.length rows =
      some (pre ++ rows.1 :: rows.2.1 :: rows.2.2 :: rest) := by
  have hle : pre.length + PALETTE_ROWS ≤ (pre ++ t0 :: t1 :: t2 :: rest).length := by
    simp [PALETTE_ROWS]
  simp only [writeRows, if_pos hle]
  simp [List.set_append_right]

/-- Invariant of the palette loop: with the rows of the first `i` slots in
`pre` and three buffer rows left for each remaining slot, the loop completes,
changes nothing but the buffer, and leaves `pre` followed by the rows of the
remaining slots. -/
theorem getMatrixPaletteLoop_spec (ujm : Heap → Ptr → Matrix → Rows) :
    ∀ (rest : List (Option Ptr)) (i : Nat) (w : World) (pre tail : List Vector4),
      w.skin.matrixPalette = some (pre ++ tail) →
      pre.length = i * PALETTE_ROWS →
      tail.length = rest.length * PALETTE_ROWS →
      (∀ j ∈ rest, j ≠ none) →
      getMatrixPaletteLoop ujm i rest w =
        .done (withPalette w
          (some (pre ++ skinningPalette ujm w.heap (getBindShape w) rest))) := by
  intro rest
  induction rest with
  | nil =>
    intro i w pre tail hpal _ htail _
    have ht : tail = [] := by
      cases tail with
      | nil => rfl
      | cons a t => simp at htail
    subst ht
    simp only [getMatrixPaletteLoop, skinningPalette, List.map_nil, List.flatten_nil]
    rw [← hpal]
    rfl
  | cons j rest ih =>
    intro i w pre tail hpal hpre htail hall
    cases j with
    | none => exact absurd rfl (hall none (List.mem_cons_self _ _))
    | some p =>
      obtain ⟨t0, t1, t2, tail1, rfl, htail1⟩ := three_rows_split tail rest.length htail
      have hw := writeRows_append pre tail1 t0 t1 t2 (ujm w.heap p (getBindShape w))
      rw [hpre] at hw
      simp only [getMatrixPaletteLoop, hpal, hw]
      have hstep := ih (i + 1)
        (withPalette w
            (some (pre ++ (ujm w.heap p (getBindShape w)).1 ::
              (ujm w.heap p (getBindShape w)).2.1 ::
              (ujm w.heap p (getBindShape w)).2.2 :: tail1)))
        (pre ++ [(ujm w.heap p (getBindShape w)).1, (ujm w.heap p (getBindShape w)).2.1,
          (ujm w.heap p (getBindShape w)).2.2])
        tail1 (by simp [withPalette]) (by simp [hpre, PALETTE_ROWS]; omega) htail1
        (fun x hx => hall x (List.mem_cons_of_mem _ hx))
      rw [hstep]
      simp [skinningPalette, slotRows, getBindShape, withPalette]

theorem skinningPalette_length (ujm : Heap → Ptr → Matrix → Rows) (h : Heap) (b : Matrix)
    (joints : List (Option Ptr)) (hall : ∀ j ∈ joints, j ≠ none) :
    (skinningPalette ujm h b joints).length = 3 * joints.length := by
  induction joints with
  | nil => rfl
  | cons j rest ih =>
    cases j with
    | none => exact absurd rfl (hall none (List.mem_cons_self _ _))
    | some p =>
      have := ih (fun x hx => hall x (List.mem_cons_of_mem _ hx))
      simp only [skinningPalette, List.map_cons, List.flatten_cons, slotRows,
        List.length_append, List.length_cons, List.length_nil] at this ⊢
      omega

theorem skinningPalette_rows (ujm : Heap → Ptr → Matrix → Rows) (h : Heap) (b : Matrix) :
    ∀ (joints : List (Option Ptr)) (i : Nat) (p : Ptr),
      (∀ j ∈ joints, j ≠ none) → joints[i]? = some (some p) →
      (skinningPalette ujm h b joints)[3 * i]? = some (ujm h p b).1 ∧
      (skinningPalette ujm h b joints)[3 * i + 1]? = some (ujm h p b).2.1 ∧
      (skinningPalette ujm h b joints)[3 * i + 2]? = some (ujm h p b).2.2 := by
  intro joints
  induction joints with
  | nil => intro i p _ hi; simp at hi
  | cons j rest ih =>
    intro i p hall hi
    cases j with
    | none => exact absurd rfl (hall none (List.mem_cons_self _ _))
    | some q =>
      have hcons : skinningPalette ujm h b (some q :: rest) =
          (ujm h q b).1 :: (ujm h q b).2.1 :: (ujm h q b).2.2 ::
            skinningPalette ujm h b rest := by
        simp [skinningPalette, slotRows]
      rw [hcons]
      cases i with
      | zero =>
        simp only [List.getElem?_cons_zero, Option.some.injEq] at hi
        subst hi
        simp
      | succ k =>
        simp only [List.getElem?_cons_succ] at hi
        obtain ⟨h0, h1, h2⟩ := ih k p (fun x hx => hall x (List.mem_cons_of_mem _ hx)) hi
        have e0 : 3 * (k + 1) = (3 * k) + 1 + 1 + 1 := by omega
        have e1 : 3 * (k + 1) + 1 = (3 * k + 1) + 1 + 1 + 1 := by omega
        have e2 : 3 * (k + 1) + 2 = (3 * k + 2) + 1 + 1 + 1 := by omega
        rw [e1, e2, e0]
        simp only [List.getElem?_cons_succ]
        exact ⟨h0, h1, h2⟩

theorem all_slots_bound (w : World)
    (hall : ∀ i, i < getJointCount w → ∃ p, getJoint w i = .ok (some p)) :
    ∀ j ∈ w.skin.joints, j ≠ none := by
  intro j hj hnone
  subst hnone
  obtain ⟨i, hi, hget⟩ := List.getElem_of_mem hj
  obtain ⟨p, hp⟩ := hall i hi
  simp only [getJoint, if_pos hi, List.getD_eq_getElem?_getD, List.getElem?_eq_getElem hi,
    Option.getD_some, hget] at hp
  cases hp

theorem getJoint_some_index (w : World) (i : Nat) (j : Option Ptr)
    (h : getJoint w i = .ok j) : w.skin.joints[i]? = some j := by
  unfold getJoint at h
  split at h
  · rename_i hi
    simp only [List.getD_eq_getElem?_getD, List.getElem?_eq_getElem hi, Option.getD_some] at h
    rw [List.getElem?_eq_getElem hi]
    exact congrArg some (Except.ok.inj h)
  · cases h

/-- The palette invariant is established by `setJointCount`. -/
theorem setJointCount_paletteRows (w : World) (n : Nat)
    (hfit : n * PALETTE_ROWS < UINT_RANGE) :
    ∃ w', setJointCount w n = .done w' ∧
      (paletteRows w').length = 3 * getJointCount w' := by
  obtain ⟨h1, _, _, e⟩ := setJointCount_done w n hfit
  refine ⟨_, e, ?_⟩
  cases n with
  | zero => simp [paletteRows, getJointCount]
  | succ k => simp [paletteRows, getJointCount, identityPalette_length]

/-- The palette invariant is preserved by `setJoint`. -/
theorem setJoint_paletteRows (w w' : World) (j : Option Ptr) (index : Nat)
    (h : setJoint w j index = .done w')
    (hinv : (paletteRows w).length = 3 * getJointCount w) :
    (paletteRows w').length = 3 * getJointCount w' := by
  unfold setJoint at h
  split at h
  · cases h
    simpa [paletteRows, getJointCount] using hinv
  · cases h

theorem getJoint_of_index (w : World) (i : Nat) (j : Option Ptr)
    (h : w.skin.joints[i]? = some j) : getJoint w i = .ok j := by
  have hi : i < w.skin.joints.length := by
    rcases Nat.lt_or_ge i w.skin.joints.length with hlt | hge
    · exact hlt
    · rw [List.getElem?_eq_none hge] at h
      cases h
  simp [getJoint, hi, List.getD_eq_getElem?_getD, h]

/-- The index loop either finds nothing and answers -1, or answers the first
position holding the joint, counted from the start index. -/
theorem getJointIndexLoop_spec (joint : Option Ptr) :
    ∀ (l : List (Option Ptr)) (s : Nat), s + l.length ≤ UINT_RANGE →
      (getJointIndexLoop joint s l = -1 ∧ ∀ m : Nat, l[m]? ≠ some joint) ∨
      (∃ k : Nat, getJointIndexLoop joint s l = castInt (s + k) ∧ l[k]? = some joint ∧
        ∀ m : Nat, m < k → l[m]? ≠ some joint) := by
  intro l
  induction l with
  | nil =>
    intro s _
    left
    exact ⟨rfl, fun m => by simp⟩
  | cons x rest ih =>
    intro s hs
    by_cases hx : x = joint
    · right
      refine ⟨0, ?_, ?_, ?_⟩
      · simp [getJointIndexLoop, hx]
      · simp [hx]
      · intro m hm
        omega
    · cases rest with
      | nil =>
        left
        refine ⟨by simp [getJointIndexLoop, hx], ?_⟩
        intro m
        cases m with
        | zero => simpa using hx
        | succ m => simp
      | cons y tail =>
        have hlt : s + 1 < UINT_RANGE := by
          simp only [List.length_cons] at hs
          omega
        have hmod : (s + 1) % UINT_RANGE = s + 1 := Nat.mod_eq_of_lt hlt
        rcases ih (s + 1) (by simp only [List.length_cons] at hs ⊢; omega) with
          ⟨hres, hnone⟩ | ⟨k, hres, hk, hmin⟩
        · left
          refine ⟨?_, ?_⟩
          · rw [getJointIndexLoop, if_neg hx, hmod]
            exact hres
          · intro m
            cases m with
            | zero => simpa using hx
            | succ m => simpa using hnone m
        · right
          refine ⟨k + 1, ?_, ?_, ?_⟩
          · rw [getJointIndexLoop, if_neg hx, hmod, hres]
            congr 1
            omega
          · simpa using hk
          · intro m hm
            cases m with
            | zero => simpa using hx
            | succ m =>
              have := hmin m (by omega)
              simpa using this

/-- Below `2 ^ 31` the conversion `(int)i` keeps the value. -/
theorem castInt_small (i : Nat) (h : i < INT_RANGE) : castInt i = (i : Int) := by
  simp [castInt, h]

/-- A joint count whose palette size is an `unsigned int` is at most `2 ^ 31`. -/
theorem count_le_of_fits (n : Nat) (hfit : n * PALETTE_ROWS < UINT_RANGE) : n ≤ INT_RANGE := by
  simp only [PALETTE_ROWS, UINT_RANGE, INT_RANGE] at *
  omega

/-- The identifier loop either finds nothing and answers null, or answers the
joint of the first slot whose joint carries the identifier. -/
theorem getJointByIdLoop_spec (g : Hierarchy) (id : String) :
    ∀ (l : List (Option Ptr)),
      (getJointByIdLoop g id l = none ∧
        ∀ (m : Nat) (q : Ptr), l[m]? = some (some q) → g.id q ≠ some id) ∨
      (∃ (k : Nat) (p : Ptr), getJointByIdLoop g id l = some p ∧ l[k]? = some (some p) ∧
        g.id p = some id ∧
        ∀ (m : Nat) (q : Ptr), m < k → l[m]? = some (some q) → g.id q ≠ some id) := by
  intro l
  induction l with
  | nil =>
    left
    exact ⟨rfl, fun m q h => by simp at h⟩
  | cons x rest ih =>
    have hskip : (∀ q, x = some q → g.id q ≠ some id) →
        getJointByIdLoop g id (x :: rest) = getJointByIdLoop g id rest := by
      intro hq
      cases x with
      | none => simp [getJointByIdLoop]
      | some q =>
        have := hq q rfl
        cases hid : g.id q with
        | none => simp [getJointByIdLoop, hid]
        | some t =>
          have hne : t ≠ id := fun e => this (by rw [hid, e])
          simp [getJointByIdLoop, hid, hne]
    by_cases hx : ∃ q, x = some q ∧ g.id q = some id
    · obtain ⟨q, rfl, hq⟩ := hx
      right
      refine ⟨0, q, ?_, by simp, hq, ?_⟩
      · simp [getJointByIdLoop, hq]
      · intro m r hm
        omega
    · have hx2 : ∀ q, x = some q → g.id q ≠ some id := fun q e hq => hx ⟨q, e, hq⟩
      rw [hskip hx2]
      rcases ih with ⟨hres, hnone⟩ | ⟨k, p, hres, hk, hp, hmin⟩
      · left
        refine ⟨hres, ?_⟩
        intro m q hm
        cases m with
        | zero =>
          simp only [List.getElem?_cons_zero, Option.some.injEq] at hm
          exact hx2 q hm
        | succ m =>
          simp only [List.getElem?_cons_succ] at hm
          exact hnone m q hm
      · right
        refine ⟨k + 1, p, hres, by simpa using hk, hp, ?_⟩
        intro m q hm hq
        cases m with
        | zero =>
          simp only [List.getElem?_cons_zero, Option.some.injEq] at hq
          exact hx2 q hq
        | succ m =>
          simp only [List.getElem?_cons_succ] at hq
          exact hmin m q (by omega) hq

@[simp] theorem unbindJoint_nodes (h : Heap) (x : Option Ptr) :
    (unbindJoint h x).nodes = h.nodes := by
  cases x <;> rfl

@[simp] theorem bindJoint_nodes (h : Heap) (x : Option Ptr) :
    (bindJoint h x).nodes = h.nodes := by
  cases x <;> rfl

theorem unbindJoint_skinCount_same (h : Heap) (a : Ptr) :
    (unbindJoint h (some a)).skinCount a = (h.skinCount a + UINT_RANGE - 1) % UINT_RANGE := by
  simp only [unbindJoint, release_skinCount, decSkinCount, Function.update_same]

theorem unbindJoint_skinCount_other (h : Heap) (x : Option Ptr) (c : Ptr) (hc : x ≠ some c) :
    (unbindJoint h x).skinCount c = h.skinCount c := by
  cases x with
  | none => rfl
  | some a =>
    have hca : c ≠ a := fun e => hc (by rw [e])
    simp only [unbindJoint, release_skinCount, decSkinCount, Function.update_noteq hca]

theorem bindJoint_skinCount_same (h : Heap) (b : Ptr) :
    (bindJoint h (some b)).skinCount b = (h.skinCount b + 1) % UINT_RANGE := by
  simp only [bindJoint, addRef_skinCount, incSkinCount, Function.update_same]

theorem bindJoint_skinCount_other (h : Heap) (x : Option Ptr) (c : Ptr) (hc : x ≠ some c) :
    (bindJoint h x).skinCount c = h.skinCount c := by
  cases x with
  | none => rfl
  | some b =>
    have hcb : c ≠ b := fun e => hc (by rw [e])
    simp only [bindJoint, addRef_skinCount, incSkinCount, Function.update_noteq hcb]

theorem setJoint_done_nodes (c : World) (j : Option Ptr) (i : Nat)
    (h : i < c.skin.joints.length) :
    ∃ c1, setJoint c j i = .done c1 ∧ c1.heap.nodes = c.heap.nodes ∧
      c1.skin = { c.skin with joints := c.skin.joints.set i j } := by
  rw [setJoint, if_pos h]
  exact ⟨_, rfl, by simp, rfl⟩

/-- When the lookup of the clone loop yields a node, that node carries the
identifier of the original joint, provided `findNode` only returns nodes that
carry the identifier it was asked for. -/
theorem cloneLookup_id (fn : Hierarchy → Ptr → Option String → Option Ptr)
    (hfind : ∀ g r s n, fn g r s = some n → g.id n = s)
    (g : Hierarchy) (node a n : Ptr) (h : cloneLookup fn g node a = .ok (some n)) :
    g.id n = g.id a := by
  unfold cloneLookup at h
  cases hf : fn g node (g.id a) with
  | some m =>
    simp only [hf] at h
    cases h
    exact hfind g node _ _ hf
  | none =>
    simp only [hf] at h
    cases hr : g.id node with
    | none => simp [hr] at h
    | some x =>
      cases ha : g.id a with
      | none => simp [hr, ha] at h
      | some y =>
        simp only [hr, ha] at h
        by_cases hxy : x = y
        · simp only [if_pos hxy] at h
          cases h
          rw [hr, hxy]
        · simp [if_neg hxy] at h

/-- The lookup of the clone loop yields a node unless `findNode` finds nothing
and the two identifiers are not the same non-null string. -/
theorem cloneLookup_resolves_iff (fn : Hierarchy → Ptr → Option String → Option Ptr)
    (g : Hierarchy) (node a : Ptr) :
    (∃ n, cloneLookup fn g node a = .ok (some n)) ↔
      ¬ (fn g node (g.id a) = none ∧ ¬ ∃ s, g.id node = some s ∧ g.id a = some s) := by
  unfold cloneLookup
  cases hf : fn g node (g.id a) with
  | some m => simp
  | none =>
    cases hr : g.id node with
    | none => simp
    | some x =>
      cases ha : g.id a with
      | none => simp
      | some y =>
        by_cases hxy : x = y
        · simp [hxy]
        · simp [hxy]
          exact fun e => hxy e.symm

/-- The joint loop of `clone`: either every remaining original slot holds a
joint that the lookup resolves, and the loop completes having bound each of
them, or some slot does not, and the loop stops on a fault. -/
theorem cloneLoop_spec (fn : Hierarchy → Ptr → Option String → Option Ptr) (node : Ptr) :
    ∀ (src : List (Option Ptr)) (i : Nat) (c : World),
      i + src.length ≤ c.skin.joints.length →
      ((∀ o ∈ src, ∃ a n, o = some a ∧ cloneLookup fn c.heap.nodes node a = .ok (some n)) ∧
        ∃ c1, cloneLoop fn node i src c = .done c1 ∧ c1.heap.nodes = c.heap.nodes ∧
          c1.skin.joints.length = c.skin.joints.length ∧
          (∀ m : Nat, m < i → c1.skin.joints[m]? = c.skin.joints[m]?) ∧
          (∀ (k : Nat) (a : Ptr), src[k]? = some (some a) →
            ∃ n, cloneLookup fn c.heap.nodes node a = .ok (some n) ∧
              c1.skin.joints[i + k]? = some (some n))) ∨
      ((¬ ∀ o ∈ src, ∃ a n, o = some a ∧ cloneLookup fn c.heap.nodes node a = .ok (some n)) ∧
        ∃ f c1, cloneLoop fn node i src c = .failed f c1) := by
  intro src
  induction src with
  | nil =>
    intro i c _
    left
    refine ⟨fun o ho => by simp at ho, c, rfl, rfl, rfl, fun _ _ => rfl, ?_⟩
    intro k a hk
    simp at hk
  | cons old rest ih =>
    intro i c hlen
    simp only [List.length_cons] at hlen
    cases old with
    | none =>
      right
      refine ⟨?_, Fault.nullDereference, c, rfl⟩
      intro hall
      obtain ⟨a, n, ha, _⟩ := hall none (List.mem_cons_self _ _)
      cases ha
    | some o =>
      cases hl : cloneLookup fn c.heap.nodes node o with
      | error f =>
        right
        refine ⟨?_, f, c, by simp only [cloneLoop, hl]⟩
        intro hall
        obtain ⟨a, n, ha, hn⟩ := hall (some o) (List.mem_cons_self _ _)
        cases ha
        rw [hl] at hn
        cases hn
      | ok found =>
        cases found with
        | none =>
          right
          refine ⟨?_, Fault.assertion, c, by simp only [cloneLoop, hl]⟩
          intro hall
          obtain ⟨a, n, ha, hn⟩ := hall (some o) (List.mem_cons_self _ _)
          cases ha
          rw [hl] at hn
          cases hn
        | some n =>
          have hi : i < c.skin.joints.length := by omega
          obtain ⟨c1, hset, hnodes, hskin⟩ := setJoint_done_nodes c (some n) i hi
          have hlen1 : c1.skin.joints.length = c.skin.joints.length := by
            rw [hskin]; simp
          have hstep : cloneLoop fn node i (some o :: rest) c =
              cloneLoop fn node (i + 1) rest c1 := by
            simp only [cloneLoop, hl, hset]
          rw [hstep]
          rcases ih (i + 1) c1 (by omega) with
            ⟨hall, c2, hdone, hn2, hl2, hlow, hbound⟩ | ⟨hnot, f, c2, hfail⟩
          · left
            rw [hnodes] at hall hbound hn2
            refine ⟨?_, c2, hdone, hn2, by omega, ?_, ?_⟩
            · intro x hx
              rcases List.mem_cons.mp hx with rfl | hx
              · exact ⟨o, n, rfl, hl⟩
              · exact hall x hx
            · intro m hm
              rw [hlow m (by omega), hskin]
              simp only
              rw [List.getElem?_set_ne (by omega)]
            · intro k a hk
              cases k with
              | zero =>
                simp only [List.getElem?_cons_zero, Option.some.injEq] at hk
                subst hk
                refine ⟨n, hl, ?_⟩
                rw [Nat.add_zero, hlow i (by omega), hskin]
                simp only
                rw [List.getElem?_set_eq_of_lt _ hi]
              | succ k =>
                simp only [List.getElem?_cons_succ] at hk
                obtain ⟨m, hm, hget⟩ := hbound k a hk
                refine ⟨m, hm, ?_⟩
                have e : i + (k + 1) = i + 1 + k := by omega
                rw [e]
                exact hget
          · right
            rw [hnodes] at hnot
            refine ⟨?_, f, c2, hfail⟩
            intro hall
            exact hnot (fun x hx => hall x (List.mem_cons_of_mem _ hx))

/-- On a skin with root node and root joint, `clone` is the lookup of the root
joint under the copied root node followed by the joint loop. -/
theorem clone_rooted (nc : Heap → Ptr → Heap × Ptr)
    (fn : Hierarchy → Ptr → Option String → Option Ptr) (w : World) (self rn rj : Ptr)
    (hrn : w.skin.rootNode = some rn) (hrj : w.skin.rootJoint = some rj)
    (hfit : getJointCount w * PALETTE_ROWS < UINT_RANGE) :
    clone nc fn w self =
      match fn (cloneBase nc w self rn).heap.nodes (nc w.heap rn).2
          ((cloneBase nc w self rn).heap.nodes.id rj) with
      | none => .failed Fault.assertion (cloneBase nc w self rn)
      | some node =>
        cloneLoop fn node 0 w.skin.joints (withRootJoint (cloneBase nc w self rn) node) := by
  have hfresh : setJointCount
      { heap := w.heap, skin := { MeshSkin.new self with bindShape := w.skin.bindShape } }
      (getJointCount w) =
      .done { heap := w.heap
              skin :=
                { self := self
                  bindShape := w.skin.bindShape
                  joints := List.replicate (getJointCount w) none
                  rootJoint := none
                  rootNode := none
                  matrixPalette :=
                    if getJointCount w > 0 then some (identityPalette (getJointCount w))
                    else none
                  model := none } } := by
    simp [setJointCount, clearJoints, setRootJoint, detachRootListener, attachRootListener,
      setRootNode, MeshSkin.new, releaseAll, paletteInit_eq _ hfit, Nat.mod_eq_of_lt hfit,
      resized]
    split <;> rfl
  simp only [clone, hrn, hrj, hfresh]
  rw [if_neg (by simp)]
  rfl

/-- On a skin with root node and root joint whose root joint is found under
the copied root node, `clone` completes with every slot bound to the node its
lookup yields, or stops on a fault because some slot is not resolved. -/
theorem clone_rooted_cases (nc : Heap → Ptr → Heap × Ptr)
    (fn : Hierarchy → Ptr → Option String → Option Ptr) (w : World) (self rn rj node : Ptr)
    (hrn : w.skin.rootNode = some rn) (hrj : w.skin.rootJoint = some rj)
    (hroot : fn (nc w.heap rn).1.nodes (nc w.heap rn).2 ((nc w.heap rn).1.nodes.id rj) =
      some node)
    (hfit : getJointCount w * PALETTE_ROWS < UINT_RANGE) :
    ((∀ o ∈ w.skin.joints, ∃ a n, o = some a ∧
        cloneLookup fn (nc w.heap rn).1.nodes node a = .ok (some n)) ∧
      ∃ c, clone nc fn w self = .done c ∧ c.heap.nodes = (nc w.heap rn).1.nodes ∧
        c.skin.joints.length = w.skin.joints.length ∧
        (∀ (k : Nat) (a : Ptr), w.skin.joints[k]? = some (some a) →
          ∃ n, cloneLookup fn (nc w.heap rn).1.nodes node a = .ok (some n) ∧
            c.skin.joints[k]? = some (some n))) ∨
    ((¬ ∀ o ∈ w.skin.joints, ∃ a n, o = some a ∧
        cloneLookup fn (nc w.heap rn).1.nodes node a = .ok (some n)) ∧
      ∃ f c, clone nc fn w self = .failed f c) := by
  have hclone := clone_rooted nc fn w self rn rj hrn hrj hfit
  have hroot2 : fn (cloneBase nc w self rn).heap.nodes (nc w.heap rn).2
      ((cloneBase nc w self rn).heap.nodes.id rj) = some node := hroot
  rw [hroot2] at hclone
  simp only at hclone
  rw [hclone]
  have hlen : (withRootJoint (cloneBase nc w self rn) node).skin.joints.length =
      w.skin.joints.length := by
    simp [withRootJoint, cloneBase, getJointCount]
  rcases cloneLoop_spec fn node w.skin.joints 0
      (withRootJoint (cloneBase nc w self rn) node) (by omega) with
    ⟨hall, c, hdone, hnodes, hl, _, hbound⟩ | ⟨hnot, f, c, hfail⟩
  · left
    refine ⟨hall, c, hdone, hnodes, by omega, ?_⟩
    intro k a hk
    obtain ⟨n, hn, hget⟩ := hbound k a hk
    rw [Nat.zero_add] at hget
    exact ⟨n, hn, hget⟩
  · right
    exact ⟨hnot, f, c, hfail⟩

/-- The sample `findNode` only returns nodes carrying the identifier asked. -/
theorem sampleFindNode_id (g : Hierarchy) (r : Ptr) (s : Option String) (n : Ptr)
    (h : sampleFindNode g r s = some n) : g.id n = s := by
  unfold sampleFindNode at h
  cases s with
  | none => cases h
  | some t =>
    have := List.find?_some h
    simp only [Bool.and_eq_true, decide_eq_true_eq] at this
    exact this.2

/-! ### The de-interleaving loop -/

theorem readKeyValue_drop (kvs : List Scalar) (kv j : Nat) :
    readKeyValue kvs (kv + j) =
      match (kvs.drop kv)[j]? with
      | some v => .ok v
      | none => .error Fault.outOfBounds := by
  simp only [readKeyValue, List.getElem?_drop]

/-- The loop of `decomposeTransformAnimationChannel`, started at `kv` with
enough fuel, appends to its buffers the split of the key values from `kv` on,
and stops on an out-of-range read when the last key is incomplete. -/
theorem deinterleaveLoop_eq (kvs : List Scalar) :
    ∀ (fuel kv : Nat) (b : KeyBuffers), kvs.length < kv + fuel → kv ≤ kvs.length →
      deinterleaveLoop kvs fuel kv b =
        match splitKeys (kvs.drop kv) with
        | some r =>
          .ok { scale := b.scale ++ r.scale
                rotate := b.rotate ++ r.rotate
                translate := b.translate ++ r.translate }
        | none => .error Fault.outOfBounds := by
  intro fuel
  induction fuel with
  | zero =>
    intro kv b h1 h2
    omega
  | succ fuel ih =>
    intro kv b h1 h2
    have hlen : (kvs.drop kv).length = kvs.length - kv := List.length_drop kv kvs
    have hdrop : kvs.drop (kv + 10) = (kvs.drop kv).drop 10 := by
      rw [List.drop_drop]
    have h0 := readKeyValue_drop kvs kv 0
    rw [Nat.add_zero] at h0
    simp only [deinterleaveLoop, h0, readKeyValue_drop]
    rcases hd : kvs.drop kv with _ | ⟨a0, _ | ⟨a1, _ | ⟨a2, _ | ⟨a3, _ | ⟨a4, _ | ⟨a5, _ | ⟨a6, _ | ⟨a7, _ | ⟨a8, _ | ⟨a9, rest⟩⟩⟩⟩⟩⟩⟩⟩⟩⟩
    case nil =>
      have : ¬ kv < kvs.length := by
        rw [hd] at hlen
        simp only [List.length_nil] at hlen
        omega
      simp [this, splitKeys]
    all_goals
      have hlt : kv < kvs.length := by
        rw [hd] at hlen
        simp only [List.length_cons] at hlen
        omega
      simp only [if_pos hlt]
    case cons.cons.cons.cons.cons.cons.cons.cons.cons.cons =>
      have hrest : kvs.drop (kv + 10) = rest := by
        rw [hdrop, hd]
        rfl
      have hk : kv + 10 ≤ kvs.length := by
        rw [hd] at hlen
        simp only [List.length_cons] at hlen
        omega
      have := ih (kv + 10)
        { scale := b.scale ++ [a0, a1, a2]
          rotate := b.rotate ++ [a3, a4, a5, a6]
          translate := b.translate ++ [a7, a8, a9] } (by omega) hk
      rw [hrest] at this
      simp only [List.getElem?_cons_zero, List.getElem?_cons_succ, bind, Except.bind, this,
        splitKeys]
      cases splitKeys rest with
      | none => rfl
      | some r => simp
    all_goals simp [splitKeys, bind, Except.bind]

/-- A list of key values is empty, or ends in an incomplete key of fewer than
10 floats, or starts with a complete key. -/
theorem key_cases (v : List Scalar) :
    v = [] ∨ (0 < v.length ∧ v.length < 10 ∧ splitKeys v = none) ∨
    ∃ a0 a1 a2 a3 a4 a5 a6 a7 a8 a9 rest,
      v = a0 :: a1 :: a2 :: a3 :: a4 :: a5 :: a6 :: a7 :: a8 :: a9 :: rest := by
  rcases v with _ | ⟨a0, _ | ⟨a1, _ | ⟨a2, _ | ⟨a3, _ | ⟨a4, _ | ⟨a5, _ | ⟨a6, _ | ⟨a7, _ | ⟨a8, _ | ⟨a9, rest⟩⟩⟩⟩⟩⟩⟩⟩⟩⟩
  case nil => exact Or.inl rfl
  case cons.cons.cons.cons.cons.cons.cons.cons.cons.cons =>
    exact Or.inr (Or.inr ⟨a0, a1, a2, a3, a4, a5, a6, a7, a8, a9, rest, rfl⟩)
  all_goals exact Or.inr (Or.inl ⟨by simp, by simp, by simp [splitKeys]⟩)

theorem splitKeys_cons (a0 a1 a2 a3 a4 a5 a6 a7 a8 a9 : Scalar) (rest : List Scalar) :
    splitKeys (a0 :: a1 :: a2 :: a3 :: a4 :: a5 :: a6 :: a7 :: a8 :: a9 :: rest) =
      match splitKeys rest with
      | some b =>
        some { scale := a0 :: a1 :: a2 :: b.scale
               rotate := a3 :: a4 :: a5 :: a6 :: b.rotate
               translate := a7 :: a8 :: a9 :: b.translate }
      | none => none := by
  simp only [splitKeys]

/-- An incomplete last key makes the split fail. -/
theorem splitKeys_incomplete :
    ∀ (k : Nat) (v : List Scalar), v.length < 10 * (k + 1) → v.length % 10 ≠ 0 →
      splitKeys v = none := by
  intro k
  induction k with
  | zero =>
    intro v hlt hmod
    rcases key_cases v with rfl | ⟨_, _, hnone⟩ | ⟨a0, a1, a2, a3, a4, a5, a6, a7, a8, a9, rest, rfl⟩
    · simp at hmod
    · exact hnone
    · simp only [List.length_cons] at hlt
      omega
  | succ k ih =>
    intro v hlt hmod
    rcases key_cases v with rfl | ⟨_, _, hnone⟩ | ⟨a0, a1, a2, a3, a4, a5, a6, a7, a8, a9, rest, rfl⟩
    · simp at hmod
    · exact hnone
    · simp only [List.length_cons] at hlt hmod
      rw [splitKeys_cons, ih rest (by omega) (by omega)]

/-- On complete keys the split succeeds: the buffers have 3, 4 and 3 floats per
key, hold the floats of each key at the offsets 0, 3 and 7, and interleave
back to the key values. -/
theorem splitKeys_complete :
    ∀ (k : Nat) (v : List Scalar), v.length = 10 * k →
      ∃ b, splitKeys v = some b ∧
        b.scale.length = 3 * k ∧ b.rotate.length = 4 * k ∧ b.translate.length = 3 * k ∧
        (∀ i j : Nat, i < k → j < 3 → b.scale[3 * i + j]? = v[10 * i + j]?) ∧
        (∀ i j : Nat, i < k → j < 4 → b.rotate[4 * i + j]? = v[10 * i + 3 + j]?) ∧
        (∀ i j : Nat, i < k → j < 3 → b.translate[3 * i + j]? = v[10 * i + 7 + j]?) ∧
        interleave b.scale b.rotate b.translate = v := by
  intro k
  induction k with
  | zero =>
    intro v hv
    have : v = [] := List.length_eq_zero.mp (by omega)
    subst this
    exact ⟨_, rfl, rfl, rfl, rfl, fun i j hi => by omega, fun i j hi => by omega,
      fun i j hi => by omega, rfl⟩
  | succ k ih =>
    intro v hv
    rcases key_cases v with rfl | ⟨_, hshort, _⟩ | ⟨a0, a1, a2, a3, a4, a5, a6, a7, a8, a9, rest, rfl⟩
    · simp at hv
    · omega
    · simp only [List.length_cons] at hv
      obtain ⟨b, hb, hs, hr, ht, hsi, hri, hti, hint⟩ := ih rest (by omega)
      refine ⟨_, by rw [splitKeys_cons, hb], ?_, ?_, ?_, ?_, ?_, ?_, ?_⟩
      · simp only [List.length_cons, hs]; omega
      · simp only [List.length_cons, hr]; omega
      · simp only [List.length_cons, ht]; omega
      · intro i j hi hj
        cases i with
        | zero =>
          have : j = 0 ∨ j = 1 ∨ j = 2 := by omega
          rcases this with rfl | rfl | rfl <;> simp
        | succ i =>
          have e1 : 3 * (i + 1) + j = (3 * i + j) + 1 + 1 + 1 := by omega
          have e2 : 10 * (i + 1) + j = (10 * i + j) + 1 + 1 + 1 + 1 + 1 + 1 + 1 + 1 + 1 + 1 := by
            omega
          rw [e1, e2]
          simp only [List.getElem?_cons_succ]
          exact hsi i j (by omega) hj
      · intro i j hi hj
        cases i with
        | zero =>
          have : j = 0 ∨ j = 1 ∨ j = 2 ∨ j = 3 := by omega
          rcases this with rfl | rfl | rfl | rfl <;> simp
        | succ i =>
          have e1 : 4 * (i + 1) + j = (4 * i + j) + 1 + 1 + 1 + 1 := by omega
          have e2 : 10 * (i + 1) + 3 + j =
              (10 * i + 3 + j) + 1 + 1 + 1 + 1 + 1 + 1 + 1 + 1 + 1 + 1 := by omega
          rw [e1, e2]
          simp only [List.getElem?_cons_succ]
          exact hri i j (by omega) hj
      · intro i j hi hj
        cases i with
        | zero =>
          have : j = 0 ∨ j = 1 ∨ j = 2 := by omega
          rcases this with rfl | rfl | rfl <;> simp
        | succ i =>
          have e1 : 3 * (i + 1) + j = (3 * i + j) + 1 + 1 + 1 := by omega
          have e2 : 10 * (i + 1) + 7 + j =
              (10 * i + 7 + j) + 1 + 1 + 1 + 1 + 1 + 1 + 1 + 1 + 1 + 1 := by omega
          rw [e1, e2]
          simp only [List.getElem?_cons_succ]
          exact hti i j (by omega) hj
      · simp only [interleave, hint]

/-- `deinterleave` is the split of the key values, and an out-of-range read
when the last key is incomplete. -/
theorem deinterleave_eq (kvs : List Scalar) :
    deinterleave kvs =
      match splitKeys kvs with
      | some r => .ok r
      | none => .error Fault.outOfBounds := by
  have h := deinterleaveLoop_eq kvs (kvs.length + 1) 0
    { scale := [], rotate := [], translate := [] } (by omega) (by omega)
  unfold deinterleave
  rw [h]
  simp only [List.drop_zero, List.nil_append]

/-- On complete keys `decomposeTransformAnimationChannel` completes: it appends
the scale channel unless every scale value is almost one, then the rotate
channel, then the translate channel, each passed through `removeDuplicates`. -/
theorem decompose_done (rd : AnimationChannel → AnimationChannel) (animation : Animation)
    (channel : AnimationChannel) (b : KeyBuffers)
    (hb : splitKeys channel.keyValues = some b) :
    decomposeTransformAnimationChannel rd animation channel =
      .done (animation ++
        ((if b.scale.length ≠ b.scale.countP isAlmostOne then
            [componentChannel channel .scale b.scale] else []) ++
          [componentChannel channel .rotate b.rotate,
            componentChannel channel .translate b.translate]).map rd) := by
  unfold decomposeTransformAnimationChannel
  rw [deinterleave_eq, hb]
  by_cases h : b.scale.length ≠ b.scale.countP isAlmostOne
  · simp [h, Animation.add]
  · simp [h, Animation.add]

/-- Key values whose length is a multiple of 10 consist of complete keys. -/
theorem complete_of_mod (v : List Scalar) (h : v.length % 10 = 0) :
    v.length = 10 * (v.length / 10) := by
  omega

/-- The scale buffer holds exactly the floats at the offsets 0, 1, 2 of the
keys. -/
theorem scale_mem_iff (v : List Scalar) (k : Nat) (b : KeyBuffers)
    (hlen : b.scale.length = 3 * k) (hv : v.length = 10 * k)
    (hsi : ∀ i j : Nat, i < k → j < 3 → b.scale[3 * i + j]? = v[10 * i + j]?) (x : Scalar) :
    x ∈ b.scale ↔ ∃ i j : Nat, j < 3 ∧ v[10 * i + j]? = some x := by
  constructor
  · intro hx
    obtain ⟨n, hn, hget⟩ := List.getElem_of_mem hx
    have hdiv : 3 * (n / 3) + n % 3 = n := Nat.div_add_mod n 3
    have hi : n / 3 < k := by omega
    have hj : n % 3 < 3 := Nat.mod_lt n (by omega)
    refine ⟨n / 3, n % 3, hj, ?_⟩
    rw [← hsi (n / 3) (n % 3) hi hj, hdiv, List.getElem?_eq_getElem hn, hget]
  · rintro ⟨i, j, hj, hget⟩
    have hi : i < k := by
      have hlt : 10 * i + j < v.length := by
        rcases Nat.lt_or_ge (10 * i + j) v.length with h | h
        · exact h
        · rw [List.getElem?_eq_none h] at hget
          cases hget
      omega
    rw [← hsi i j hi hj] at hget
    exact List.getElem?_mem hget

/-- Erasing the element that follows a list of length `n` at index `n`. -/
theorem eraseIdx_middle (p : List AnimationChannel) (c : AnimationChannel)
    (t : List AnimationChannel) : (p ++ c :: t).eraseIdx p.length = p ++ t := by
  induction p with
  | nil => rfl
  | cons a p ih => simp [List.eraseIdx, ih]

/-- On complete keys the outputs of a channel are what is appended to any
animation. -/
theorem decompose_outputs (rd : AnimationChannel → AnimationChannel) (animation : Animation)
    (channel : AnimationChannel) (h : channel.keyValues.length % 10 = 0) :
    decomposeTransformAnimationChannel rd animation channel =
      .done (animation ++ decompositionOutputs rd channel) := by
  obtain ⟨b, hb, _⟩ := splitKeys_complete _ channel.keyValues (complete_of_mod _ h)
  unfold decompositionOutputs
  rw [decompose_done rd animation channel b hb, decompose_done rd [] channel b hb]
  simp

/-- Invariant of the channel loop: with the channels `pre` still to visit and
`rest` behind them, the loop leaves the channels of `pre` that do not qualify,
then `rest`, then the outputs of the qualifying channels of `pre` from the last
to the first. -/
theorem optimizeChannelsLoop_spec (rd : AnimationChannel → AnimationChannel)
    (rt : String → Option ObjectRef) :
    ∀ (pre rest : Animation),
      (∀ c ∈ pre, qualifies rt c = true → c.keyValues.length % 10 = 0) →
      optimizeChannelsLoop rd rt pre.length (pre ++ rest) =
        .done (pre.filter (fun c => !qualifies rt c) ++ rest ++
          (((pre.filter (qualifies rt)).reverse).map (decompositionOutputs rd)).flatten) := by
  intro pre
  induction pre using List.reverseRecOn with
  | nil =>
    intro rest _
    simp [optimizeChannelsLoop]
  | append_singleton p c ih =>
    intro rest hwf
    have hget : (p ++ [c] ++ rest)[p.length]? = some c := by
      rw [List.append_assoc, List.getElem?_append_right (Nat.le_refl _)]
      simp
    have hlen : (p ++ [c]).length = p.length + 1 := by simp
    have hp : ∀ x ∈ p, qualifies rt x = true → x.keyValues.length % 10 = 0 :=
      fun x hx => hwf x (List.mem_append_left _ hx)
    rw [hlen]
    simp only [optimizeChannelsLoop, hget]
    by_cases hq : qualifies rt c = true
    · have hc := hwf c (by simp) hq
      rw [if_pos hq, decompose_outputs rd _ c hc]
      simp only [Animation.remove]
      have herase : (p ++ [c] ++ rest ++ decompositionOutputs rd c).eraseIdx p.length =
          p ++ (rest ++ decompositionOutputs rd c) := by
        have := eraseIdx_middle p c (rest ++ decompositionOutputs rd c)
        simpa using this
      rw [herase, ih _ hp]
      simp [List.filter_append, hq]
    · rw [if_neg hq]
      have := ih ([c] ++ rest) hp
      simp only [List.append_assoc] at this ⊢
      rw [this]
      simp [List.filter_append, hq]

/-- The channel loop on a whole animation yields the optimized channels. -/
theorem optimizeAnimation_spec (rd : AnimationChannel → AnimationChannel)
    (rt : String → Option ObjectRef) (animation : Animation)
    (hwf : ∀ c ∈ animation, qualifies rt c = true → c.keyValues.length % 10 = 0) :
    optimizeAnimation rd rt animation = .done (optimizedChannels rd rt animation) := by
  have h := optimizeChannelsLoop_spec rd rt animation [] hwf
  simp only [List.append_nil] at h
  exact h

/-- Invariant of the animation loop. -/
theorem optimizeAnimationsLoop_spec (rd : AnimationChannel → AnimationChannel)
    (rt : String → Option ObjectRef) :
    ∀ (rest processed : List Animation),
      (∀ a ∈ rest, ∀ c ∈ a, qualifies rt c = true → c.keyValues.length % 10 = 0) →
      optimizeAnimationsLoop rd rt processed rest =
        .done (processed ++ rest.map (optimizedChannels rd rt)) := by
  intro rest
  induction rest with
  | nil =>
    intro processed _
    simp [optimizeAnimationsLoop]
  | cons a rest ih =>
    intro processed hwf
    have ha := optimizeAnimation_spec rd rt a (hwf a (List.mem_cons_self _ _))
    simp only [optimizeAnimationsLoop, ha]
    rw [ih _ (fun x hx => hwf x (List.mem_cons_of_mem _ hx))]
    simp

/-! ### Root joint, root node and listeners -/

@[simp] theorem attachRootListener_nodes (h : Heap) (self : Ptr) (joint : Option Ptr) :
    (attachRootListener h self joint).nodes = h.nodes := by
  unfold attachRootListener
  cases joint with
  | none => rfl
  | some r =>
    cases hp : h.nodes.parent r with
    | none => simp [hp]
    | some q => simp [hp, addListener]

theorem setRootNode_props (w : World) (node : Option Ptr) :
    (setRootNode w node).skin.rootNode = node ∧
    (setRootNode w node).skin.rootJoint = w.skin.rootJoint ∧
    (setRootNode w node).skin.self = w.skin.self ∧
    (setRootNode w node).heap.nodes = w.heap.nodes ∧
    (setRootNode w node).heap.listeners = w.heap.listeners := by
  unfold setRootNode
  by_cases h : w.skin.rootNode ≠ node
  · rw [if_pos h]
    refine ⟨rfl, rfl, rfl, ?_, ?_⟩
    · cases node <;> simp
    · cases node <;> cases w.skin.rootNode <;> rfl
  · rw [if_neg h]
    exact ⟨not_not.mp h, rfl, rfl, rfl, rfl⟩

/-- `setRootJoint` in terms of the state reached after the assignment of the
root joint: the walk runs on the unchanged hierarchy. -/
theorem setRootJoint_eq (fuel : Nat) (w : World) (joint : Option Ptr) :
    setRootJoint fuel w joint =
      match joint with
      | none => .done (setRootNode (rootJointAssigned w none) none)
      | some r =>
        match w.heap.nodes.parent r with
        | none => .done (setRootNode (rootJointAssigned w (some r)) (some r))
        | some p =>
          match topLevelParent w.heap.nodes fuel p with
          | some top => .done (setRootNode (rootJointAssigned w (some r)) (some top))
          | none => .failed Fault.fuelExhausted (rootJointAssigned w (some r)) := by
  simp only [setRootJoint, attachRootListener_nodes, detachRootListener_nodes]
  cases joint <;> rfl

/-- A completed upward walk ends on an ancestor without parent. -/
theorem topLevelParent_some (g : Hierarchy) :
    ∀ (fuel : Nat) (p top : Ptr), topLevelParent g fuel p = some top →
      ∃ k, ancestorAt g k p = some top ∧ g.parent top = none := by
  intro fuel
  induction fuel with
  | zero =>
    intro p top h
    cases h
  | succ fuel ih =>
    intro p top h
    unfold topLevelParent at h
    cases hp : g.parent p with
    | none =>
      simp only [hp] at h
      cases h
      exact ⟨0, rfl, hp⟩
    | some q =>
      simp only [hp] at h
      obtain ⟨k, hk, htop⟩ := ih q top h
      exact ⟨k + 1, by simp only [ancestorAt, hp, hk], htop⟩

/-- On a parent chain that ends within `n` links the upward walk completes
with any fuel of at least `n`. -/
theorem topLevelParent_of_chain (g : Hierarchy) :
    ∀ (n fuel : Nat) (p : Ptr), ancestorAt g n p = none → n ≤ fuel →
      ∃ top, topLevelParent g fuel p = some top := by
  intro n
  induction n with
  | zero =>
    intro fuel p h _
    cases h
  | succ n ih =>
    intro fuel p h hle
    obtain ⟨f, rfl⟩ : ∃ f, fuel = f + 1 := ⟨fuel - 1, by omega⟩
    unfold topLevelParent
    cases hp : g.parent p with
    | none => exact ⟨p, rfl⟩
    | some q =>
      simp only [ancestorAt, hp] at h
      exact ih f q h (by omega)

/-- Two ancestors without parent of the same node coincide. -/
theorem ancestorAt_top_unique (g : Hierarchy) :
    ∀ (k k2 : Nat) (j t t2 : Ptr), ancestorAt g k j = some t → g.parent t = none →
      ancestorAt g k2 j = some t2 → g.parent t2 = none → t = t2 := by
  intro k
  induction k with
  | zero =>
    intro k2 j t t2 h ht h2 ht2
    simp only [ancestorAt, Option.some.injEq] at h
    subst h
    cases k2 with
    | zero =>
      simp only [ancestorAt, Option.some.injEq] at h2
      exact h2
    | succ k2 => simp [ancestorAt, ht] at h2
  | succ k ih =>
    intro k2 j t t2 h ht h2 ht2
    cases hp : g.parent j with
    | none => simp [ancestorAt, hp] at h
    | some q =>
      simp only [ancestorAt, hp] at h
      cases k2 with
      | zero =>
        simp only [ancestorAt, Option.some.injEq] at h2
        subst h2
        rw [hp] at ht2
        cases ht2
      | succ k2 =>
        simp only [ancestorAt, hp] at h2
        exact ih k2 q t t2 h ht h2 ht2

/-- What a completed `setRootJoint` leaves: the hierarchy and the address of the
skin are unchanged, the root joint is the argument and the root invariant
holds. -/
theorem setRootJoint_done_props (fuel : Nat) (w w' : World) (joint : Option Ptr)
    (h : setRootJoint fuel w joint = .done w') :
    w'.heap.nodes = w.heap.nodes ∧ w'.skin.self = w.skin.self ∧
    w'.skin.rootJoint = joint ∧
    w'.heap.listeners = (rootJointAssigned w joint).heap.listeners ∧
    RootInvariant w' := by
  rw [setRootJoint_eq] at h
  have hassigned : ∀ node, (setRootNode (rootJointAssigned w joint) node).heap.nodes =
      w.heap.nodes := by
    intro node
    rw [(setRootNode_props _ node).2.2.2.1]
    simp [rootJointAssigned]
  cases joint with
  | none =>
    simp only at h
    cases h
    obtain ⟨h1, h2, h3, _, h5⟩ := setRootNode_props (rootJointAssigned w none) none
    refine ⟨hassigned none, h3, h2, h5, ?_⟩
    unfold RootInvariant
    rw [h2]
    exact h1
  | some r =>
    simp only at h
    cases hp : w.heap.nodes.parent r with
    | none =>
      simp only [hp] at h
      cases h
      obtain ⟨h1, h2, h3, _, h5⟩ := setRootNode_props (rootJointAssigned w (some r)) (some r)
      refine ⟨hassigned _, h3, h2, h5, ?_⟩
      unfold RootInvariant
      rw [h2]
      exact ⟨r, 0, h1, rfl, by rw [hassigned]; exact hp⟩
    | some p =>
      simp only [hp] at h
      cases ht : topLevelParent w.heap.nodes fuel p with
      | none =>
        simp only [ht] at h
        cases h
      | some top =>
        simp only [ht] at h
        cases h
        obtain ⟨h1, h2, h3, _, h5⟩ :=
          setRootNode_props (rootJointAssigned w (some r)) (some top)
        obtain ⟨k, hk, htop⟩ := topLevelParent_some _ fuel p top ht
        refine ⟨hassigned _, h3, h2, h5, ?_⟩
        unfold RootInvariant
        rw [h2]
        refine ⟨top, k + 1, h1, ?_, by rw [hassigned]; exact htop⟩
        rw [hassigned]
        simp only [ancestorAt, hp, hk]

theorem registrations_congr (h1 h2 : Heap) (self node : Ptr)
    (h : h1.listeners = h2.listeners) :
    registrations h1 self node = registrations h2 self node := by
  unfold registrations
  rw [h]

/-- After the first statement of `setRootJoint` a skin that was registered as
the specification describes is registered on no node. -/
theorem detach_registrations (w : World)
    (hinv : ∀ node, registrations w.heap w.skin.self node = expectedRegistrations w node) :
    ∀ node, registrations (detachRootListener w) w.skin.self node = [] := by
  intro node
  have hnode := hinv node
  unfold expectedRegistrations at hnode
  unfold detachRootListener
  cases hr : w.skin.rootJoint with
  | none =>
    simp only [hr] at hnode ⊢
    exact hnode
  | some r =>
    simp only [hr] at hnode ⊢
    cases hp : w.heap.nodes.parent r with
    | none =>
      simp only [hp] at hnode ⊢
      simpa using hnode
    | some p =>
      simp only [hp] at hnode ⊢
      by_cases hnp : node = p
      · subst hnp
        simp [registrations, removeListener, List.filter_filter]
      · have hne : ¬ (some p = some node) := fun e => hnp (Option.some.inj e).symm
        rw [if_neg hne] at hnode
        simpa [registrations, removeListener, Function.update_noteq hnp] using hnode

/-- The third statement of `setRootJoint` registers a skin that is registered
nowhere exactly once, with tag 1, on the parent of the new root joint. -/
theorem attach_registrations (h : Heap) (self : Ptr) (joint : Option Ptr)
    (hempty : ∀ node, registrations h self node = []) :
    ∀ node, registrations (attachRootListener h self joint) self node =
      match joint with
      | some r => if h.nodes.parent r = some node then [(self, 1)] else []
      | none => [] := by
  intro node
  have hnode := hempty node
  unfold attachRootListener
  cases joint with
  | none => simpa using hnode
  | some r =>
    simp only
    cases hp : h.nodes.parent r with
    | none => simpa using hnode
    | some p =>
      simp only
      by_cases hnp : node = p
      · subst hnp
        simp only [registrations] at hnode
        simp [registrations, addListener, List.filter_append, hnode]
      · have hne : ¬ (some p = some node) := fun e => hnp (Option.some.inj e).symm
        rw [if_neg hne]
        simpa [registrations, addListener, Function.update_noteq hnp] using hnode

theorem transformChanged_marked (w : World) (m : Models) (transform : Option Ptr)
    (cookie : Int) (model node : Ptr) (hc : cookie = 1) (hm : w.skin.model = some model)
    (hn : m.node model = some node) :
    transformChanged w m transform cookie = (w, setBoundsDirty m node) := by
  simp only [transformChanged, if_pos hc, hm, hn]

theorem transformChanged_idle (w : World) (m : Models) (transform : Option Ptr)
    (cookie : Int)
    (h : cookie ≠ 1 ∨ w.skin.model = none ∨
      ∃ model, w.skin.model = some model ∧ m.node model = none) :
    transformChanged w m transform cookie = (w, m) := by
  by_cases hc : cookie = 1
  · rcases h with h | h | ⟨model, h1, h2⟩
    · exact absurd hc h
    · simp only [transformChanged, if_pos hc, h]
    · simp only [transformChanged, if_pos hc, h1, h2]
  · simp only [transformChanged, if_neg hc]

/-! ### Null slots in the palette loop -/

/-- With three buffer rows for every remaining slot, the palette loop stops on
the dereference of the first null slot. -/
theorem getMatrixPaletteLoop_null (ujm : Heap → Ptr → Matrix → Rows) :
    ∀ (rest : List (Option Ptr)) (i : Nat) (w : World) (pre tail : List Vector4),
      w.skin.matrixPalette = some (pre ++ tail) →
      pre.length = i * PALETTE_ROWS →
      tail.length = rest.length * PALETTE_ROWS →
      none ∈ rest →
      ∃ w', getMatrixPaletteLoop ujm i rest w = .failed Fault.nullDereference w' := by
  intro rest
  induction rest with
  | nil =>
    intro i w pre tail _ _ _ hmem
    simp at hmem
  | cons j rest ih =>
    intro i w pre tail hpal hpre htail hmem
    cases j with
    | none => exact ⟨w, by simp only [getMatrixPaletteLoop]⟩
    | some p =>
      have hrest : none ∈ rest := by
        rcases List.mem_cons.mp hmem with h | h
        · cases h
        · exact h
      obtain ⟨t0, t1, t2, tail1, rfl, htail1⟩ := three_rows_split tail rest.length htail
      have hw := writeRows_append pre tail1 t0 t1 t2 (ujm w.heap p (getBindShape w))
      rw [hpre] at hw
      simp only [getMatrixPaletteLoop, hpal, hw]
      exact ih (i + 1)
        (withPalette w
          (some (pre ++ (ujm w.heap p (getBindShape w)).1 ::
            (ujm w.heap p (getBindShape w)).2.1 ::
            (ujm w.heap p (getBindShape w)).2.2 :: tail1)))
        (pre ++ [(ujm w.heap p (getBindShape w)).1, (ujm w.heap p (getBindShape w)).2.1,
          (ujm w.heap p (getBindShape w)).2.2])
        tail1 (by simp [withPalette]) (by simp [hpre, PALETTE_ROWS]; omega) htail1 hrest

/-- On a skin whose buffer has three rows per slot, a null slot makes
`getMatrixPalette` stop on a null dereference. -/
theorem getMatrixPalette_null (ujm : Heap → Ptr → Matrix → Rows) (w : World)
    (hsized : (paletteRows w).length = 3 * getJointCount w)
    (hnull : none ∈ w.skin.joints) :
    ∃ w', getMatrixPalette ujm w = .failed Fault.nullDereference w' := by
  cases hpal : w.skin.matrixPalette with
  | none =>
    have hlen : w.skin.joints.length = 0 := by
      simp only [paletteRows, hpal, Option.getD_none, List.length_nil, getJointCount] at hsized
      omega
    rw [List.length_eq_zero.mp hlen] at hnull
    simp at hnull
  | some buf =>
    have hlen : buf.length = w.skin.joints.length * PALETTE_ROWS := by
      simp only [paletteRows, hpal, Option.getD_some, getJointCount] at hsized
      simp only [PALETTE_ROWS]
      omega
    exact getMatrixPaletteLoop_null ujm w.skin.joints 0 w [] buf (by simpa using hpal)
      (by simp) hlen hnull

/-! ### Reference counts -/

/-- The number 1 when the pointer is the given node, else 0. -/
theorem ind_cases (x : Option Ptr) (p : Ptr) :
    (x = some p ∧ (if x = some p then (1 : Int) else 0) = 1) ∨
    (x ≠ some p ∧ (if x = some p then (1 : Int) else 0) = 0) := by
  by_cases h : x = some p
  · exact Or.inl ⟨h, by rw [if_pos h]⟩
  · exact Or.inr ⟨h, by rw [if_neg h]⟩

theorem safeRelease_refCount (h : Heap) (x : Option Ptr) (p : Ptr) :
    (safeRelease h x).refCount p = h.refCount p - (if x = some p then 1 else 0) := by
  cases x with
  | none => simp [safeRelease]
  | some a =>
    by_cases hap : p = a
    · subst hap
      simp [safeRelease, release]
    · have hne : ¬ (some a = some p) := fun e => hap (Option.some.inj e).symm
      simp [safeRelease, release, Function.update_noteq hap, hne]

theorem releaseAll_refCount (p : Ptr) :
    ∀ (js : List (Option Ptr)) (h : Heap),
      (releaseAll h js).refCount p = h.refCount p - (js.count (some p) : Nat) := by
  intro js
  induction js with
  | nil =>
    intro h
    simp [releaseAll]
  | cons j rest ih =>
    intro h
    rw [releaseAll, ih, safeRelease_refCount, List.count_cons]
    by_cases hj : j = some p
    · simp [hj]
      omega
    · have : (j == some p) = false := by simpa using hj
      simp [hj, this]

theorem unbindJoint_refCount (h : Heap) (x : Option Ptr) (p : Ptr) :
    (unbindJoint h x).refCount p = h.refCount p - (if x = some p then 1 else 0) := by
  cases x with
  | none => simp [unbindJoint]
  | some a =>
    by_cases hap : p = a
    · subst hap
      simp [unbindJoint, release, decSkinCount]
    · have hne : ¬ (some a = some p) := fun e => hap (Option.some.inj e).symm
      simp [unbindJoint, release, decSkinCount, Function.update_noteq hap, hne]

theorem bindJoint_refCount (h : Heap) (x : Option Ptr) (p : Ptr) :
    (bindJoint h x).refCount p = h.refCount p + (if x = some p then 1 else 0) := by
  cases x with
  | none => simp [bindJoint]
  | some a =>
    by_cases hap : p = a
    · subst hap
      simp [bindJoint, addRef, incSkinCount]
    · have hne : ¬ (some a = some p) := fun e => hap (Option.some.inj e).symm
      simp [bindJoint, addRef, incSkinCount, Function.update_noteq hap, hne]

theorem setRootNode_refCount (w : World) (node : Option Ptr) (p : Ptr) :
    (setRootNode w node).heap.refCount p =
      w.heap.refCount p - (if w.skin.rootNode = some p then 1 else 0) +
        (if node = some p then 1 else 0) := by
  unfold setRootNode
  by_cases h : w.skin.rootNode ≠ node
  · rw [if_pos h]
    cases node with
    | none => simp [safeRelease_refCount]
    | some a =>
      by_cases hap : p = a
      · subst hap
        simp [addRef, safeRelease_refCount]
      · have hne : ¬ (some a = some p) := fun e => hap (Option.some.inj e).symm
        simp [addRef, safeRelease_refCount, Function.update_noteq hap, hne]
  · rw [if_neg h]
    rw [not_not.mp h]
    omega

theorem setRootNode_joints (w : World) (node : Option Ptr) :
    (setRootNode w node).skin.joints = w.skin.joints := by
  unfold setRootNode
  by_cases h : w.skin.rootNode ≠ node
  · rw [if_pos h]
  · rw [if_neg h]

theorem detachRootListener_refCount (w : World) :
    (detachRootListener w).refCount = w.heap.refCount := by
  unfold detachRootListener
  cases w.skin.rootJoint with
  | none => rfl
  | some r =>
    cases hp : w.heap.nodes.parent r with
    | none => simp [hp]
    | some q => simp [hp, removeListener]

theorem attachRootListener_refCount (h : Heap) (self : Ptr) (joint : Option Ptr) :
    (attachRootListener h self joint).refCount = h.refCount := by
  unfold attachRootListener
  cases joint with
  | none => rfl
  | some r =>
    cases hp : h.nodes.parent r with
    | none => simp [hp]
    | some q => simp [hp, addListener]

theorem rootJointAssigned_refCount (w : World) (joint : Option Ptr) :
    (rootJointAssigned w joint).heap.refCount = w.heap.refCount := by
  simp only [rootJointAssigned, attachRootListener_refCount, detachRootListener_refCount]

/-- A completed `setRootJoint` releases the old root node, takes a reference on
the new one and leaves the slots as they were. -/
theorem setRootJoint_refCount (fuel : Nat) (w w' : World) (joint : Option Ptr)
    (h : setRootJoint fuel w joint = .done w') (p : Ptr) :
    w'.skin.joints = w.skin.joints ∧
    w'.heap.refCount p =
      w.heap.refCount p - (if w.skin.rootNode = some p then 1 else 0) +
        (if w'.skin.rootNode = some p then 1 else 0) := by
  have key : ∀ node, setRootNode (rootJointAssigned w joint) node = w' →
      w'.skin.joints = w.skin.joints ∧
      w'.heap.refCount p =
        w.heap.refCount p - (if w.skin.rootNode = some p then 1 else 0) +
          (if w'.skin.rootNode = some p then 1 else 0) := by
    intro node hnode
    subst hnode
    refine ⟨by rw [setRootNode_joints]; rfl, ?_⟩
    rw [setRootNode_refCount, (setRootNode_props _ node).1, rootJointAssigned_refCount]
    rfl
  rw [setRootJoint_eq] at h
  cases joint with
  | none =>
    simp only at h
    exact key none (Outcome.done.inj h)
  | some r =>
    simp only at h
    cases hp : w.heap.nodes.parent r with
    | none =>
      simp only [hp] at h
      exact key (some r) (Outcome.done.inj h)
    | some q =>
      simp only [hp] at h
      cases ht : topLevelParent w.heap.nodes fuel q with
      | none =>
        simp only [ht] at h
        cases h
      | some top =>
        simp only [ht] at h
        exact key (some top) (Outcome.done.inj h)

/-- `clearJoints` always completes: the skin has no slot, no root joint and no
root node left, every reference of a slot and the reference of the root node
are released, and the skin is removed from the listeners of the parent of the
former root joint. -/
theorem clearJoints_effect (w : World) :
    ∃ w', clearJoints w = .done w' ∧
      w'.skin = { w.skin with rootJoint := none, rootNode := none, joints := [] } ∧
      (∀ p, w'.heap.refCount p =
        w.heap.refCount p - (if w.skin.rootNode = some p then 1 else 0) -
          (slotsHolding w.skin p : Nat)) ∧
      w'.heap.listeners = (detachRootListener w).listeners ∧
      w'.heap.skinCount = w.heap.skinCount ∧ w'.heap.nodes = w.heap.nodes := by
  obtain ⟨h1, hs, hn, e⟩ := setRootJoint_null 0 w
  have hrc := fun p => setRootJoint_refCount 0 w _ none e p
  have hprops := setRootJoint_done_props 0 w _ none e
  unfold clearJoints
  rw [e]
  refine ⟨_, rfl, rfl, ?_, ?_, by simp [hs], by simp [hn]⟩
  · intro p
    simp only [releaseAll_refCount, slotsHolding]
    rw [(hrc p).2]
    simp
  · have hl := hprops.2.2.2.1
    simp only [rootJointAssigned, attachRootListener] at hl
    have hrel : ∀ (js : List (Option Ptr)) (h : Heap),
        (releaseAll h js).listeners = h.listeners := by
      intro js
      induction js with
      | nil => intro h; rfl
      | cons j rest ih =>
        intro h
        rw [releaseAll, ih]
        cases j <;> rfl
    simp only [hrel]
    exact hl

/-- Counting a value in a list after one position was overwritten. -/
theorem count_set_add (a b : Option Ptr) :
    ∀ (l : List (Option Ptr)) (i : Nat), i < l.length →
      (l.set i b).count a + (if l.getD i none = a then 1 else 0) =
        l.count a + (if b = a then 1 else 0) := by
  intro l
  induction l with
  | nil =>
    intro i hi
    simp at hi
  | cons x t ih =>
    intro i hi
    cases i with
    | zero =>
      simp only [List.set_cons_zero, List.count_cons, List.getD_cons_zero, beq_iff_eq]
      omega
    | succ i =>
      simp only [List.length_cons] at hi
      have := ih i (by omega)
      simp only [List.set_cons_succ, List.count_cons, List.getD_cons_succ]
      omega

/-- Whatever `n`, `setJointCount` ends, completed or stopped inside the palette
loop, in a skin with `n` null slots and no root left, on the heap that
`clearJoints` left. -/
theorem setJointCount_state (w : World) (n : Nat) :
    ∃ w', (setJointCount w n = .done w' ∨ ∃ f, setJointCount w n = .failed f w') ∧
      w'.skin.joints = List.replicate n none ∧
      w'.skin.rootJoint = none ∧ w'.skin.rootNode = none ∧ w'.skin.self = w.skin.self ∧
      (∀ p, w'.heap.refCount p =
        w.heap.refCount p - (if w.skin.rootNode = some p then 1 else 0) -
          (slotsHolding w.skin p : Nat)) ∧
      w'.heap.listeners = (detachRootListener w).listeners ∧
      w'.heap.skinCount = w.heap.skinCount ∧ w'.heap.nodes = w.heap.nodes := by
  obtain ⟨w1, e, hskin, hrc, hl, hs, hn⟩ := clearJoints_effect w
  obtain ⟨w2, pal, e2, hcases⟩ := setJointCount_ends w n
  have heq : w2 = w1 := by
    rw [e] at e2
    exact (Outcome.done.inj e2).symm
  subst heq
  exact ⟨resized w2 n pal, hcases, rfl, by simp [resized, hskin], by simp [resized, hskin],
    by simp [resized, hskin], hrc, hl, hs, hn⟩

/-- What a completed `setJointCount` leaves: the skin has `n` null slots and no
root left, and the heap is the one left by `clearJoints`. -/
theorem setJointCount_props (w w' : World) (n : Nat) (h : setJointCount w n = .done w') :
    w'.skin.joints = List.replicate n none ∧
      w'.skin.rootJoint = none ∧ w'.skin.rootNode = none ∧ w'.skin.self = w.skin.self ∧
      (∀ p, w'.heap.refCount p =
        w.heap.refCount p - (if w.skin.rootNode = some p then 1 else 0) -
          (slotsHolding w.skin p : Nat)) ∧
      w'.heap.listeners = (detachRootListener w).listeners ∧
      w'.heap.skinCount = w.heap.skinCount ∧ w'.heap.nodes = w.heap.nodes := by
  obtain ⟨w2, hcases, hprops⟩ := setJointCount_state w n
  rcases hcases with hd | ⟨f, hf⟩
  · rw [hd] at h
    have heq := Outcome.done.inj h
    subst heq
    exact hprops
  · rw [hf] at h
    cases h

/-- With a palette size `3 * n` that is an `unsigned int`, `setJointCount`
completes: the skin has `n` null slots and no root left, and the heap is the
one left by `clearJoints`. -/
theorem setJointCount_effect (w : World) (n : Nat) (hfit : n * PALETTE_ROWS < UINT_RANGE) :
    ∃ w', setJointCount w n = .done w' ∧
      w'.skin.joints = List.replicate n none ∧
      w'.skin.rootJoint = none ∧ w'.skin.rootNode = none ∧ w'.skin.self = w.skin.self ∧
      (∀ p, w'.heap.refCount p =
        w.heap.refCount p - (if w.skin.rootNode = some p then 1 else 0) -
          (slotsHolding w.skin p : Nat)) ∧
      w'.heap.listeners = (detachRootListener w).listeners ∧
      w'.heap.skinCount = w.heap.skinCount ∧ w'.heap.nodes = w.heap.nodes := by
  obtain ⟨h1, _, _, e⟩ := setJointCount_done w n hfit
  exact ⟨_, e, setJointCount_props w _ n e⟩

/-- A completed `setJoint` had a valid index; it replaces the slot and moves
one reference from the old occupant to the new joint. -/
theorem setJoint_effect (w w' : World) (j : Option Ptr) (index : Nat)
    (h : setJoint w j index = .done w') :
    index < w.skin.joints.length ∧
    w'.skin = { w.skin with joints := w.skin.joints.set index j } ∧
    w'.heap = bindJoint (unbindJoint w.heap (w.skin.joints.getD index none)) j := by
  unfold setJoint at h
  by_cases hi : index < w.skin.joints.length
  · rw [if_pos hi] at h
    cases h
    exact ⟨hi, rfl, rfl⟩
  · rw [if_neg hi] at h
    cases h

/-- Every skin left by a completed `setJointCount` has at most `2 ^ 31` slots. -/
theorem setJointCount_count_le (w w' : World) (n : Nat) (hn : n < UINT_RANGE)
    (h : setJointCount w n = .done w') : getJointCount w' ≤ INT_RANGE := by
  have hfit := setJointCount_fits w w' n hn h
  obtain ⟨hj, _⟩ := setJointCount_props w w' n h
  simp only [getJointCount, hj, List.length_replicate]
  exact count_le_of_fits n hfit

/-- A completed `setJoint` keeps the number of slots. -/
theorem setJoint_count (w w' : World) (j : Option Ptr) (index : Nat)
    (h : setJoint w j index = .done w') : getJointCount w' = getJointCount w := by
  obtain ⟨_, hskin, _⟩ := setJoint_effect w w' j index h
  simp [getJointCount, hskin]

theorem count_none_replicate (n : Nat) (p : Ptr) :
    (List.replicate n (none : Option Ptr)).count (some p) = 0 := by
  rw [List.count_replicate]
  simp

/-! ### Skin counts over several skins -/

/-- Replacing one skin moves its slots out of the count of holders and the
slots of its replacement in. -/
theorem holders_set (p : Ptr) (s1 : MeshSkin) :
    ∀ (skins : List MeshSkin) (i : Nat) (s : MeshSkin), skins[i]? = some s →
      holders (skins.set i s1) p + slotsHolding s p = holders skins p + slotsHolding s1 p := by
  intro skins
  induction skins with
  | nil =>
    intro i s h
    simp at h
  | cons x t ih =>
    intro i s h
    cases i with
    | zero =>
      simp only [List.getElem?_cons_zero, Option.some.injEq] at h
      subst h
      simp only [holders, List.set_cons_zero, List.map_cons, List.sum_cons]
      omega
    | succ i =>
      simp only [List.getElem?_cons_succ] at h
      have := ih i s h
      simp only [holders, List.set_cons_succ, List.map_cons, List.sum_cons] at this ⊢
      omega

theorem holders_ge (p : Ptr) :
    ∀ (skins : List MeshSkin) (i : Nat) (s : MeshSkin), skins[i]? = some s →
      slotsHolding s p ≤ holders skins p := by
  intro skins i s h
  have := holders_set p s skins i s h
  have hset : skins.set i s = skins := by
    apply List.ext_getElem?
    intro k
    by_cases hk : k = i
    · subst hk
      rw [h]
      have hlt : k < skins.length := by
        rcases Nat.lt_or_ge k skins.length with hlt | hge
        · exact hlt
        · rw [List.getElem?_eq_none hge] at h
          cases h
      rw [List.getElem?_set_eq_of_lt _ hlt]
    · rw [List.getElem?_set_ne (fun e => hk e.symm)]
  have hsum : ∀ (l : List MeshSkin) (k : Nat) (x : MeshSkin), l[k]? = some x →
      slotsHolding x p ≤ holders l p := by
    intro l
    induction l with
    | nil =>
      intro k x hx
      simp at hx
    | cons y t ih =>
      intro k x hx
      cases k with
      | zero =>
        simp only [List.getElem?_cons_zero, Option.some.injEq] at hx
        subst hx
        simp only [holders, List.map_cons, List.sum_cons]
        omega
      | succ k =>
        simp only [List.getElem?_cons_succ] at hx
        have := ih k x hx
        simp only [holders, List.map_cons, List.sum_cons] at this ⊢
        omega
  exact hsum skins i s h

theorem slot_counted (l : List (Option Ptr)) (index : Nat) (p : Ptr)
    (h : l.getD index none = some p) : 1 ≤ l.count (some p) := by
  have hmem : some p ∈ l := by
    rw [List.getD_eq_getElem?_getD] at h
    cases hget : l[index]? with
    | none => simp [hget] at h
    | some x =>
      simp only [hget, Option.getD_some] at h
      subst h
      exact List.getElem?_mem hget
  exact List.count_pos_iff.mpr hmem

/-- The skin count of a joint after `setJoint`, by cases on whether the joint is
the old occupant of the slot and whether it is the new one. -/
theorem setJoint_skinCount_cases (h : Heap) (old j : Option Ptr) (p : Ptr) :
    (bindJoint (unbindJoint h old) j).skinCount p =
      if j = some p then
        ((if old = some p then (h.skinCount p + UINT_RANGE - 1) % UINT_RANGE
          else h.skinCount p) + 1) % UINT_RANGE
      else if old = some p then (h.skinCount p + UINT_RANGE - 1) % UINT_RANGE
      else h.skinCount p := by
  by_cases hj : j = some p
  · subst hj
    rw [if_pos rfl, bindJoint_skinCount_same]
    by_cases ho : old = some p
    · subst ho
      rw [if_pos rfl, unbindJoint_skinCount_same]
    · rw [if_neg ho, unbindJoint_skinCount_other _ _ _ ho]
  · rw [if_neg hj, bindJoint_skinCount_other _ _ _ hj]
    by_cases ho : old = some p
    · subst ho
      rw [if_pos rfl, unbindJoint_skinCount_same]
    · rw [if_neg ho, unbindJoint_skinCount_other _ _ _ ho]

/-- Invariant of the reachable states of several skins: after `n` calls of
`setJoint`, with `n` an unsigned value, the skin count of a joint is at least
the number of its holders and at most `n`. -/
theorem skinsReachable_invariant (n : Nat) (h : Heap) (skins : List MeshSkin)
    (hr : SkinsReachable n h skins) :
    n < UINT_RANGE → ∀ p, holders skins p ≤ h.skinCount p ∧ h.skinCount p ≤ n := by
  induction hr with
  | init h skins hzero hempty =>
    intro _ p
    have hsum : ∀ l : List MeshSkin, (∀ s ∈ l, s.joints = []) → holders l p = 0 := by
      intro l
      induction l with
      | nil => intro _; rfl
      | cons x t ih =>
        intro hl
        have hx := hl x (List.mem_cons_self _ _)
        have ht := ih (fun s hs => hl s (List.mem_cons_of_mem _ hs))
        simp only [holders, List.map_cons, List.sum_cons] at ht ⊢
        rw [ht]
        simp [slotsHolding, hx]
    rw [hsum skins hempty, hzero p]
    omega
  | jointCount n h skins i s w' count _ hs hstep ih =>
    intro hn p
    obtain ⟨hj, _, _, _, _, _, hsc, _⟩ :=
      setJointCount_props { heap := h, skin := s } w' count hstep
    have hset := holders_set p w'.skin skins i s hs
    have := ih hn p
    rw [hsc]
    simp only [slotsHolding, hj, count_none_replicate] at hset
    simp only
    omega
  | joint n h skins i s w' j index _ hs hstep ih =>
    intro hn p
    obtain ⟨hi, hskin, hheap⟩ := setJoint_effect { heap := h, skin := s } w' j index hstep
    have hset := holders_set p w'.skin skins i s hs
    have hge := holders_ge p skins i s hs
    have hcount := count_set_add (some p) j s.joints index hi
    have hinv := ih (by omega) p
    have hval := setJoint_skinCount_cases h (s.joints.getD index none) j p
    have hs1 : slotsHolding w'.skin p = (s.joints.set index j).count (some p) := by
      rw [hskin]
      rfl
    have hs0 : slotsHolding s p = s.joints.count (some p) := rfl
    rw [hs1, hs0] at hset
    rw [hs0] at hge
    rw [hheap]
    simp only at hval hcount hi ⊢
    rw [hval]
    simp only [UINT_RANGE] at hn ⊢
    by_cases ho : s.joints.getD index none = some p
    · have hone := slot_counted s.joints index p ho
      by_cases hj : j = some p
      · subst hj
        simp only [ho, if_true] at hcount ⊢
        omega
      · simp only [ho, hj, if_true, if_false] at hcount ⊢
        omega
    · by_cases hj : j = some p
      · subst hj
        simp only [ho, if_true, if_false] at hcount ⊢
        omega
      · simp only [ho, hj, if_false] at hcount ⊢
        omega

/-- With a valid index `setJoint` completes. -/
theorem setJoint_completes (w : World) (j : Option Ptr) (index : Nat)
    (hi : index < w.skin.joints.length) : ∃ w', setJoint w j index = .done w' := by
  unfold setJoint
  rw [if_pos hi]
  exact ⟨_, rfl⟩

/-- Rebinding cycles: after `k` rounds of `setJointCount(1)` followed by
`setJoint(joint 1, 0)` on one skin, the skin count of joint 1 is `k` modulo
`2 ^ 32`, while from the first round on one slot holds the joint. -/
theorem rebind_cycles :
    ∀ k : Nat, ∃ (h : Heap) (s : MeshSkin), SkinsReachable k h [s] ∧
      h.skinCount 1 = k % UINT_RANGE ∧ (0 < k → s.joints = [some 1]) := by
  intro k
  induction k with
  | zero =>
    refine ⟨freshHeap, MeshSkin.new 50, ?_, rfl, fun h => absurd h (by omega)⟩
    refine SkinsReachable.init freshHeap _ (fun _ => rfl) ?_
    intro s hs
    simp only [List.mem_singleton] at hs
    subst hs
    rfl
  | succ k ih =>
    obtain ⟨h, s, hr, hc, _⟩ := ih
    obtain ⟨w1, e1, hj1, _, _, _, _, _, hsc1, _⟩ :=
      setJointCount_effect { heap := h, skin := s } 1 (by decide)
    have r1 := SkinsReachable.jointCount k h [s] 0 s w1 1 hr rfl e1
    obtain ⟨w2, e2⟩ := setJoint_completes { heap := w1.heap, skin := w1.skin } (some 1) 0
      (by simp [hj1])
    have r2 := SkinsReachable.joint k w1.heap ([s].set 0 w1.skin) 0 w1.skin w2 (some 1) 0 r1
      (by simp) e2
    obtain ⟨_, hskin2, hheap2⟩ := setJoint_effect _ w2 (some 1) 0 e2
    refine ⟨w2.heap, w2.skin, by simpa using r2, ?_, fun _ => ?_⟩
    · rw [hheap2]
      simp only [hj1, List.replicate, List.getD_cons_zero]
      rw [setJoint_skinCount_cases]
      simp only [if_true, reduceCtorEq, if_false, hsc1, hc]
      simp only [UINT_RANGE]
      omega
    · rw [hskin2]
      simp [hj1]

/-! ### The flow layout loop -/

theorem le_pick_right (a b : Scalar) : b ≤ (if a > b then a else b) := by
  by_cases h : a > b
  · rw [if_pos h]
    exact le_of_lt h
  · rw [if_neg h]

theorem le_pick_left (a b : Scalar) : a ≤ (if a > b then a else b) := by
  by_cases h : a > b
  · rw [if_pos h]
  · rw [if_neg h]
    exact not_lt.mp h

/-- What one iteration of the flow layout loop leaves, when `Control::update`
changes neither the bounds nor the margin of the control. -/
theorem flowStep_facts (cw : Scalar) (cu : Rectangle → Control → Control) (clip : Rectangle)
    (hcu : ∀ r c, (cu r c).bounds = c.bounds ∧ (cu r c).margin = c.margin)
    (st : FlowState) (c : Control) :
    (flowStep cw cu clip st c).2.wrapped = wraps cw st c ∧
    (flowStep cw cu clip st c).2.control.bounds.width = c.bounds.width ∧
    (flowStep cw cu clip st c).2.control.bounds.height = c.bounds.height ∧
    (flowStep cw cu clip st c).2.control.bounds.x =
      (if wraps cw st c then c.margin.left else st.xPosition + c.margin.left) ∧
    (flowStep cw cu clip st c).2.control.bounds.y =
      (flowStep cw cu clip st c).1.rowY + c.margin.top ∧
    (flowStep cw cu clip st c).1.rowY =
      (if wraps cw st c then st.rowY + st.tallestHeight else st.rowY) ∧
    (flowStep cw cu clip st c).1.xPosition =
      (flowStep cw cu clip st c).2.control.bounds.x + (c.bounds.width + c.margin.right) ∧
    st.tallestHeight ≤ (flowStep cw cu clip st c).1.tallestHeight ∧
    c.bounds.height + c.margin.top + c.margin.bottom ≤
      (flowStep cw cu clip st c).1.tallestHeight := by
  have hb1 : ∀ (b : Bool) (c1 : Control),
      (if b = true then cu clip c1 else c1).bounds = c1.bounds := by
    intro b c1
    by_cases h : b = true
    · rw [if_pos h]
      exact (hcu clip c1).1
    · rw [if_neg h]
  have hb2 : ∀ (b : Bool) (c1 : Control),
      (if b = true then cu clip c1 else c1).margin = c1.margin := by
    intro b c1
    by_cases h : b = true
    · rw [if_pos h]
      exact (hcu clip c1).2
    · rw [if_neg h]
  have ht : (flowStep cw cu clip st c).1.tallestHeight =
      (if c.bounds.height + c.margin.top + c.margin.bottom > st.tallestHeight then
        c.bounds.height + c.margin.top + c.margin.bottom else st.tallestHeight) := by
    simp only [flowStep, hb1, hb2, setPosition]
  refine ⟨rfl, ?_, ?_, ?_, ?_, rfl, ?_, ?_, ?_⟩
  · simp only [flowStep, hb1, setPosition]
  · simp only [flowStep, hb1, setPosition]
  · simp only [flowStep, hb1, setPosition]
  · simp only [flowStep, hb1, setPosition]
  · simp only [flowStep, hb1, hb2, setPosition]
  · rw [ht]
    exact le_pick_right _ _
  · rw [ht]
    exact le_pick_left _ _

theorem flowLoop_cons (cw : Scalar) (cu : Rectangle → Control → Control) (clip : Rectangle)
    (c : Control) (rest : List Control) (st : FlowState) :
    flowLoop cw cu clip (c :: rest) st =
      (flowStep cw cu clip st c).2 :: flowLoop cw cu clip rest (flowStep cw cu clip st c).1 :=
  rfl

theorem flowLoop_length (cw : Scalar) (cu : Rectangle → Control → Control) (clip : Rectangle) :
    ∀ (cs : List Control) (st : FlowState), (flowLoop cw cu clip cs st).length = cs.length := by
  intro cs
  induction cs with
  | nil => intro st; rfl
  | cons c rest ih =>
    intro st
    rw [flowLoop_cons, List.length_cons, List.length_cons, ih]

/-- Every control placed by the rest of the loop lies at or below the row the
loop has reached. -/
theorem flowLoop_below (cw : Scalar) (cu : Rectangle → Control → Control) (clip : Rectangle)
    (hcu : ∀ r c, (cu r c).bounds = c.bounds ∧ (cu r c).margin = c.margin) :
    ∀ (cs : List Control) (st : FlowState), (∀ c ∈ cs, nonNegative c) →
      0 ≤ st.tallestHeight → ∀ (j : Nat) (e : Placed),
      (flowLoop cw cu clip cs st)[j]? = some e → st.rowY ≤ e.control.bounds.y := by
  intro cs
  induction cs with
  | nil =>
    intro st _ _ j e h
    simp [flowLoop] at h
  | cons c rest ih =>
    intro st hwf ht j e h
    obtain ⟨_, _, _, _, hy, hrow, _, ht1, _⟩ := flowStep_facts cw cu clip hcu st c
    obtain ⟨_, _, _, _, hmt, _⟩ := hwf c (List.mem_cons_self _ _)
    have hrow1 : st.rowY ≤ (flowStep cw cu clip st c).1.rowY := by
      rw [hrow]
      split <;> linarith
    rw [flowLoop_cons] at h
    cases j with
    | zero =>
      simp only [List.getElem?_cons_zero, Option.some.injEq] at h
      subst h
      rw [hy]
      linarith
    | succ j =>
      simp only [List.getElem?_cons_succ] at h
      have := ih _ (fun c hc => hwf c (List.mem_cons_of_mem _ hc)) (le_trans ht ht1) j e h
      linarith

/-- What the rest of the loop does relative to a point `(X, Y)` with `X` at most
the current `xPosition` and `Y` at most the bottom of the current row: a
control placed before any wrap lies right of `X`, one placed after a wrap lies
below `Y`. -/
theorem flowLoop_after (cw : Scalar) (cu : Rectangle → Control → Control) (clip : Rectangle)
    (hcu : ∀ r c, (cu r c).bounds = c.bounds ∧ (cu r c).margin = c.margin) :
    ∀ (cs : List Control) (st : FlowState) (X Y : Scalar), (∀ c ∈ cs, nonNegative c) →
      0 ≤ st.tallestHeight → X ≤ st.xPosition → Y ≤ st.rowY + st.tallestHeight →
      ∀ (j : Nat) (e : Placed), (flowLoop cw cu clip cs st)[j]? = some e →
      ((∀ (k : Nat) (ek : Placed), k ≤ j → (flowLoop cw cu clip cs st)[k]? = some ek →
          ek.wrapped = false) ∧ X ≤ e.control.bounds.x) ∨
      ((∃ (k : Nat) (ek : Placed), k ≤ j ∧ (flowLoop cw cu clip cs st)[k]? = some ek ∧
          ek.wrapped = true) ∧ Y ≤ e.control.bounds.y) := by
  intro cs
  induction cs with
  | nil =>
    intro st X Y _ _ _ _ j e h
    simp [flowLoop] at h
  | cons c rest ih =>
    intro st X Y hwf ht hX hY j e h
    obtain ⟨hw, _, _, hx, hy, hrow, hxp, ht1, _⟩ := flowStep_facts cw cu clip hcu st c
    obtain ⟨hcw, _, hml, hmr, hmt, _⟩ := hwf c (List.mem_cons_self _ _)
    have hrest : ∀ c1 ∈ rest, nonNegative c1 := fun c1 hc1 => hwf c1 (List.mem_cons_of_mem _ hc1)
    rw [flowLoop_cons] at h ⊢
    by_cases hwr : wraps cw st c = true
    · right
      rw [if_pos hwr] at hrow
      refine ⟨⟨0, _, Nat.zero_le _, List.getElem?_cons_zero, by rw [hw]; exact hwr⟩, ?_⟩
      cases j with
      | zero =>
        simp only [List.getElem?_cons_zero, Option.some.injEq] at h
        subst h
        rw [hy]
        linarith
      | succ j =>
        simp only [List.getElem?_cons_succ] at h
        have := flowLoop_below cw cu clip hcu rest _ hrest (le_trans ht ht1) j e h
        linarith
    · have hwf0 : (flowStep cw cu clip st c).2.wrapped = false := by
        rw [hw]
        simpa using hwr
      rw [if_neg hwr] at hrow hx
      cases j with
      | zero =>
        left
        simp only [List.getElem?_cons_zero, Option.some.injEq] at h
        subst h
        refine ⟨?_, by rw [hx]; linarith⟩
        intro k ek hk hek
        have hk0 : k = 0 := by omega
        subst hk0
        simp only [List.getElem?_cons_zero, Option.some.injEq] at hek
        subst hek
        exact hwf0
      | succ j =>
        simp only [List.getElem?_cons_succ] at h
        have hX1 : X ≤ (flowStep cw cu clip st c).1.xPosition := by
          rw [hxp, hx]
          linarith
        have hY1 : Y ≤ (flowStep cw cu clip st c).1.rowY +
            (flowStep cw cu clip st c).1.tallestHeight := by
          rw [hrow]
          linarith
        rcases ih _ X Y hrest (le_trans ht ht1) hX1 hY1 j e h with
          ⟨hall, hx1⟩ | ⟨⟨k, ek, hk, hek, hwk⟩, hy1⟩
        · left
          refine ⟨?_, hx1⟩
          intro k ek hk hek
          cases k with
          | zero =>
            simp only [List.getElem?_cons_zero, Option.some.injEq] at hek
            subst hek
            exact hwf0
          | succ k =>
            simp only [List.getElem?_cons_succ] at hek
            exact hall k ek (by omega) hek
        · right
          exact ⟨⟨k + 1, ek, by omega, by simpa using hek, hwk⟩, hy1⟩

/-- Any two controls placed by the loop are apart: with no wrap between them the
later one lies right of the earlier one, with a wrap it lies below. -/
theorem flowLoop_apart (cw : Scalar) (cu : Rectangle → Control → Control) (clip : Rectangle)
    (hcu : ∀ r c, (cu r c).bounds = c.bounds ∧ (cu r c).margin = c.margin) :
    ∀ (cs : List Control) (st : FlowState), (∀ c ∈ cs, nonNegative c) →
      0 ≤ st.tallestHeight →
      ∀ (i j : Nat) (ei ej : Placed), i < j → (flowLoop cw cu clip cs st)[i]? = some ei →
      (flowLoop cw cu clip cs st)[j]? = some ej →
      ((∀ (k : Nat) (ek : Placed), i < k → k ≤ j →
          (flowLoop cw cu clip cs st)[k]? = some ek → ek.wrapped = false) ∧
        ei.control.bounds.x + ei.control.bounds.width ≤ ej.control.bounds.x) ∨
      ((∃ (k : Nat) (ek : Placed), i < k ∧ k ≤ j ∧
          (flowLoop cw cu clip cs st)[k]? = some ek ∧ ek.wrapped = true) ∧
        ei.control.bounds.y + ei.control.bounds.height ≤ ej.control.bounds.y) := by
  intro cs
  induction cs with
  | nil =>
    intro st _ _ i j ei ej _ h
    simp [flowLoop] at h
  | cons c rest ih =>
    intro st hwf ht i j ei ej hij hi hj
    obtain ⟨_, hwd, hhd, _, hy, _, hxp, ht1, ht2⟩ := flowStep_facts cw cu clip hcu st c
    obtain ⟨_, _, _, hmr, _, hmb⟩ := hwf c (List.mem_cons_self _ _)
    have hrest : ∀ c1 ∈ rest, nonNegative c1 := fun c1 hc1 => hwf c1 (List.mem_cons_of_mem _ hc1)
    rw [flowLoop_cons] at hi hj ⊢
    cases j with
    | zero => omega
    | succ j =>
      simp only [List.getElem?_cons_succ] at hj
      cases i with
      | zero =>
        simp only [List.getElem?_cons_zero, Option.some.injEq] at hi
        subst hi
        have hX1 : (flowStep cw cu clip st c).2.control.bounds.x +
            (flowStep cw cu clip st c).2.control.bounds.width ≤
            (flowStep cw cu clip st c).1.xPosition := by
          rw [hxp, hwd]
          linarith
        have hY1 : (flowStep cw cu clip st c).2.control.bounds.y +
            (flowStep cw cu clip st c).2.control.bounds.height ≤
            (flowStep cw cu clip st c).1.rowY +
              (flowStep cw cu clip st c).1.tallestHeight := by
          rw [hy, hhd]
          linarith
        rcases flowLoop_after cw cu clip hcu rest _ _ _ hrest (le_trans ht ht1) hX1 hY1 j ej hj
          with ⟨hall, hx1⟩ | ⟨⟨k, ek, hk, hek, hwk⟩, hy1⟩
        · left
          refine ⟨?_, hx1⟩
          intro k ek hk0 hk hek
          cases k with
          | zero => omega
          | succ k =>
            simp only [List.getElem?_cons_succ] at hek
            exact hall k ek (by omega) hek
        · right
          exact ⟨⟨k + 1, ek, by omega, by omega, by simpa using hek, hwk⟩, hy1⟩
      | succ i =>
        simp only [List.getElem?_cons_succ] at hi
        rcases ih _ hrest (le_trans ht ht1) i j ei ej (by omega) hi hj with
          ⟨hall, hx1⟩ | ⟨⟨k, ek, hk0, hk, hek, hwk⟩, hy1⟩
        · left
          refine ⟨?_, hx1⟩
          intro k ek hk0 hk hek
          cases k with
          | zero => omega
          | succ k =>
            simp only [List.getElem?_cons_succ] at hek
            exact hall k ek (by omega) (by omega) hek
        · right
          exact ⟨⟨k + 1, ek, by omega, by omega, by simpa using hek, hwk⟩, hy1⟩

/-- Every control keeps its width, height and margin through the loop, in order. -/
theorem flowLoop_keeps (cw : Scalar) (cu : Rectangle → Control → Control) (clip : Rectangle)
    (hcu : ∀ r c, (cu r c).bounds = c.bounds ∧ (cu r c).margin = c.margin) :
    ∀ (cs : List Control) (st : FlowState) (i : Nat) (e : Placed),
      (flowLoop cw cu clip cs st)[i]? = some e →
      ∃ c, cs[i]? = some c ∧ e.control.bounds.width = c.bounds.width ∧
        e.control.bounds.height = c.bounds.height := by
  intro cs
  induction cs with
  | nil =>
    intro st i e h
    simp [flowLoop] at h
  | cons c rest ih =>
    intro st i e h
    obtain ⟨_, hwd, hhd, _⟩ := flowStep_facts cw cu clip hcu st c
    rw [flowLoop_cons] at h
    cases i with
    | zero =>
      simp only [List.getElem?_cons_zero, Option.some.injEq] at h
      subst h
      exact ⟨c, List.getElem?_cons_zero, hwd, hhd⟩
    | succ i =>
      simp only [List.getElem?_cons_succ] at h ⊢
      exact ih _ i e h

/-- With every slot bound and a buffer of three rows per slot,
`getMatrixPalette` completes and leaves the rows of `skinningPalette`. -/
theorem getMatrixPalette_bound (ujm : Heap → Ptr → Matrix → Rows) (w : World)
    (hsized : (paletteRows w).length = 3 * getJointCount w)
    (hall : ∀ i, i < getJointCount w → ∃ p, getJoint w i = .ok (some p)) :
    ∃ w', getMatrixPalette ujm w = .done w' ∧
      paletteRows w' = skinningPalette ujm w.heap (getBindShape w) w.skin.joints := by
  have hbound := all_slots_bound w hall
  cases hpal : w.skin.matrixPalette with
  | none =>
    have hlen : w.skin.joints.length = 0 := by
      simp only [paletteRows, hpal, Option.getD_none, List.length_nil, getJointCount] at hsized
      omega
    have hnil : w.skin.joints = [] := List.length_eq_zero.mp hlen
    refine ⟨w, ?_, ?_⟩
    · simp [getMatrixPalette, hnil, getMatrixPaletteLoop]
    · simp [paletteRows, hpal, hnil, skinningPalette]
  | some buf =>
    have hlen : buf.length = w.skin.joints.length * PALETTE_ROWS := by
      simp only [paletteRows, hpal, Option.getD_some, getJointCount] at hsized
      simp only [PALETTE_ROWS]
      omega
    have hloop := getMatrixPaletteLoop_spec ujm w.skin.joints 0 w [] buf
      (by simpa using hpal) (by simp) hlen hbound
    exact ⟨_, hloop, by simp [paletteRows, withPalette]⟩

/-- When slot `index` holds `p` and `j` differs from `p`, `setJoint(j, index)`
completes, decrements the skin count of `p` (when `p` is non-null), increments
the skin count of `j` (when `j` is non-null) and leaves the skin count of every
other joint unchanged.  The counters are unsigned, so both steps are taken
modulo `2 ^ 32`: the count of `p` goes down by exactly 1 whenever it is a
positive unsigned value, as it is for a joint bound in a slot, and the count
of `j` goes up by exactly 1 whenever it is below the largest unsigned value. -/
theorem setJoint_skinCount (w : World) (j p : Option Ptr) (index : Nat)
    (hidx : index < getJointCount w) (hslot : getJoint w index = .ok p) (hne : j ≠ p) :
    ∃ w', setJoint w j index = .done w' ∧
      (∀ a, p = some a →
        w'.heap.skinCount a = (w.heap.skinCount a + UINT_RANGE - 1) % UINT_RANGE ∧
        (0 < w.heap.skinCount a → w.heap.skinCount a < UINT_RANGE →
          w'.heap.skinCount a + 1 = w.heap.skinCount a)) ∧
      (∀ b, j = some b →
        w'.heap.skinCount b = (w.heap.skinCount b + 1) % UINT_RANGE ∧
        (w.heap.skinCount b + 1 < UINT_RANGE →
          w'.heap.skinCount b = w.heap.skinCount b + 1)) ∧
      (∀ c, p ≠ some c → j ≠ some c → w'.heap.skinCount c = w.heap.skinCount c) := by
  have hidx' : index < w.skin.joints.length := hidx
  have hp : w.skin.joints.getD index none = p := by
    simp only [getJoint, if_pos hidx'] at hslot
    exact Except.ok.inj hslot
  rw [setJoint, if_pos hidx', hp]
  refine ⟨_, rfl, ?_, ?_, ?_⟩
  · intro a ha
    subst ha
    have hval : (bindJoint (unbindJoint w.heap (some a)) j).skinCount a =
        (w.heap.skinCount a + UINT_RANGE - 1) % UINT_RANGE := by
      rw [bindJoint_skinCount_other _ j a hne, unbindJoint_skinCount_same]
    refine ⟨hval, ?_⟩
    intro hpos hlt
    show (bindJoint (unbindJoint w.heap (some a)) j).skinCount a + 1 = w.heap.skinCount a
    rw [hval]
    simp only [UINT_RANGE] at hlt ⊢
    omega
  · intro b hb
    subst hb
    have hval : (bindJoint (unbindJoint w.heap p) (some b)).skinCount b =
        (w.heap.skinCount b + 1) % UINT_RANGE := by
      rw [bindJoint_skinCount_same, unbindJoint_skinCount_other _ p b (Ne.symm hne)]
    refine ⟨hval, ?_⟩
    intro hlt
    show (bindJoint (unbindJoint w.heap p) (some b)).skinCount b = w.heap.skinCount b + 1
    rw [hval]
    simp only [UINT_RANGE] at hlt ⊢
    omega
  · intro c hpc hjc
    show (bindJoint (unbindJoint w.heap p) j).skinCount c = w.heap.skinCount c
    rw [bindJoint_skinCount_other _ j c hjc, unbindJoint_skinCount_other _ p c hpc]

/-- Starting from skin counts 0 and skins without slots, in every state
reached by calls of `setJointCount` and `setJoint` on any of the skins in any
order, with the number of `setJoint` calls an unsigned value (below `2 ^ 32`,
so that no increment has wrapped), the skin count of every joint is at least
the number of (skin, slot) pairs holding it; hence a joint held in a slot has
a positive skin count and the decrement of `setJoint` takes exactly 1 off it
without wrapping below zero. -/
theorem skinCount_covers_holders (n : Nat) (h : Heap) (skins : List MeshSkin)
    (hr : SkinsReachable n h skins) (hn : n < UINT_RANGE) :
    (∀ p, holders skins p ≤ h.skinCount p) ∧
    (∀ (i : Nat) (s : MeshSkin) (index : Nat) (p : Ptr), skins[i]? = some s →
      s.joints[index]? = some (some p) →
      0 < h.skinCount p ∧ (decSkinCount h p).skinCount p + 1 = h.skinCount p) := by
  have hinv := skinsReachable_invariant n h skins hr hn
  refine ⟨fun p => (hinv p).1, ?_⟩
  intro i s index p hs hslot
  have hge := holders_ge p skins i s hs
  have hone : 1 ≤ s.joints.count (some p) := List.count_pos_iff.mpr (List.getElem?_mem hslot)
  have hp := hinv p
  simp only [slotsHolding] at hge
  have hpos : 0 < h.skinCount p := by omega
  refine ⟨hpos, ?_⟩
  simp only [decSkinCount, Function.update_same, UINT_RANGE] at hn ⊢
  omega

/-- Whatever the number of slots, `getJointIndex` answers -1 when no slot holds
the joint, and a non-negative answer is the first index whose slot holds it. -/
theorem getJointIndex_sound (w : World) (j : Option Ptr) :
    ((∀ i, i < getJointCount w → getJoint w i ≠ .ok j) → getJointIndex w j = -1) ∧
    (∀ i : Nat, getJointIndex w j = (i : Int) →
      i < getJointCount w ∧ getJoint w i = .ok j ∧ ∀ k, k < i → getJoint w k ≠ .ok j) := by
  have hlen : (w.skin.joints.take (w.skin.joints.length % UINT_RANGE)).length <
      UINT_RANGE := by
    rw [List.length_take]
    exact lt_of_le_of_lt (Nat.min_le_left _ _) (Nat.mod_lt _ (by simp [UINT_RANGE]))
  have hpre : ∀ (m : Nat) (x : Option Ptr),
      (w.skin.joints.take (w.skin.joints.length % UINT_RANGE))[m]? = some x →
      w.skin.joints[m]? = some x := by
    intro m x hm
    rw [List.getElem?_take] at hm
    split at hm
    · exact hm
    · cases hm
  unfold getJointIndex
  simp only
  rcases getJointIndexLoop_spec j (w.skin.joints.take (w.skin.joints.length % UINT_RANGE)) 0
      (by omega) with ⟨hres, hnone⟩ | ⟨k, hres, hk, hmin⟩
  · refine ⟨fun _ => hres, ?_⟩
    intro i hi
    rw [hres] at hi
    omega
  · have hkj := hpre k j hk
    have hklen : k < (w.skin.joints.take (w.skin.joints.length % UINT_RANGE)).length := by
      rcases Nat.lt_or_ge k (w.skin.joints.take (w.skin.joints.length % UINT_RANGE)).length
        with hlt | hge
      · exact hlt
      · rw [List.getElem?_eq_none hge] at hk
        cases hk
    have hklt : k < w.skin.joints.length := by
      rcases Nat.lt_or_ge k w.skin.joints.length with hlt | hge
      · exact hlt
      · rw [List.getElem?_eq_none hge] at hkj
        cases hkj
    refine ⟨?_, ?_⟩
    · intro hno
      exact absurd (getJoint_of_index w k j hkj) (hno k hklt)
    · intro i hi
      rw [hres, Nat.zero_add] at hi
      have hki : k = i := by
        unfold castInt at hi
        split at hi
        · omega
        · have hkR : k < UINT_RANGE := lt_trans hklen hlen
          simp only [UINT_RANGE] at hi hkR
          omega
      subst hki
      refine ⟨hklt, getJoint_of_index w k j hkj, ?_⟩
      intro m hm hget
      have hjm := getJoint_some_index w m j hget
      apply hmin m hm
      rw [List.getElem?_take]
      rw [List.length_take] at hklen
      rw [if_pos (by omega)]
      exact hjm

/-! ## Claims -/

/-- C1, counterexample: `setJointCount(1431655766)` on the sample skin.  The
product `1431655766 * 3` wraps to 2 in `unsigned int`, so a buffer of 2 rows
is allocated for 1431655766 slots and the first round of the loop writes
row 2 outside it: the call does not complete, and the palette size reported
for the 1431655766 slots is 2, not `3 * n`. -/
theorem setJointCount_overruns_palette :
    ∃ w', setJointCount sampleWorld 1431655766 = .failed Fault.outOfBounds w' ∧
      getJointCount w' = 1431655766 ∧ (paletteRows w').length = 2 ∧
      getMatrixPaletteSize w' = 2 := by
  have hwrap : 1431655766 * PALETTE_ROWS % UINT_RANGE = 2 := by
    norm_num [UINT_RANGE, PALETTE_ROWS]
  obtain ⟨w', hfail, hcount, hlen, hsize⟩ := setJointCount_overrun sampleWorld 1431655766
    (by norm_num [UINT_RANGE]) (by norm_num [UINT_RANGE, PALETTE_ROWS])
  exact ⟨w', hfail, hcount, hlen.trans hwrap, hsize.trans hwrap⟩

/-- C1: for every prior state and every `n` whose palette size `3 * n` is an
`unsigned int`, `setJointCount(n)` completes and afterwards `getJointCount()`
is `n`, every one of the `n` slots is null, `getMatrixPaletteSize()` is
`3 * n`, and the palette buffer is null when `n = 0` and otherwise holds
exactly `3 * n` rows, joint `i` owning the rows `[1,0,0,0]`, `[0,1,0,0]`,
`[0,0,1,0]` at `3i`, `3i+1`, `3i+2`.  For every other `unsigned int` `n` the
call does not complete: it allocates `3 * n mod 2 ^ 32` rows for the `n` slots
and its loop writes outside that buffer. -/
theorem setJointCount_resets (w : World) (n : Nat) :
    (n * PALETTE_ROWS < UINT_RANGE →
      ∃ w', setJointCount w n = .done w' ∧
        getJointCount w' = n ∧
        (∀ i, i < n → getJoint w' i = .ok none) ∧
        getMatrixPaletteSize w' = 3 * n ∧
        (n = 0 → w'.skin.matrixPalette = none) ∧
        (0 < n → ∃ pal, w'.skin.matrixPalette = some pal ∧ pal.length = 3 * n ∧
          ∀ i, i < n →
            pal[3 * i]? = some ⟨1, 0, 0, 0⟩ ∧
            pal[3 * i + 1]? = some ⟨0, 1, 0, 0⟩ ∧
            pal[3 * i + 2]? = some ⟨0, 0, 1, 0⟩)) ∧
    (n < UINT_RANGE → UINT_RANGE ≤ n * PALETTE_ROWS →
      ∃ w', setJointCount w n = .failed Fault.outOfBounds w' ∧
        getJointCount w' = n ∧
        (paletteRows w').length = (n * PALETTE_ROWS) % UINT_RANGE) := by
  constructor
  · intro hfit
    obtain ⟨h1, _, _, e⟩ := setJointCount_done w n hfit
    refine ⟨_, e, ?_, ?_, ?_, ?_, ?_⟩
    · simp [getJointCount]
    · intro i hi
      simp [getJoint, hi, List.getD_eq_getElem?_getD, List.getElem?_replicate]
    · simp only [getMatrixPaletteSize, List.length_replicate]
      rw [Nat.mod_eq_of_lt hfit]
      simp only [PALETTE_ROWS]
      omega
    · intro hn
      simp [hn]
    · intro hn
      refine ⟨identityPalette n, ?_, identityPalette_length n, identityPalette_rows n⟩
      simp [hn]
  · intro hn hbig
    obtain ⟨w', hfail, hcount, hlen, _⟩ := setJointCount_overrun w n hn hbig
    exact ⟨w', hfail, hcount, hlen⟩

/-- Witness of C1: `setJointCount(2)` on the sample skin. -/
theorem setJointCount_resets_witness :
    ∃ w', setJointCount sampleWorld 2 = .done w' ∧
      getJointCount w' = 2 ∧
      (∀ i, i < 2 → getJoint w' i = .ok none) ∧
      getMatrixPaletteSize w' = 3 * 2 ∧
      (2 = 0 → w'.skin.matrixPalette = none) ∧
      (0 < 2 → ∃ pal, w'.skin.matrixPalette = some pal ∧ pal.length = 3 * 2 ∧
        ∀ i, i < 2 →
          pal[3 * i]? = some ⟨1, 0, 0, 0⟩ ∧
          pal[3 * i + 1]? = some ⟨0, 1, 0, 0⟩ ∧
          pal[3 * i + 2]? = some ⟨0, 0, 1, 0⟩) :=
  (setJointCount_resets sampleWorld 2).1 (by decide)

/-- C2: for a valid index and any joint `j` (possibly null), `setJoint(j, index)`
completes, `getJoint(index)` then returns `j`, and the joint count, every other
slot, the palette buffer, the bind shape, the root joint and the root node are
unchanged. -/
theorem setJoint_frame (w : World) (j : Option Ptr) (index : Nat)
    (hidx : index < getJointCount w) :
    ∃ w', setJoint w j index = .done w' ∧
      getJoint w' index = .ok j ∧
      getJointCount w' = getJointCount w ∧
      (∀ k, k ≠ index → getJoint w' k = getJoint w k) ∧
      w'.skin.matrixPalette = w.skin.matrixPalette ∧
      getBindShape w' = getBindShape w ∧
      getRootJoint w' = getRootJoint w ∧
      w'.skin.rootNode = w.skin.rootNode := by
  have hidx' : index < w.skin.joints.length := hidx
  rw [setJoint, if_pos hidx']
  refine ⟨_, rfl, ?_, ?_, ?_, rfl, rfl, rfl, rfl⟩
  · simp [getJoint, hidx', List.getD_eq_getElem?_getD]
  · simp [getJointCount]
  · intro k hk
    simp [getJoint, List.getD_eq_getElem?_getD, List.getElem?_set_ne (Ne.symm hk)]

/-- Witness of C2 on the sample skin: binding joint 2 in slot 1. -/
theorem setJoint_frame_witness :
    ∃ w', setJoint sampleWorld (some 2) 1 = .done w' ∧
      getJoint w' 1 = .ok (some 2) ∧
      getJointCount w' = getJointCount sampleWorld ∧
      (∀ k, k ≠ 1 → getJoint w' k = getJoint sampleWorld k) ∧
      w'.skin.matrixPalette = sampleWorld.skin.matrixPalette ∧
      getBindShape w' = getBindShape sampleWorld ∧
      getRootJoint w' = getRootJoint sampleWorld ∧
      w'.skin.rootNode = sampleWorld.skin.rootNode :=
  setJoint_frame sampleWorld (some 2) 1 (by decide)

/-- C3, failing input: one skin on the fresh sample scene, taken `2 ^ 32` times
through `setJointCount(1)` and `setJoint(joint 1, 0)`.  In this reachable state
slot 0 holds joint 1 and the skin count of joint 1 is 0, because `clearJoints`
never took off what each `setJoint` added until the counter wrapped.
`setJoint(null, 0)` with the valid index 0 then completes and takes the skin
count of joint 1 from 0 to `2 ^ 32 - 1`: it does not decrease by 1. -/
theorem setJoint_decrement_wraps :
    ∃ (h : Heap) (s : MeshSkin), SkinsReachable UINT_RANGE h [s] ∧
      getJoint { heap := h, skin := s } 0 = .ok (some 1) ∧ h.skinCount 1 = 0 ∧
      ∃ w', setJoint { heap := h, skin := s } none 0 = .done w' ∧
        w'.heap.skinCount 1 = 4294967295 := by
  obtain ⟨h, s, hr, hc, hj⟩ := rebind_cycles UINT_RANGE
  have hjoints : s.joints = [some 1] := hj (by decide)
  have hc0 : h.skinCount 1 = 0 := by rw [hc, Nat.mod_self]
  obtain ⟨w', e⟩ := setJoint_completes { heap := h, skin := s } none 0 (by simp [hjoints])
  obtain ⟨_, _, hheap⟩ := setJoint_effect _ w' none 0 e
  refine ⟨h, s, hr, by simp [getJoint, hjoints], hc0, w', e, ?_⟩
  rw [hheap]
  simp only [hjoints, List.getD_cons_zero]
  rw [setJoint_skinCount_cases]
  simp [hc0, UINT_RANGE]

/-- C4, evaluated on the sample skin: before `setJointCount(0)` joint 1 is bound
in slot 0 and only there, with skin count 1; the call completes and empties
the skin, yet the skin count of joint 1 is still 1.  `clearJoints` releases
the reference of each slot without the decrement that `setJoint` performs. -/
theorem setJointCount_keeps_skinCount :
    getJoint sampleWorld 0 = .ok (some 1) ∧ getJoint sampleWorld 1 = .ok none ∧
    sampleWorld.heap.skinCount 1 = 1 ∧
    ∃ w', setJointCount sampleWorld 0 = .done w' ∧ getJointCount w' = 0 ∧
      w'.heap.skinCount 1 = 1 := by
  obtain ⟨h1, hs, _, e⟩ := setJointCount_done sampleWorld 0 (by decide)
  refine ⟨rfl, rfl, by decide, _, e, rfl, ?_⟩
  show h1.skinCount 1 = 1
  rw [hs]
  decide

/-- C5: for every index at or beyond the joint count, `setJoint` stops on its
range assertion in the unchanged state (every slot of the skin and every skin
count is as before); for every index below the joint count it completes. -/
theorem setJoint_range (w : World) (joint : Option Ptr) (index : Nat) :
    (getJointCount w ≤ index → setJoint w joint index = .failed Fault.assertion w) ∧
    (index < getJointCount w → ∃ w', setJoint w joint index = .done w') := by
  constructor
  · intro h
    have h' : ¬ index < w.skin.joints.length := by
      simp only [getJointCount] at h; omega
    rw [setJoint, if_neg h']
  · intro h
    have h' : index < w.skin.joints.length := h
    rw [setJoint, if_pos h']
    exact ⟨_, rfl⟩

/-- Witness of C5 on the sample skin, which has two slots: index 2 is refused
and index 1 is accepted. -/
theorem setJoint_range_witness :
    setJoint sampleWorld (some 2) 2 = .failed Fault.assertion sampleWorld ∧
    ∃ w', setJoint sampleWorld (some 2) 1 = .done w' :=
  ⟨(setJoint_range sampleWorld (some 2) 2).1 (by decide),
   (setJoint_range sampleWorld (some 2) 1).2 (by decide)⟩

/-- C6: on a skin whose `n` slots all hold joints (and whose buffer has the
`3 * n` rows that `setJointCount` allocated), `getMatrixPalette()` completes
and returns a buffer of exactly `3 * n` rows in which rows `3i`, `3i+1`, `3i+2`
are the three rows written by the `updateJointMatrix` of joint `i` for the
current bind shape; the buffer equals `skinningPalette`, a function of the
joints and the bind shape only, whatever the buffer held before. -/
theorem getMatrixPalette_rows (ujm : Heap → Ptr → Matrix → Rows) (w : World)
    (hsized : (paletteRows w).length = 3 * getJointCount w)
    (hall : ∀ i, i < getJointCount w → ∃ p, getJoint w i = .ok (some p)) :
    ∃ w', getMatrixPalette ujm w = .done w' ∧
      (paletteRows w').length = 3 * getJointCount w ∧
      (∀ i p, getJoint w i = .ok (some p) →
        (paletteRows w')[3 * i]? = some (ujm w.heap p (getBindShape w)).1 ∧
        (paletteRows w')[3 * i + 1]? = some (ujm w.heap p (getBindShape w)).2.1 ∧
        (paletteRows w')[3 * i + 2]? = some (ujm w.heap p (getBindShape w)).2.2) ∧
      paletteRows w' = skinningPalette ujm w.heap (getBindShape w) w.skin.joints := by
  have hbound := all_slots_bound w hall
  obtain ⟨w', hdone, hrows⟩ := getMatrixPalette_bound ujm w hsized hall
  refine ⟨w', hdone, ?_, ?_, hrows⟩
  · rw [hrows, skinningPalette_length ujm _ _ _ hbound]
    rfl
  · intro i p hget
    rw [hrows]
    exact skinningPalette_rows ujm w.heap (getBindShape w) w.skin.joints i p hbound
      (getJoint_some_index w i (some p) hget)

/-- Witness of C6 on the skin bound to joints 1 and 2, whose buffer still holds
the identity rows: the palette fetched is the six rows of the two joints. -/
theorem getMatrixPalette_rows_witness :
    ∃ w', getMatrixPalette sampleRows boundWorld = .done w' ∧
      paletteRows w' =
        [⟨1, 0, 0, 0⟩, ⟨0, 1, 0, 0⟩, ⟨0, 0, 1, 0⟩, ⟨2, 0, 0, 0⟩, ⟨0, 2, 0, 0⟩, ⟨0, 0, 2, 0⟩] := by
  obtain ⟨w', hdone, _, _, hrows⟩ :=
    getMatrixPalette_rows sampleRows boundWorld (by decide)
      (fun i hi => by
        have hi2 : i < 2 := hi
        match i, hi2 with
        | 0, _ => exact ⟨1, rfl⟩
        | 1, _ => exact ⟨2, rfl⟩)
  refine ⟨w', hdone, ?_⟩
  rw [hrows]
  simp [skinningPalette, slotRows, sampleRows, boundWorld, getBindShape]

/-- C9: `getJointIndex(j)` returns -1 when no slot holds `j`, and every
non-negative result is the smallest index `i` whose slot holds `j`, so `i` is
below the joint count and `getJoint(i)` is `j`.  On a skin of at most `2 ^ 31`
slots, where the conversion `(int)i` keeps every index, -1 is returned exactly
when no slot holds `j` and every other result is that smallest index.  Every
skin is such a skin: a completed `setJointCount(n)` leaves at most `2 ^ 31`
slots (its palette size `3 * n` is an `unsigned int`), and `setJoint` keeps
the number of slots. -/
theorem getJointIndex_spec (w : World) (j : Option Ptr) :
    ((∀ i, i < getJointCount w → getJoint w i ≠ .ok j) → getJointIndex w j = -1) ∧
    (∀ i : Nat, getJointIndex w j = (i : Int) →
      i < getJointCount w ∧ getJoint w i = .ok j ∧ ∀ k, k < i → getJoint w k ≠ .ok j) ∧
    (getJointCount w ≤ INT_RANGE →
      (getJointIndex w j = -1 ↔ ∀ i, i < getJointCount w → getJoint w i ≠ .ok j) ∧
      (getJointIndex w j ≠ -1 →
        ∃ i : Nat, getJointIndex w j = (i : Int) ∧ i < getJointCount w ∧
          getJoint w i = .ok j ∧ ∀ k, k < i → getJoint w k ≠ .ok j)) ∧
    (∀ (w0 : World) (n : Nat), n < UINT_RANGE → setJointCount w0 n = .done w →
      getJointCount w ≤ INT_RANGE) ∧
    (∀ (w0 : World) (j0 : Option Ptr) (index : Nat), setJoint w0 j0 index = .done w →
      getJointCount w = getJointCount w0) := by
  refine ⟨(getJointIndex_sound w j).1, (getJointIndex_sound w j).2, ?_,
    fun w0 n hn h => setJointCount_count_le w0 w n hn h,
    fun w0 j0 index h => setJoint_count w0 w j0 index h⟩
  intro hcount
  have hlen : w.skin.joints.length < UINT_RANGE := by
    simp only [getJointCount, INT_RANGE] at hcount
    simp only [UINT_RANGE]
    omega
  have htake : w.skin.joints.take (w.skin.joints.length % UINT_RANGE) = w.skin.joints := by
    rw [Nat.mod_eq_of_lt hlen, List.take_length]
  unfold getJointIndex
  simp only [htake]
  rcases getJointIndexLoop_spec j w.skin.joints 0 (by omega) with
    ⟨hres, hnone⟩ | ⟨k, hres, hk, hmin⟩
  · refine ⟨⟨fun _ i _ hget => hnone i (getJoint_some_index w i j hget), fun _ => hres⟩, ?_⟩
    intro hne
    exact absurd hres hne
  · have hklt : k < w.skin.joints.length := by
      rcases Nat.lt_or_ge k w.skin.joints.length with hlt | hge
      · exact hlt
      · rw [List.getElem?_eq_none hge] at hk
        cases hk
    have hval : getJointIndexLoop j 0 w.skin.joints = (k : Int) := by
      rw [hres, Nat.zero_add]
      exact castInt_small k (by simp only [getJointCount] at hcount; omega)
    refine ⟨⟨?_, ?_⟩, ?_⟩
    · intro h
      rw [hval] at h
      omega
    · intro h
      exact absurd (getJoint_of_index w k j hk) (h k hklt)
    · intro _
      exact ⟨k, hval, hklt, getJoint_of_index w k j hk,
        fun m hm hget => hmin m hm (getJoint_some_index w m j hget)⟩

/-- Witness of C9 on the sample skin: joint 1 sits in slot 0, so its index is
not -1 and is the first slot holding it. -/
theorem getJointIndex_spec_witness :
    ∃ i : Nat, getJointIndex sampleWorld (some 1) = (i : Int) ∧ i < getJointCount sampleWorld ∧
      getJoint sampleWorld i = .ok (some 1) ∧
      ∀ k, k < i → getJoint sampleWorld k ≠ .ok (some 1) :=
  ((getJointIndex_spec sampleWorld (some 1)).2.2.1 (by decide)).2 (by decide)

/-- C10: for a non-null identifier, `getJoint(id)` completes; its result is
null exactly when no slot holds a joint whose identifier is non-null and equal
to `id` (null slots and joints without identifier are passed over), and
otherwise it is the joint of the lowest such slot. -/
theorem getJointById_spec (w : World) (id : String) :
    ∃ r, getJointById w (some id) = .ok r ∧
      (r = none ↔ ∀ i p, getJoint w i = .ok (some p) → w.heap.nodes.id p ≠ some id) ∧
      (∀ p, r = some p →
        ∃ i, getJoint w i = .ok (some p) ∧ w.heap.nodes.id p = some id ∧
          ∀ k q, k < i → getJoint w k = .ok (some q) → w.heap.nodes.id q ≠ some id) := by
  refine ⟨getJointByIdLoop w.heap.nodes id w.skin.joints, rfl, ?_⟩
  rcases getJointByIdLoop_spec w.heap.nodes id w.skin.joints with
    ⟨hres, hnone⟩ | ⟨k, p, hres, hk, hp, hmin⟩
  · refine ⟨⟨fun _ i q hget => hnone i q (getJoint_some_index w i (some q) hget),
      fun _ => hres⟩, ?_⟩
    intro q hq
    rw [hres] at hq
    cases hq
  · refine ⟨⟨?_, ?_⟩, ?_⟩
    · intro h
      rw [hres] at h
      cases h
    · intro h
      exact absurd hp (h k p (getJoint_of_index w k (some p) hk))
    · intro q hq
      rw [hres] at hq
      cases hq
      exact ⟨k, getJoint_of_index w k (some p) hk, hp,
        fun m r hm hget => hmin m r hm (getJoint_some_index w m (some r) hget)⟩

/-- Witness of C10 on the sample skin: looking up "hip" yields joint 1, the
joint of slot 0. -/
theorem getJointById_spec_witness :
    getJointById sampleWorld (some "hip") = .ok (some 1) ∧
    ∃ i, getJoint sampleWorld i = .ok (some 1) ∧ sampleWorld.heap.nodes.id 1 = some "hip" ∧
      ∀ k q, k < i → getJoint sampleWorld k = .ok (some q) →
        sampleWorld.heap.nodes.id q ≠ some "hip" := by
  obtain ⟨r, hr, _, hsome⟩ := getJointById_spec sampleWorld "hip"
  have hval : getJointById sampleWorld (some "hip") = .ok (some 1) := by
    simp [getJointById, getJointByIdLoop, sampleWorld, sampleHeap]
  have hr1 : r = some 1 := by
    rw [hval] at hr
    exact (Except.ok.inj hr).symm
  exact ⟨hval, hsome 1 hr1⟩

/-- C7 as stated fails: the skin bound to joints 1 and 2 without root joint has
two joints, and its clone has none. -/
theorem clone_without_root_drops_joints :
    boundWorld.skin.rootJoint = none ∧ getJointCount boundWorld = 2 ∧
    ∃ c, clone sampleNodeClone sampleFindNode boundWorld 70 = .done c ∧ getJointCount c = 0 :=
  ⟨rfl, rfl, _, rfl, rfl⟩

/-- C7, amended: for a skin whose root node and root joint are set, when the
identifier of the root joint is found under the copied root node and every
slot holds a joint that is found under the copied root joint or shares its
identifier, `clone()` completes with the same joint count, and joint `i` of
the clone has the identifier of joint `i` of the original.  `findNode` is
assumed to return only nodes carrying the identifier it was asked for, and the
palette size of the skin to be an `unsigned int`, as it is of every skin that
a completed `setJointCount` left. -/
theorem clone_joint_ids (nc : Heap → Ptr → Heap × Ptr)
    (fn : Hierarchy → Ptr → Option String → Option Ptr)
    (hfind : ∀ g r s n, fn g r s = some n → g.id n = s)
    (w : World) (self rn rj node : Ptr)
    (hrn : w.skin.rootNode = some rn) (hrj : w.skin.rootJoint = some rj)
    (hroot : fn (nc w.heap rn).1.nodes (nc w.heap rn).2 ((nc w.heap rn).1.nodes.id rj) =
      some node)
    (hfit : getJointCount w * PALETTE_ROWS < UINT_RANGE)
    (hres : ∀ i, i < getJointCount w → ∃ a, getJoint w i = .ok (some a) ∧
      (fn (nc w.heap rn).1.nodes node ((nc w.heap rn).1.nodes.id a) ≠ none ∨
        ∃ s, (nc w.heap rn).1.nodes.id node = some s ∧
          (nc w.heap rn).1.nodes.id a = some s)) :
    ∃ c, clone nc fn w self = .done c ∧ getJointCount c = getJointCount w ∧
      ∀ i a, getJoint w i = .ok (some a) →
        ∃ b, getJoint c i = .ok (some b) ∧ c.heap.nodes.id b = c.heap.nodes.id a := by
  have hall : ∀ o ∈ w.skin.joints, ∃ a n, o = some a ∧
      cloneLookup fn (nc w.heap rn).1.nodes node a = .ok (some n) := by
    intro o ho
    obtain ⟨i, hi, hget⟩ := List.getElem_of_mem ho
    obtain ⟨a, ha, hor⟩ := hres i hi
    have hslot := getJoint_some_index w i (some a) ha
    rw [List.getElem?_eq_getElem hi, hget] at hslot
    obtain ⟨n, hn⟩ := (cloneLookup_resolves_iff fn (nc w.heap rn).1.nodes node a).mpr
      (by
        rintro ⟨hnone, hno⟩
        rcases hor with h1 | h2
        · exact h1 hnone
        · exact hno h2)
    exact ⟨a, n, Option.some.inj hslot, hn⟩
  rcases clone_rooted_cases nc fn w self rn rj node hrn hrj hroot hfit with
    ⟨_, c, hdone, hnodes, hl, hbound⟩ | ⟨hnot, _⟩
  · refine ⟨c, hdone, hl, ?_⟩
    intro i a ha
    obtain ⟨n, hn, hget⟩ := hbound i a (getJoint_some_index w i (some a) ha)
    refine ⟨n, getJoint_of_index c i (some n) hget, ?_⟩
    rw [hnodes]
    exact cloneLookup_id fn hfind _ node a n hn
  · exact absurd hall hnot

/-- Witness of C7 amended: the skin bound to "hip" and "knee" with root joint
"hip" under node "root" is cloned onto the copies 11 and 12 of its joints. -/
theorem clone_joint_ids_witness :
    ∃ c, clone sampleNodeClone sampleFindNode rootedWorld 70 = .done c ∧
      getJointCount c = getJointCount rootedWorld ∧
      ∀ i a, getJoint rootedWorld i = .ok (some a) →
        ∃ b, getJoint c i = .ok (some b) ∧ c.heap.nodes.id b = c.heap.nodes.id a :=
  clone_joint_ids sampleNodeClone sampleFindNode sampleFindNode_id rootedWorld 70 0 1 11
    rfl rfl rfl (by decide)
    (fun i hi => by
      have hi2 : i < 2 := hi
      match i, hi2 with
      | 0, _ => exact ⟨1, rfl, Or.inr ⟨"hip", rfl, rfl⟩⟩
      | 1, _ => exact ⟨2, rfl, Or.inl (by decide)⟩)

/-- C8 as stated fails: the skin whose root joint is the parentless node 0 has
root node and root joint set and no slot at all, so no index meets the failure
condition of the claim, yet `clone()` stops on its first assertion: `findNode`
under the copied root node does not find the root joint, which is that node. -/
theorem clone_root_lookup_fails :
    topRootWorld.skin.rootNode = some 0 ∧ topRootWorld.skin.rootJoint = some 0 ∧
    getJointCount topRootWorld = 0 ∧
    ∃ c, clone sampleNodeClone sampleFindNode topRootWorld 70 = .failed Fault.assertion c :=
  ⟨rfl, rfl, rfl, _, rfl⟩

/-- C8, amended: for a skin whose root node and root joint are set, whose
slots all hold joints and whose palette size is an `unsigned int` (as it is of
every skin that a completed `setJointCount` left), `clone()` stops on a fault exactly when `findNode` under
the copied root node does not find the identifier of the root joint, or it
finds the cloned root joint and for some index `i` `findNode` under the cloned
root joint does not find the identifier of original joint `i` and that
identifier is not the same non-null string as the identifier of the cloned
root joint; in every other case it completes and binds every slot. -/
theorem clone_fails_iff (nc : Heap → Ptr → Heap × Ptr)
    (fn : Hierarchy → Ptr → Option String → Option Ptr)
    (w : World) (self rn rj : Ptr)
    (hrn : w.skin.rootNode = some rn) (hrj : w.skin.rootJoint = some rj)
    (hfit : getJointCount w * PALETTE_ROWS < UINT_RANGE)
    (hall : ∀ i, i < getJointCount w → ∃ a, getJoint w i = .ok (some a)) :
    ((∃ f c, clone nc fn w self = .failed f c) ↔
      (fn (nc w.heap rn).1.nodes (nc w.heap rn).2 ((nc w.heap rn).1.nodes.id rj) = none ∨
        ∃ node, fn (nc w.heap rn).1.nodes (nc w.heap rn).2
            ((nc w.heap rn).1.nodes.id rj) = some node ∧
          ∃ i a, getJoint w i = .ok (some a) ∧
            fn (nc w.heap rn).1.nodes node ((nc w.heap rn).1.nodes.id a) = none ∧
            ¬ ∃ s, (nc w.heap rn).1.nodes.id node = some s ∧
              (nc w.heap rn).1.nodes.id a = some s)) ∧
    ((¬ ∃ f c, clone nc fn w self = .failed f c) →
      ∃ c, clone nc fn w self = .done c ∧ getJointCount c = getJointCount w ∧
        ∀ i, i < getJointCount w → ∃ b, getJoint c i = .ok (some b)) := by
  cases hroot : fn (nc w.heap rn).1.nodes (nc w.heap rn).2 ((nc w.heap rn).1.nodes.id rj) with
  | none =>
    have hclone := clone_rooted nc fn w self rn rj hrn hrj hfit
    have hroot2 : fn (cloneBase nc w self rn).heap.nodes (nc w.heap rn).2
        ((cloneBase nc w self rn).heap.nodes.id rj) = none := hroot
    rw [hroot2] at hclone
    simp only at hclone
    have hfails : ∃ f c, clone nc fn w self = .failed f c := ⟨_, _, hclone⟩
    exact ⟨⟨fun _ => Or.inl rfl, fun _ => hfails⟩, fun h => absurd hfails h⟩
  | some node =>
    rcases clone_rooted_cases nc fn w self rn rj node hrn hrj hroot hfit with
      ⟨hres, c, hdone, _, hl, hbound⟩ | ⟨hnot, hfails⟩
    · have hnofail : ¬ ∃ f c, clone nc fn w self = .failed f c := by
        rintro ⟨f, c1, hf⟩
        rw [hdone] at hf
        cases hf
      refine ⟨⟨fun h => absurd h hnofail, ?_⟩, ?_⟩
      · rintro (h | ⟨node1, hn1, i, a, ha, hnone, hno⟩)
        · cases h
        · cases hn1
          have hslot := getJoint_some_index w i (some a) ha
          obtain ⟨a1, n, ha1, hn⟩ := hres (some a) (List.getElem?_mem hslot)
          cases ha1
          exact absurd ⟨hnone, hno⟩
            ((cloneLookup_resolves_iff fn (nc w.heap rn).1.nodes node a).mp ⟨n, hn⟩)
      · intro _
        refine ⟨c, hdone, hl, ?_⟩
        intro i hi
        obtain ⟨a, ha⟩ := hall i hi
        obtain ⟨n, _, hget⟩ := hbound i a (getJoint_some_index w i (some a) ha)
        exact ⟨n, getJoint_of_index c i (some n) hget⟩
    · refine ⟨⟨fun _ => Or.inr ⟨node, rfl, ?_⟩, fun _ => hfails⟩, fun h => absurd hfails h⟩
      by_contra hcon
      apply hnot
      intro o ho
      obtain ⟨i, hi, hget⟩ := List.getElem_of_mem ho
      obtain ⟨a, ha⟩ := hall i hi
      have hslot := getJoint_some_index w i (some a) ha
      rw [List.getElem?_eq_getElem hi, hget] at hslot
      obtain ⟨n, hn⟩ := (cloneLookup_resolves_iff fn (nc w.heap rn).1.nodes node a).mpr
        (fun hbad => hcon ⟨i, a, ha, hbad.1, hbad.2⟩)
      exact ⟨a, n, Option.some.inj hslot, hn⟩

/-- Witness of C8 amended on the skin bound to "hip" and "knee" with root joint
"hip": its clone does not fail, so it completes with both slots bound. -/
theorem clone_fails_iff_witness :
    ∃ c, clone sampleNodeClone sampleFindNode rootedWorld 70 = .done c ∧
      getJointCount c = getJointCount rootedWorld ∧
      ∀ i, i < getJointCount rootedWorld → ∃ b, getJoint c i = .ok (some b) :=
  (clone_fails_iff sampleNodeClone sampleFindNode rootedWorld 70 0 1 rfl rfl (by decide)
    (fun i hi => by
      have hi2 : i < 2 := hi
      match i, hi2 with
      | 0, _ => exact ⟨1, rfl⟩
      | 1, _ => exact ⟨2, rfl⟩)).2
    (by
      rintro ⟨f, c, hf⟩
      have hdone : ∃ c1, clone sampleNodeClone sampleFindNode rootedWorld 70 = .done c1 :=
        ⟨_, rfl⟩
      obtain ⟨c1, h1⟩ := hdone
      rw [h1] at hf
      cases hf)

/-- C11 as stated fails: on the sample skin `getJoint(id)` with a null `id` does
not return null, it stops on `assert(id)`. -/
theorem getJointById_null_not_absent :
    getJointById sampleWorld none = .error Fault.assertion ∧
    getJointById sampleWorld none ≠ .ok none :=
  ⟨rfl, fun h => by cases h⟩

/-- C11, amended: for every skin, `getJoint(id)` called with a null `id` stops
on its assertion `assert(id)`; a null identifier is a violated precondition,
not an absent result. -/
theorem getJointById_null (w : World) : getJointById w none = .error Fault.assertion :=
  rfl

/-- C12: for key values `v` of length `10 * k`, the de-interleaving of
`decomposeTransformAnimationChannel` completes with a scale buffer of length
`3k`, a rotate buffer of length `4k` and a translate buffer of length `3k`; for
every key `i < k`, `scale[3i + j] = v[10i + j]` for `j < 3`,
`rotate[4i + j] = v[10i + 3 + j]` for `j < 4` and
`translate[3i + j] = v[10i + 7 + j]` for `j < 3`; interleaving the three
buffers key by key gives `v` back. -/
theorem deinterleave_roundtrip (v : List Scalar) (k : Nat) (hv : v.length = 10 * k) :
    ∃ b, deinterleave v = .ok b ∧
      b.scale.length = 3 * k ∧ b.rotate.length = 4 * k ∧ b.translate.length = 3 * k ∧
      (∀ i j : Nat, i < k → j < 3 → b.scale[3 * i + j]? = v[10 * i + j]?) ∧
      (∀ i j : Nat, i < k → j < 4 → b.rotate[4 * i + j]? = v[10 * i + 3 + j]?) ∧
      (∀ i j : Nat, i < k → j < 3 → b.translate[3 * i + j]? = v[10 * i + 7 + j]?) ∧
      interleave b.scale b.rotate b.translate = v := by
  obtain ⟨b, hb, hrest⟩ := splitKeys_complete k v hv
  refine ⟨b, ?_, hrest⟩
  rw [deinterleave_eq, hb]

/-- Witness of C12 on two keys. -/
theorem deinterleave_roundtrip_witness :
    ∃ b, deinterleave [1, 1, 1, 0, 0, 0, 1, 0, 0, 0, 1, 1, 1, 0, 0, 0, 1, 5, 0, 0] = .ok b ∧
      b.scale.length = 3 * 2 ∧ b.rotate.length = 4 * 2 ∧ b.translate.length = 3 * 2 ∧
      interleave b.scale b.rotate b.translate =
        [1, 1, 1, 0, 0, 0, 1, 0, 0, 0, 1, 1, 1, 0, 0, 0, 1, 5, 0, 0] := by
  obtain ⟨b, hb, hs, hr, ht, _, _, _, hi⟩ :=
    deinterleave_roundtrip [1, 1, 1, 0, 0, 0, 1, 0, 0, 0, 1, 1, 1, 0, 0, 0, 1, 5, 0, 0] 2 rfl
  exact ⟨b, hb, hs, hr, ht, hi⟩

/-- C14: for a combined channel of `k` complete keys in which some scale value
(offsets 0, 1, 2 of some key) is not almost one,
`decomposeTransformAnimationChannel` completes and appends exactly three
channels, each passed through `removeDuplicates`: a channel with the target
attribute scale, then one with rotate, then one with translate, all sharing
target identifier, key times, tangents and interpolation types with the
original.  The scale channel is built with the scale values of all `k` keys
(offsets 0 to 2), those that are almost one included; the rotate and
translate channels with the rotation and translation values of all keys. -/
theorem decompose_keeps_scale (rd : AnimationChannel → AnimationChannel)
    (animation : Animation) (channel : AnimationChannel) (k : Nat)
    (hlen : channel.keyValues.length = 10 * k)
    (hsome : ∃ (i j : Nat) (x : Scalar), j < 3 ∧ channel.keyValues[10 * i + j]? = some x ∧
      isAlmostOne x = false) :
    ∃ s r t : AnimationChannel,
      decomposeTransformAnimationChannel rd animation channel =
        .done (animation ++ [rd s, rd r, rd t]) ∧
      SharesWith channel .scale s ∧ SharesWith channel .rotate r ∧
      SharesWith channel .translate t ∧
      s.keyValues.length = 3 * k ∧ r.keyValues.length = 4 * k ∧ t.keyValues.length = 3 * k ∧
      (∀ i j : Nat, i < k → j < 3 → s.keyValues[3 * i + j]? = channel.keyValues[10 * i + j]?) ∧
      (∀ i j : Nat, i < k → j < 4 →
        r.keyValues[4 * i + j]? = channel.keyValues[10 * i + 3 + j]?) ∧
      (∀ i j : Nat, i < k → j < 3 →
        t.keyValues[3 * i + j]? = channel.keyValues[10 * i + 7 + j]?) := by
  obtain ⟨b, hb, hs, hr, ht, hsi, hri, hti, _⟩ := splitKeys_complete k channel.keyValues hlen
  obtain ⟨i, j, x, hj, hget, hx⟩ := hsome
  have hmem : x ∈ b.scale :=
    (scale_mem_iff channel.keyValues k b hs hlen hsi x).mpr ⟨i, j, hj, hget⟩
  have hcount : b.scale.length ≠ b.scale.countP isAlmostOne := by
    intro h
    have hall := List.countP_eq_length.mp h.symm x hmem
    rw [hx] at hall
    cases hall
  refine ⟨componentChannel channel .scale b.scale, componentChannel channel .rotate b.rotate,
    componentChannel channel .translate b.translate, ?_,
    ⟨rfl, rfl, rfl, rfl, rfl, rfl⟩, ⟨rfl, rfl, rfl, rfl, rfl, rfl⟩,
    ⟨rfl, rfl, rfl, rfl, rfl, rfl⟩, hs, hr, ht, hsi, hri, hti⟩
  rw [decompose_done rd animation channel b hb]
  simp [hcount]

/-- Witness of C14 on the channel whose single key has the scale `(2, 1, 1)`,
with a `removeDuplicates` that changes nothing: the scale channel appended
first carries all three scale values. -/
theorem decompose_keeps_scale_witness :
    ∃ s r t : AnimationChannel,
      decomposeTransformAnimationChannel id [] scaledChannel = .done ([] ++ [s, r, t]) ∧
      s.targetAttribute = .scale ∧ s.keyValues = [2, 1, 1] ∧
      r.targetAttribute = .rotate ∧ t.targetAttribute = .translate := by
  obtain ⟨s, r, t, hdone, hs, hr, ht, hlen, _, _, hval, _⟩ :=
    decompose_keeps_scale id [] scaledChannel 1 rfl
      ⟨0, 0, 2, by decide, rfl, by
        simp only [isAlmostOne, EPSILON, decide_eq_false_iff_not]
        norm_num⟩
  refine ⟨s, r, t, hdone, hs.2.2.2.2.2, ?_, hr.2.2.2.2.2, ht.2.2.2.2.2⟩
  have h0 := hval 0 0 (by decide) (by decide)
  have h1 := hval 0 1 (by decide) (by decide)
  have h2 := hval 0 2 (by decide) (by decide)
  apply List.ext_getElem?
  intro n
  match n with
  | 0 => simpa [scaledChannel] using h0
  | 1 => simpa [scaledChannel] using h1
  | 2 => simpa [scaledChannel] using h2
  | n + 3 =>
    have : s.keyValues.length ≤ n + 3 := by omega
    simp [List.getElem?_eq_none this]

/-- C15: for animations whose qualifying channels have complete keys,
`optimizeTransformAnimations` completes and leaves in every animation the
channels that do not qualify, unmodified and in their original relative order,
followed by the decomposition outputs of the qualifying channels taken in
descending original index; every qualifying channel is gone and contributes
its outputs once, and no appended channel is visited. -/
theorem optimizeTransformAnimations_spec (rd : AnimationChannel → AnimationChannel)
    (rt : String → Option ObjectRef) (animations : List Animation)
    (hwf : ∀ a ∈ animations, ∀ c ∈ a, qualifies rt c = true → c.keyValues.length % 10 = 0) :
    optimizeTransformAnimations rd rt animations =
      .done (animations.map (fun a =>
        a.filter (fun c => !qualifies rt c) ++
          (((a.filter (qualifies rt)).reverse).map (decompositionOutputs rd)).flatten)) := by
  have h := optimizeAnimationsLoop_spec rd rt animations [] hwf
  simp only [List.nil_append] at h
  exact h

/-- Witness of C15: an animation with a joint channel before a camera channel. -/
theorem optimizeTransformAnimations_spec_witness :
    optimizeTransformAnimations id sampleRefTable [[scaledChannel, cameraChannel]] =
      .done ([[scaledChannel, cameraChannel]].map (fun a =>
        a.filter (fun c => !qualifies sampleRefTable c) ++
          (((a.filter (qualifies sampleRefTable)).reverse).map
            (decompositionOutputs id)).flatten)) :=
  optimizeTransformAnimations_spec id sampleRefTable [[scaledChannel, cameraChannel]]
    (fun a ha c hc hq => by
      simp only [List.mem_singleton] at ha
      subst ha
      simp only [List.mem_cons, List.mem_singleton, List.not_mem_nil, or_false] at hc
      rcases hc with rfl | rfl
      · rfl
      · exact absurd hq (by decide))

/-- C16 as stated fails: the channel whose only key has 5 floats is not
rejected by any check; the loop of `decomposeTransformAnimationChannel` runs
and stops on the read of `keyValues[5]`, outside the vector. -/
theorem decompose_short_not_rejected :
    shortChannel.keyValues.length % 10 ≠ 0 ∧
    decomposeTransformAnimationChannel id [] shortChannel = .failed Fault.outOfBounds [] ∧
    ∀ a, decomposeTransformAnimationChannel id [] shortChannel ≠ .failed Fault.assertion a := by
  have h : decomposeTransformAnimationChannel id [] shortChannel =
      .failed Fault.outOfBounds [] := rfl
  refine ⟨by decide, h, ?_⟩
  intro a ha
  rw [h] at ha
  cases ha

/-- C16, amended: `decomposeTransformAnimationChannel` has no check of the
length of the key values; whenever that length is not a multiple of 10, the
last iteration of its loop reads the key values out of range (undefined
behaviour), before any channel is appended: the animation is as it was. -/
theorem decompose_incomplete (rd : AnimationChannel → AnimationChannel)
    (animation : Animation) (channel : AnimationChannel)
    (h : channel.keyValues.length % 10 ≠ 0) :
    decomposeTransformAnimationChannel rd animation channel =
      .failed Fault.outOfBounds animation := by
  have hnone := splitKeys_incomplete (channel.keyValues.length / 10) channel.keyValues
    (by omega) h
  unfold decomposeTransformAnimationChannel
  rw [deinterleave_eq, hnone]

/-- Witness of C16 amended: 15 key values in an animation that holds a camera
channel. -/
theorem decompose_incomplete_witness :
    decomposeTransformAnimationChannel id [cameraChannel]
        { scaledChannel with keyValues := [1, 1, 1, 0, 0, 0, 1, 0, 0, 0, 1, 1, 1, 0, 0] } =
      .failed Fault.outOfBounds [cameraChannel] :=
  decompose_incomplete id [cameraChannel]
    { scaledChannel with keyValues := [1, 1, 1, 0, 0, 0, 1, 0, 0, 0, 1, 1, 1, 0, 0] }
    (by decide)

/-- C17: for a combined channel with `keyValues.length = 10 * keyTimes.length`,
`decomposeTransformAnimationChannel` completes, the channels it appends are
among the scale, rotate and translate channels it builds, passed through
`removeDuplicates`, and each of these three channels, as built, carries the
target identifier and the key times of the original and has
`keyValues.length = keyTimes.length * componentsPerKey(targetAttribute)`, with
3 components for scale, 4 for rotate and 3 for translate. -/
theorem decompose_channel_invariant (rd : AnimationChannel → AnimationChannel)
    (animation : Animation) (channel : AnimationChannel)
    (hinv : channel.keyValues.length = 10 * channel.keyTimes.length) :
    ∃ b, deinterleave channel.keyValues = .ok b ∧
      decomposeTransformAnimationChannel rd animation channel =
        .done (animation ++
          ((if b.scale.length ≠ b.scale.countP isAlmostOne then
              [componentChannel channel .scale b.scale] else []) ++
            [componentChannel channel .rotate b.rotate,
              componentChannel channel .translate b.translate]).map rd) ∧
      (∀ c ∈ [componentChannel channel .scale b.scale,
          componentChannel channel .rotate b.rotate,
          componentChannel channel .translate b.translate],
        c.targetId = channel.targetId ∧ c.keyTimes = channel.keyTimes ∧
        c.keyValues.length = c.keyTimes.length * componentsPerKey c.targetAttribute) ∧
      componentsPerKey .scale = 3 ∧ componentsPerKey .rotate = 4 ∧
      componentsPerKey .translate = 3 := by
  obtain ⟨b, hb, hs, hr, ht, _⟩ := splitKeys_complete _ channel.keyValues hinv
  refine ⟨b, by rw [deinterleave_eq, hb], decompose_done rd animation channel b hb, ?_,
    rfl, rfl, rfl⟩
  intro c hc
  simp only [List.mem_cons, List.mem_singleton, List.not_mem_nil, or_false] at hc
  rcases hc with rfl | rfl | rfl
  · exact ⟨rfl, rfl, by simp only [componentChannel, componentsPerKey, hs]; omega⟩
  · exact ⟨rfl, rfl, by simp only [componentChannel, componentsPerKey, hr]; omega⟩
  · exact ⟨rfl, rfl, by simp only [componentChannel, componentsPerKey, ht]; omega⟩

/-- Witness of C17 on the channel with one key: its rotate channel, as built,
has 4 floats for its single key time. -/
theorem decompose_channel_invariant_witness :
    ∃ b, deinterleave scaledChannel.keyValues = .ok b ∧
      (componentChannel scaledChannel .rotate b.rotate).keyTimes = scaledChannel.keyTimes ∧
      (componentChannel scaledChannel .rotate b.rotate).keyValues.length =
        (componentChannel scaledChannel .rotate b.rotate).keyTimes.length *
          componentsPerKey (componentChannel scaledChannel .rotate b.rotate).targetAttribute := by
  obtain ⟨b, hb, _, hall, _⟩ := decompose_channel_invariant id [] scaledChannel rfl
  have h := hall (componentChannel scaledChannel .rotate b.rotate) (by simp)
  exact ⟨b, hb, h.2.1, h.2.2⟩

/-- C18: `setRootJoint(null)` completes and leaves no root node.  For a joint
`j` whose parent chain ends within `n` links, `setRootJoint(j)` completes with
any fuel of at least `n` (the upward walk terminates) and the root node is the
node reached from `j` by parent links that has no parent, which is unique and
is `j` itself when `j` has no parent.  In every state reached from a new skin
by `setRootJoint` and `setJointCount` the root invariant holds. -/
theorem setRootJoint_rootNode :
    (∀ (fuel : Nat) (w : World), ∃ w', setRootJoint fuel w none = .done w' ∧
      w'.skin.rootJoint = none ∧ w'.skin.rootNode = none) ∧
    (∀ (fuel : Nat) (w : World) (j : Ptr) (n : Nat),
      ancestorAt w.heap.nodes n j = none → n ≤ fuel →
      ∃ w' top k, setRootJoint fuel w (some j) = .done w' ∧
        w'.heap.nodes = w.heap.nodes ∧ w'.skin.rootJoint = some j ∧
        w'.skin.rootNode = some top ∧
        ancestorAt w.heap.nodes k j = some top ∧ w.heap.nodes.parent top = none ∧
        (w.heap.nodes.parent j = none → top = j) ∧
        (∀ k2 t, ancestorAt w.heap.nodes k2 j = some t → w.heap.nodes.parent t = none →
          t = top)) ∧
    (∀ w, RootReachable w → RootInvariant w) := by
  refine ⟨?_, ?_, ?_⟩
  · intro fuel w
    obtain ⟨h1, _, _, e⟩ := setRootJoint_null fuel w
    exact ⟨_, e, rfl, rfl⟩
  · intro fuel w j n hchain hle
    have hdone : ∃ w', setRootJoint fuel w (some j) = .done w' := by
      rw [setRootJoint_eq]
      simp only
      cases hp : w.heap.nodes.parent j with
      | none => exact ⟨_, rfl⟩
      | some p =>
        cases n with
        | zero => cases hchain
        | succ m =>
          simp only [ancestorAt, hp] at hchain
          obtain ⟨top, htop⟩ := topLevelParent_of_chain _ m fuel p hchain (by omega)
          simp only [htop]
          exact ⟨_, rfl⟩
    obtain ⟨w', hw'⟩ := hdone
    obtain ⟨hnodes, _, hrj, _, hinv⟩ := setRootJoint_done_props fuel w w' (some j) hw'
    simp only [RootInvariant, hrj, hnodes] at hinv
    obtain ⟨top, k, hrn, hk, hpar⟩ := hinv
    refine ⟨w', top, k, hw', hnodes, hrj, hrn, hk, hpar, ?_, ?_⟩
    · intro hj
      exact (ancestorAt_top_unique _ 0 k j j top rfl hj hk hpar).symm
    · intro k2 t hk2 ht
      exact ancestorAt_top_unique _ k2 k j t top hk2 ht hk hpar
  · intro w hw
    induction hw with
    | init h self => rfl
    | rootJoint w w' fuel joint _ hstep _ =>
      exact (setRootJoint_done_props fuel w w' joint hstep).2.2.2.2
    | jointCount w w' n _ hstep _ =>
      obtain ⟨_, hrj, hrn, _⟩ := setJointCount_props w w' n hstep
      simp only [RootInvariant, hrj]
      exact hrn

/-- Witness of C18 on the sample scene: the chain of joint 2 ends within 3
links, and the root node found for it is node 0. -/
theorem setRootJoint_rootNode_witness :
    ∃ w', setRootJoint 3 sampleWorld (some 2) = .done w' ∧ w'.skin.rootNode = some 0 := by
  obtain ⟨w', top, k, hdone, _, _, hrn, _, _, _, huniq⟩ :=
    setRootJoint_rootNode.2.1 3 sampleWorld 2 3 rfl (by decide)
  have h0 : (0 : Ptr) = top := huniq 2 0 rfl rfl
  exact ⟨w', hdone, by rw [hrn, h0]⟩

/-- C19: in every state reached by `setRootJoint` calls from a skin without
root joint that is registered on no node, the registrations of the skin are
exactly one, with tag 1, on the parent of the root joint when the root joint
is non-null and has a parent, and none on any other node; so the registration
on the parent of a previous root joint is gone, and the skin is not registered
on the root joint itself (no node being its own parent). -/
theorem listener_registration (w : World) (hw : ListenerReachable w) :
    (∀ node, registrations w.heap w.skin.self node = expectedRegistrations w node) ∧
    (∀ r, w.skin.rootJoint = some r → w.heap.nodes.parent r ≠ some r →
      registrations w.heap w.skin.self r = []) := by
  have hmain : ∀ node, registrations w.heap w.skin.self node = expectedRegistrations w node := by
    induction hw with
    | init h s hroot hnone =>
      intro node
      simp only [expectedRegistrations, hroot]
      exact hnone node
    | rootJoint w w' fuel joint _ hstep ih =>
      intro node
      obtain ⟨hnodes, hself, hrj, hlis, _⟩ := setRootJoint_done_props fuel w w' joint hstep
      rw [registrations_congr _ _ _ _ hlis, hself]
      have hdet := detach_registrations w ih
      have hatt := attach_registrations (detachRootListener w) w.skin.self joint hdet node
      simp only [rootJointAssigned]
      rw [hatt]
      simp only [expectedRegistrations, hrj, hnodes, hself, detachRootListener_nodes]
  refine ⟨hmain, ?_⟩
  intro r hr hpar
  rw [hmain r]
  simp only [expectedRegistrations, hr, if_neg hpar]

/-- Witness of C19 on the sample scene: after `setRootJoint(joint 2)` on a new
skin the registrations are as described. -/
theorem listener_registration_witness :
    ∃ w', setRootJoint 3 { heap := sampleHeap, skin := MeshSkin.new 50 } (some 2) = .done w' ∧
      ∀ node, registrations w'.heap w'.skin.self node = expectedRegistrations w' node :=
  ⟨_, rfl,
    (listener_registration _
      (ListenerReachable.rootJoint { heap := sampleHeap, skin := MeshSkin.new 50 } _ 3 (some 2)
        (ListenerReachable.init sampleHeap (MeshSkin.new 50) rfl (fun _ => rfl)) rfl)).1⟩

/-- C20: `transformChanged(transform, cookie)` never changes the skin or the
heap of nodes.  When `cookie` is 1 and the model and its node are present, it
adds exactly one bounds-dirty mark to that node and none to any other node;
for any other cookie, or without model, or without node of the model, it
changes nothing. -/
theorem transformChanged_spec (w : World) (m : Models) (transform : Option Ptr) (cookie : Int) :
    (transformChanged w m transform cookie).1 = w ∧
    (transformChanged w m transform cookie).2.node = m.node ∧
    (∀ model node, cookie = 1 → w.skin.model = some model → m.node model = some node →
      (transformChanged w m transform cookie).2.boundsDirtyCalls node =
          m.boundsDirtyCalls node + 1 ∧
        ∀ other, other ≠ node →
          (transformChanged w m transform cookie).2.boundsDirtyCalls other =
            m.boundsDirtyCalls other) ∧
    ((cookie ≠ 1 ∨ w.skin.model = none ∨
        ∃ model, w.skin.model = some model ∧ m.node model = none) →
      (transformChanged w m transform cookie).2 = m) := by
  by_cases h : cookie = 1 ∧ ∃ model node, w.skin.model = some model ∧ m.node model = some node
  · obtain ⟨hc, model, node, hm, hn⟩ := h
    rw [transformChanged_marked w m transform cookie model node hc hm hn]
    refine ⟨rfl, rfl, ?_, ?_⟩
    · intro model2 node2 _ hm2 hn2
      rw [hm] at hm2
      cases hm2
      rw [hn] at hn2
      cases hn2
      refine ⟨by simp [setBoundsDirty], ?_⟩
      intro other ho
      simp [setBoundsDirty, Function.update_noteq ho]
    · rintro (h1 | h1 | ⟨model2, h1, h2⟩)
      · exact absurd hc h1
      · rw [hm] at h1
        cases h1
      · rw [hm] at h1
        cases h1
        rw [hn] at h2
        cases h2
  · have hidle : cookie ≠ 1 ∨ w.skin.model = none ∨
        ∃ model, w.skin.model = some model ∧ m.node model = none := by
      by_cases hc : cookie = 1
      · right
        cases hm : w.skin.model with
        | none => exact Or.inl rfl
        | some model =>
          right
          refine ⟨model, rfl, ?_⟩
          cases hn : m.node model with
          | none => rfl
          | some node => exact absurd ⟨hc, model, node, hm, hn⟩ h
      · exact Or.inl hc
    rw [transformChanged_idle w m transform cookie hidle]
    refine ⟨rfl, rfl, ?_, fun _ => rfl⟩
    intro model node hc hm hn
    exact absurd ⟨hc, model, node, hm, hn⟩ h

/-- Witness of C20 on the skin of model 7, whose node is node 0: the cookie 1
marks node 0 once, the cookie 2 marks nothing. -/
theorem transformChanged_spec_witness :
    (transformChanged modelWorld sampleModels (some 0) 1).2.boundsDirtyCalls 0 =
      sampleModels.boundsDirtyCalls 0 + 1 ∧
    (transformChanged modelWorld sampleModels (some 0) 2).2 = sampleModels :=
  ⟨((transformChanged_spec modelWorld sampleModels (some 0) 1).2.2.1 7 0 rfl rfl rfl).1,
   (transformChanged_spec modelWorld sampleModels (some 0) 2).2.2.2 (Or.inl (by decide))⟩

/-- C21: in every state reached from a new skin by `setJointCount`, `setJoint`
and `setRootJoint`, the references the skin holds on a node (the reference
count of the node minus its value when the skin was created) are as many as
the slots holding the node, plus one if the node is the root node; the
destructor completes and leaves the reference count of every node at the
value it had when the skin was created. -/
theorem held_references (base : Ptr → Int) (w : World) (hw : RefReachable base w) :
    (∀ p, w.heap.refCount p - base p =
      (slotsHolding w.skin p : Nat) + (if w.skin.rootNode = some p then 1 else 0)) ∧
    ∃ w', destroyMeshSkin w = .done w' ∧ ∀ p, w'.heap.refCount p - base p = 0 := by
  have hinv : ∀ p, w.heap.refCount p - base p =
      (slotsHolding w.skin p : Nat) + (if w.skin.rootNode = some p then 1 else 0) := by
    induction hw with
    | init h self hbase =>
      intro p
      rw [hbase]
      simp [slotsHolding, MeshSkin.new]
    | jointCount w w' n _ hstep ih =>
      intro p
      obtain ⟨hj, _, hrn, _, hrc, _⟩ := setJointCount_props w w' n hstep
      have := ih p
      simp only [slotsHolding] at this
      rw [hrc p, hrn]
      simp only [slotsHolding, hj, count_none_replicate]
      simp
      omega
    | joint w w' j index _ hstep ih =>
      intro p
      obtain ⟨hi, hskin, hheap⟩ := setJoint_effect w w' j index hstep
      have hcount := count_set_add (some p) j w.skin.joints index hi
      have := ih p
      rw [hheap, bindJoint_refCount, unbindJoint_refCount, hskin]
      simp only [slotsHolding] at this ⊢
      rcases ind_cases (w.skin.joints.getD index none) p with ⟨h1, e1⟩ | ⟨h1, e1⟩ <;>
        rcases ind_cases j p with ⟨h2, e2⟩ | ⟨h2, e2⟩ <;>
        simp only [h1, h2, if_true, if_false] at hcount e1 e2 ⊢ <;>
        omega
    | rootJoint w w' fuel j _ hstep ih =>
      intro p
      obtain ⟨hj, hrc⟩ := setRootJoint_refCount fuel w w' j hstep p
      have := ih p
      rw [hrc]
      simp only [slotsHolding, hj] at this ⊢
      omega
  refine ⟨hinv, ?_⟩
  obtain ⟨w1, e, _, hrc, _⟩ := clearJoints_effect w
  unfold destroyMeshSkin
  rw [e]
  refine ⟨_, rfl, ?_⟩
  intro p
  have := hinv p
  show w1.heap.refCount p - base p = 0
  rw [hrc p]
  omega

/-- Witness of C21: a new skin on the sample scene given two slots, with joint
1 bound in slot 0. -/
theorem held_references_witness :
    ∃ w, setJoint
        { heap := sampleHeap
          skin := { MeshSkin.new 50 with joints := [none, none],
                                         matrixPalette := some (identityPalette 2) } }
        (some 1) 0 = .done w ∧
      w.heap.refCount 1 - sampleHeap.refCount 1 =
        (slotsHolding w.skin 1 : Nat) + (if w.skin.rootNode = some 1 then 1 else 0) := by
  have hcount : ∃ w1, setJointCount { heap := sampleHeap, skin := MeshSkin.new 50 } 2 =
      .done w1 ∧ w1 = { heap := sampleHeap
                        skin := { MeshSkin.new 50 with joints := [none, none],
                                                       matrixPalette := some (identityPalette 2) } } := by
    obtain ⟨h1, _, _, e⟩ :=
      setJointCount_done { heap := sampleHeap, skin := MeshSkin.new 50 } 2 (by decide)
    exact ⟨_, rfl, rfl⟩
  obtain ⟨w1, hw1, rfl⟩ := hcount
  refine ⟨_, rfl, ?_⟩
  exact (held_references sampleHeap.refCount _
    (RefReachable.joint _ _ (some 1) 0
      (RefReachable.jointCount _ _ 2 (RefReachable.init sampleHeap 50 rfl) hw1) rfl)).1 1

/-- C22: on a skin whose buffer has the three rows per slot that
`setJointCount` allocates, `getMatrixPalette()` completes exactly when every
slot holds a joint; with a null slot it stops on the null dereference of that
slot, as it does right after every completed `setJointCount(n)` with `n > 0`
(the call completes whenever the palette size `3 * n` is an `unsigned int`)
and after a completed `setJoint(null, i)`; with zero slots it completes,
changes nothing and the palette has no rows. -/
theorem getMatrixPalette_error_free (ujm : Heap → Ptr → Matrix → Rows) :
    (∀ w : World, (paletteRows w).length = 3 * getJointCount w →
      ((∃ w', getMatrixPalette ujm w = .done w') ↔
        ∀ i, i < getJointCount w → ∃ p, getJoint w i = .ok (some p)) ∧
      ((∃ i, getJoint w i = .ok none) →
        ∃ w', getMatrixPalette ujm w = .failed Fault.nullDereference w') ∧
      (getJointCount w = 0 → getMatrixPalette ujm w = .done w ∧ paletteRows w = [])) ∧
    (∀ (w : World) (n : Nat), 0 < n →
      (∀ w1, setJointCount w n = .done w1 →
        ∃ w', getMatrixPalette ujm w1 = .failed Fault.nullDereference w') ∧
      (n * PALETTE_ROWS < UINT_RANGE → ∃ w1, setJointCount w n = .done w1)) ∧
    (∀ (w w1 : World) (i : Nat), (paletteRows w).length = 3 * getJointCount w →
      setJoint w none i = .done w1 →
      ∃ w', getMatrixPalette ujm w1 = .failed Fault.nullDereference w') := by
  have hnullslot : ∀ w : World, (∃ i, getJoint w i = .ok none) → none ∈ w.skin.joints := by
    rintro w ⟨i, hi⟩
    exact List.getElem?_mem (getJoint_some_index w i none hi)
  refine ⟨?_, ?_, ?_⟩
  · intro w hsized
    refine ⟨⟨?_, ?_⟩, ?_, ?_⟩
    · rintro ⟨w', hdone⟩ i hi
      cases hget : w.skin.joints[i]? with
      | none =>
        rw [List.getElem?_eq_none_iff] at hget
        exact absurd hi (by simp only [getJointCount]; omega)
      | some j =>
        cases j with
        | some p => exact ⟨p, getJoint_of_index w i (some p) hget⟩
        | none =>
          obtain ⟨w2, hfail⟩ := getMatrixPalette_null ujm w hsized (List.getElem?_mem hget)
          rw [hfail] at hdone
          cases hdone
    · intro hall
      obtain ⟨w', hdone, _⟩ := getMatrixPalette_bound ujm w hsized hall
      exact ⟨w', hdone⟩
    · intro hex
      exact getMatrixPalette_null ujm w hsized (hnullslot w hex)
    · intro hzero
      have hnil : w.skin.joints = [] := List.length_eq_zero.mp hzero
      refine ⟨by simp [getMatrixPalette, hnil, getMatrixPaletteLoop], ?_⟩
      rw [hzero] at hsized
      exact List.length_eq_zero.mp (by omega)
  · intro w n hn
    refine ⟨?_, ?_⟩
    · intro w1 hdone
      obtain ⟨hj, _⟩ := setJointCount_props w w1 n hdone
      obtain ⟨m, rfl⟩ : ∃ m, n = m + 1 := ⟨n - 1, by omega⟩
      refine ⟨w1, ?_⟩
      rw [getMatrixPalette, hj, List.replicate_succ]
      rfl
    · intro hfit
      obtain ⟨w1, hdone, _⟩ := setJointCount_paletteRows w n hfit
      exact ⟨w1, hdone⟩
  · intro w w1 i hsized hset
    have hsized1 := setJoint_paletteRows w w1 none i hset hsized
    obtain ⟨hi, hskin, _⟩ := setJoint_effect w w1 none i hset
    have hmem : none ∈ w1.skin.joints := by
      rw [hskin]
      exact List.mem_iff_getElem?.mpr ⟨i, by simp [List.getElem?_set_eq_of_lt _ hi]⟩
    exact getMatrixPalette_null ujm w1 hsized1 hmem

/-- Witness of C22 on the sample skin, whose slot 1 is null. -/
theorem getMatrixPalette_error_free_witness :
    ∃ w', getMatrixPalette sampleRows sampleWorld = .failed Fault.nullDereference w' :=
  ((getMatrixPalette_error_free sampleRows).1 sampleWorld (by decide)).2.1 ⟨1, rfl⟩

/-- C23: for every `n` and every prior state `setJointCount(n)` also resets the
root of the skin.  The call ends in a state, completed whenever the palette
size `3 * n` is an `unsigned int` and otherwise possibly stopped inside the
palette loop that follows the reset, in which `getRootJoint()` is null, the
root node is null and its reference is released (the reference count of the
former root node went down by one, besides one for each slot that held it),
and the skin has no registration left on the parent of the former root
joint. -/
theorem setJointCount_resets_root (w : World) (n : Nat) :
    ∃ w', (setJointCount w n = .done w' ∨ ∃ f, setJointCount w n = .failed f w') ∧
      (n * PALETTE_ROWS < UINT_RANGE → setJointCount w n = .done w') ∧
      getRootJoint w' = none ∧ w'.skin.rootNode = none ∧
      (∀ t, w.skin.rootNode = some t →
        w'.heap.refCount t = w.heap.refCount t - 1 - (slotsHolding w.skin t : Nat)) ∧
      (∀ r p, w.skin.rootJoint = some r → w.heap.nodes.parent r = some p →
        registrations w'.heap w'.skin.self p = []) := by
  obtain ⟨w', hcases, _, hrj, hrn, hself, hrc, hl, _⟩ := setJointCount_state w n
  have hdone : n * PALETTE_ROWS < UINT_RANGE → setJointCount w n = .done w' := by
    intro hfit
    obtain ⟨h1, _, _, e⟩ := setJointCount_done w n hfit
    rcases hcases with hd | ⟨f, hf⟩
    · exact hd
    · rw [e] at hf
      cases hf
  refine ⟨w', hcases, hdone, hrj, hrn, ?_, ?_⟩
  · intro t ht
    rw [hrc t, if_pos ht]
  · intro r p hr hp
    rw [registrations_congr w'.heap (detachRootListener w) _ p hl, hself]
    simp [registrations, detachRootListener, hr, hp, removeListener, List.filter_filter]

/-- C24, failing input: one skin on the fresh sample scene, taken `2 ^ 32` times
through `setJointCount(1)` and `setJoint(joint 1, 0)`.  Each round adds 1 to
the skin count of joint 1 and `clearJoints` never takes it off, so in this
reachable state the counter has wrapped to 0 while one slot holds joint 1:
the skin count is below the number of holders, and the decrement of the next
`setJoint` on that slot wraps below zero to `2 ^ 32 - 1`. -/
theorem skinCount_wraps_below_holders :
    ∃ (h : Heap) (skins : List MeshSkin), SkinsReachable UINT_RANGE h skins ∧
      h.skinCount 1 = 0 ∧ holders skins 1 = 1 ∧
      (decSkinCount h 1).skinCount 1 = UINT_RANGE - 1 := by
  obtain ⟨h, s, hr, hc, hj⟩ := rebind_cycles UINT_RANGE
  have hc0 : h.skinCount 1 = 0 := by rw [hc, Nat.mod_self]
  refine ⟨h, [s], hr, hc0, ?_, ?_⟩
  · simp [holders, slotsHolding, hj (by decide)]
  · simp [decSkinCount, hc0, UINT_RANGE]

/-- C25: `FlowLayout::update` over exact rational arithmetic, with a
`Control::update` that changes neither bounds nor margin, on controls with
non-negative widths, heights and margins: every control is placed and keeps
its width and height; the first control is placed at (margin.left,
margin.top); and for any two controls `i < j` the bounds rectangles do not
overlap, because either no iteration after `i` up to `j` wrapped and
`x_j ≥ x_i + width_i`, or one of them wrapped and `y_j ≥ y_i + height_i`. -/
theorem flowLayout_no_overlap (controlUpdate : Rectangle → Control → Control)
    (container : Container)
    (hcu : ∀ r c, (controlUpdate r c).bounds = c.bounds ∧ (controlUpdate r c).margin = c.margin)
    (hnn : ∀ c ∈ container.controls, nonNegative c) :
    (flowLayoutUpdate controlUpdate container).length = container.controls.length ∧
    (∀ (c0 : Control) (rest : List Control), container.controls = c0 :: rest →
      ∃ (e : Placed) (tail : List Placed),
        flowLayoutUpdate controlUpdate container = e :: tail ∧
        e.control.bounds.x = c0.margin.left ∧ e.control.bounds.y = c0.margin.top) ∧
    ∀ (i j : Nat) (ei ej : Placed), i < j →
      (flowLayoutUpdate controlUpdate container)[i]? = some ei →
      (flowLayoutUpdate controlUpdate container)[j]? = some ej →
      (∃ ci, container.controls[i]? = some ci ∧
        ei.control.bounds.width = ci.bounds.width ∧
        ei.control.bounds.height = ci.bounds.height) ∧
      ¬ overlap ei.control.bounds ej.control.bounds ∧
      (((∀ (k : Nat) (ek : Placed), i < k → k ≤ j →
            (flowLayoutUpdate controlUpdate container)[k]? = some ek → ek.wrapped = false) ∧
          ej.control.bounds.x ≥ ei.control.bounds.x + ei.control.bounds.width) ∨
        ((∃ (k : Nat) (ek : Placed), i < k ∧ k ≤ j ∧
            (flowLayoutUpdate controlUpdate container)[k]? = some ek ∧ ek.wrapped = true) ∧
          ej.control.bounds.y ≥ ei.control.bounds.y + ei.control.bounds.height)) := by
  refine ⟨flowLoop_length _ _ _ _ _, ?_, ?_⟩
  · intro c0 rest hc
    unfold flowLayoutUpdate
    rw [hc, flowLoop_cons]
    obtain ⟨_, _, _, hx, hy, hrow, _⟩ :=
      flowStep_facts (clipWidth container) controlUpdate container.clip hcu
        { xPosition := 0, rowY := 0, tallestHeight := 0 } c0
    refine ⟨_, _, rfl, ?_, ?_⟩
    · rw [hx]
      split
      · rfl
      · exact zero_add _
    · rw [hy, hrow]
      split
      · rw [add_zero, zero_add]
      · exact zero_add _
  · intro i j ei ej hij hi hj
    have hd := flowLoop_apart (clipWidth container) controlUpdate container.clip hcu
      container.controls { xPosition := 0, rowY := 0, tallestHeight := 0 } hnn (le_refl _)
      i j ei ej hij hi hj
    refine ⟨flowLoop_keeps _ _ _ hcu _ _ i ei hi, ?_, hd⟩
    rintro ⟨_, hox, _, hoy⟩
    rcases hd with ⟨_, hx⟩ | ⟨_, hy⟩
    · exact absurd hox (not_lt.mpr hx)
    · exact absurd hoy (not_lt.mpr hy)

/-- Witness of C25: the sample container, with a `Control::update` that leaves
the control as it is; all three controls are placed. -/
theorem flowLayout_no_overlap_witness :
    (∀ c ∈ sampleContainer.controls, nonNegative c) ∧
    (flowLayoutUpdate (fun _ c => c) sampleContainer).length = 3 :=
  have hnn : ∀ c ∈ sampleContainer.controls, nonNegative c := by
    intro c hc
    simp only [sampleContainer, List.mem_cons, List.mem_singleton, List.not_mem_nil,
      or_false] at hc
    rcases hc with rfl | rfl | rfl <;> norm_num [nonNegative]
  ⟨hnn, (flowLayout_no_overlap (fun _ c => c) sampleContainer
    (fun _ _ => ⟨rfl, rfl⟩) hnn).1⟩

end GamePlay
